import Mathlib

/-!
# Tabs: selection state machine, pagination, ink bar and content area

Shallow embedding of `src/components/tabs/tabs.js`: the `TabsController`, and
of the tabs directive `updatePagination`, `selectPageAt`, `updateInkBar` and
`buildContentItems`.

* A tab scope is a record `Tab`; two tab references are the same object exactly
  when their `id` (`$id`) agree, which is how `==` on scopes is read here.
* `null` and `undefined` are both `none`: the source only ever tests them with
  `==`, `!=`, `||`, `&&` and `?:`, which do not tell them apart.
* `$scope.$selIndex` holds a `SelIndex`: a number (what the `selected` binding
  supplies, or the `-1` of `selectTab`) or the string `String(n)` that
  `selectTab` assigns for a selected tab; where the source compares it with a
  number or computes with it, it is read through `SelIndex.toNumber`.
* The controller's closure variables (`list`, `selected`, `onTabsChanged.queued`,
  `$$hash`) and `$scope.$selIndex` are the fields of `TabsController`; calls of
  the per-tab hooks, writes to `$scope.$selIndex` and schedulings of the change
  notification are recorded in ghost fields so that frame properties can be
  stated.
* The DOM element cache `elements` is not part of the controller state; the
  ink bar takes it as an argument.
* Pagination arithmetic is exact: widths and offsets are rationals, page
  counts and indices integers.
-/

namespace Tabs

/-- A tab scope: `$id`, `$index` (`none` when undefined), `disabled`, `active`. -/
structure Tab where
  id : Nat
  index : Option Nat
  disabled : Bool
  active : Bool
deriving DecidableEq, Repr

/-- A call of one of the per-tab hooks `tab.selected()` / `tab.deselected()`. -/
inductive Hook where
  | selected (id : Nat)
  | deselected (id : Nat)
deriving DecidableEq, Repr

/-- How a call ends: with a value, with a `TypeError` (property read on `null`
or `undefined`), or with the recursion budget used up. -/
inductive Completion (α : Type) where
  | normal (value : α)
  | typeError
  | outOfFuel
deriving DecidableEq, Repr

/-! ## The registry (`Util.iterator`) -/

namespace Registry

/-- Modelled from the spec: `Util.iterator` is not among the sources; `count()`
is the number of entries of the ordered sequence. -/
def count (items : List Tab) : Nat := items.length

/-- Modelled from the spec: `contains(tab)` of the absent `Util.iterator`; a tab
is in the registry when one of the entries is that object. -/
def contains (items : List Tab) (tab : Tab) : Bool :=
  items.any (fun it => it.id == tab.id)

/-- Modelled from the spec: `indexOf(tab)` of the absent `Util.iterator`; the
position of the tab in the ordered sequence, `-1` when it is not an entry. -/
def indexOf (items : List Tab) (tab : Tab) : Int :=
  if contains items tab then (items.findIdx (fun it => it.id == tab.id) : Nat) else -1

/-- Modelled from the spec: `first()` of the absent `Util.iterator`; the first
entry, or null for the empty registry. -/
def first (items : List Tab) : Option Tab := items.head?

/-- Modelled from the spec: `inRange(index)` of the absent `Util.iterator`; the
index designates a position of the sequence. -/
def inRange (items : List Tab) (index : Int) : Bool :=
  decide (0 ≤ index) && decide (index < (items.length : Int))

/-- Modelled from the spec: `findBy(key, value)` of the absent `Util.iterator`,
for the only key the controller uses, `"$index"`; the entries whose `$index` is
`value`, in registry order. -/
def findBy (items : List Tab) (value : Int) : List Tab :=
  items.filter (fun it =>
    match it.index with
    | some n => decide ((n : Int) = value)
    | none => false)

/-- Modelled from the spec: `add(tab, index?) -> assignedIndex` of the absent
`Util.iterator`, for a supplied index (the controller always supplies one);
the tab is placed at that position (at the end when the index is past it) and
the position it received is returned. -/
def add (items : List Tab) (tab : Tab) (index : Nat) : List Tab × Nat :=
  (items.take index ++ tab :: items.drop index, min index items.length)

/-- Modelled from the spec: `remove(tab)` of the absent `Util.iterator`; the
entry is dropped, the order of the others kept. -/
def remove (items : List Tab) (tab : Tab) : List Tab :=
  items.filter (fun it => it.id != tab.id)

/-- Modelled from the spec: `next(tab, predicate)` of the absent
`Util.iterator`; a cyclic scan from the entry after `tab`, wrapping past the
end to the start, that returns the first entry other than `tab` satisfying the
predicate, and null when there is none (or when `tab` is not an entry, so that
the scan has no starting point). -/
def next (items : List Tab) (tab : Tab) (predicate : Tab → Bool) : Option Tab :=
  if contains items tab then
    let i := items.findIdx (fun it => it.id == tab.id)
    (items.drop (i + 1) ++ items.take i).find? predicate
  else none

/-- Modelled from the spec: `previous(tab, predicate)` of the absent
`Util.iterator`; the cyclic scan of `next` in the opposite direction, wrapping
past the start to the end. -/
def previous (items : List Tab) (tab : Tab) (predicate : Tab → Bool) : Option Tab :=
  if contains items tab then
    let i := items.findIdx (fun it => it.id == tab.id)
    ((items.take i).reverse ++ (items.drop (i + 1)).reverse).find? predicate
  else none

end Registry

/-! ## The controller -/

/-- A value of `$scope.$selIndex`: a number (what the `selected` binding of
the directive supplies, and the `-1` that `selectTab` assigns), or the string
`String(n)`, the decimal numeral of the number `n`, which is what `selectTab`
assigns when a tab is selected. -/
inductive SelIndex where
  | number (n : Int)
  | string (n : Int)
deriving DecidableEq, Repr

/-- The number a `$selIndex` value is read as where the source compares it
with a number or computes with it (`==`, `<`, `>=`, `/`): JS `ToNumber`, under
which `String(n)` is `n` again. -/
def SelIndex.toNumber : SelIndex → Int
  | SelIndex.number n => n
  | SelIndex.string n => n

/-- State of a `TabsController`: the registry `list`, the closure variable
`selected` (the `$id` of the selected tab), `$scope.$selIndex` (`none` when
undefined), `onTabsChanged.queued`, `$$hash` (the ids that are joined), and the
ghost records `hooks` (hook calls in order), `writes` (values assigned to
`$scope.$selIndex`, in order) and `scheduled` (number of `$evalAsync`
callbacks scheduled by `onTabsChanged`). -/
structure TabsController where
  list : List Tab
  selected : Option Nat
  selIndex : Option SelIndex
  queued : Bool
  hash : List Nat
  hooks : List Hook
  writes : List SelIndex
  scheduled : Nat
deriving DecidableEq, Repr

/-- A freshly constructed controller whose `$selIndex` binding holds the
integer `selIndex` (`@param {integer=} selected`), or is undefined. -/
def TabsController.init (selIndex : Option Int) : TabsController :=
  { list := [], selected := none, selIndex := selIndex.map SelIndex.number, queued := false,
    hash := [], hooks := [], writes := [], scheduled := 0 }

/-- The tab object the closure variable `selected` refers to. -/
def selectedTab (s : TabsController) : Option Tab :=
  s.selected.bind (fun i => s.list.find? (fun it => it.id == i))

/-- Source `onTabsChanged`: schedule the change notification unless one is queued. -/
def onTabsChanged (s : TabsController) : TabsController :=
  if s.queued then s else { s with queued := true, scheduled := s.scheduled + 1 }

/-- Source `updateHash`: the `$id`s of the registry in order. -/
def updateHash (s : TabsController) : TabsController :=
  { s with hash := s.list.map (fun it => it.id) }

/-- Source `isEnabled(tab)`: `tab && !tab.disabled`. -/
def isEnabled (tab : Tab) : Bool := !tab.disabled

/-- Source `isEnabled` on a possibly null reference. -/
def isEnabledRef (tab : Option Tab) : Bool :=
  match tab with
  | some t => isEnabled t
  | none => false

/-- Source `makeActivator(active)` applied to the tab object `tab` while the closure
variable `selected` holds `sel`: the object afterwards, `selected` afterwards,
the hooks called, and the value returned. -/
def updateState (active : Bool) (sel : Option Nat) (tab : Tab) :
    Tab × Option Nat × List Hook × Option Tab :=
  if active != tab.active then
    let tab1 : Tab := { tab with active := active }
    if active then
      (tab1, some tab.id, [Hook.selected tab.id], some tab1)
    else
      (tab1, if sel = some tab.id then none else sel, [Hook.deselected tab.id], some tab1)
  else (tab, sel, [], none)

/-- Source `angular.forEach(list.items(), deactivate)`: the deactivator visits the
registry's objects in order; yields the objects afterwards, `selected`
afterwards and the hooks called. -/
def forEachDeactivate : List Tab → Option Nat → List Tab × Option Nat × List Hook
  | [], sel => ([], sel, [])
  | tab :: rest, sel =>
    let r := updateState false sel tab
    let rs := forEachDeactivate rest r.2.1
    (r.1 :: rs.1, rs.2.1, r.2.2.1 ++ rs.2.2)

/-- Source `activate(target)` for a reference `target`: the activator runs on the
registry object that `target` is (on the passed object itself when it is not in
the registry, whose flag the registry does not hold). A null `target` returns
null without effect. -/
def activate : List Tab → Option Nat → Option Tab → List Tab × Option Nat × List Hook × Option Tab
  | items, sel, none => (items, sel, [], none)
  | [], sel, some target =>
    let r := updateState true sel target
    ([], r.2.1, r.2.2.1, r.2.2.2)
  | it :: rest, sel, some target =>
    if it.id = target.id then
      let r := updateState true sel it
      (r.1 :: rest, r.2.1, r.2.2.1, r.2.2.2)
    else
      let rs := activate rest sel (some target)
      (it :: rs.1, rs.2.1, rs.2.2.1, rs.2.2.2)

/-- The value `selected ? String(selected.$index || list.indexOf(selected)) : -1`:
the number `-1` when `selected` is null, else the string of `selected.$index`,
or of the position of `selected` in the registry when its `$index` is
undefined or `0`. -/
def selIndexValue (items : List Tab) (sel : Option Tab) : SelIndex :=
  match sel with
  | none => SelIndex.number (-1)
  | some t =>
    match t.index with
    | some (n + 1) => SelIndex.string ((n + 1 : Nat) : Int)
    | _ => SelIndex.string (Registry.indexOf items t)

/-- Source `selectTab(tab, noUpdate)`: the state afterwards and the value returned
(`none` for both `undefined`, the early return, and `null`). -/
def selectTab (s : TabsController) (tab : Option Tab) (noUpdate : Bool) :
    TabsController × Option Tab :=
  if tab.map (fun t => t.id) = s.selected then (s, none)
  else
    let d := forEachDeactivate s.list s.selected
    let s1 : TabsController := { s with list := d.1, selected := d.2.1, hooks := s.hooks ++ d.2.2 }
    match tab with
    | none => (s1, selectedTab s1)
    | some t =>
      let target := if t.disabled then Registry.next s1.list t isEnabled else some t
      let a := activate s1.list s1.selected target
      let s2 : TabsController :=
        { s1 with list := a.1, selected := a.2.2.2.map (fun x => x.id), hooks := s1.hooks ++ a.2.2.1 }
      let v := selIndexValue s2.list a.2.2.2
      let s3 : TabsController := { s2 with selIndex := some v, writes := s2.writes ++ [v] }
      (if noUpdate then s3 else onTabsChanged s3, a.2.2.2)

mutual
/-- Source `selectNext(target)`, published as `next`; `fuel` bounds the depth of the
calls that `selectNext` and `selectPrevious` make to each other. A null or
undefined `target` is not an entry of the registry, so the scan returns null
and reading `target.disabled` throws. -/
def selectNext : Nat → TabsController → Option Tab → TabsController × Completion (Option Tab)
  | 0, s, _ => (s, Completion.outOfFuel)
  | _ + 1, s, none => (s, Completion.typeError)
  | fuel + 1, s, some target =>
    match Registry.next s.list target isEnabled with
    | some next =>
      let r := selectTab s (some next) false
      (r.1, Completion.normal r.2)
    | none =>
      if target.disabled then selectPrevious fuel s (some target)
      else (s, Completion.normal (some target))
/-- Source `selectPrevious(target)`, published as `previous`. -/
def selectPrevious : Nat → TabsController → Option Tab →
    TabsController × Completion (Option Tab)
  | 0, s, _ => (s, Completion.outOfFuel)
  | _ + 1, s, none => (s, Completion.typeError)
  | fuel + 1, s, some target =>
    match Registry.previous s.list target isEnabled with
    | some previous =>
      let r := selectTab s (some previous) false
      (r.1, Completion.normal r.2)
    | none =>
      if target.disabled then selectNext fuel s (some target)
      else (s, Completion.normal (some target))
end

/-- Source `selectTabAt(index, noUpdate)`, published as `selectAt`. -/
def selectTabAt (fuel : Nat) (s : TabsController) (index : Int) (noUpdate : Bool) :
    TabsController × Completion Unit :=
  if Registry.inRange s.list index then
    let it := (Registry.findBy s.list index).head?
    if it.map (fun t => t.id) ≠ s.selected then
      if !isEnabledRef it then
        match selectNext fuel s it with
        | (s1, Completion.normal it1) =>
          ((selectTab s1 (it1.orElse (fun _ => Registry.first s1.list)) noUpdate).1,
            Completion.normal ())
        | (s1, Completion.typeError) => (s1, Completion.typeError)
        | (s1, Completion.outOfFuel) => (s1, Completion.outOfFuel)
      else
        ((selectTab s (it.orElse (fun _ => Registry.first s.list)) noUpdate).1,
          Completion.normal ())
    else (s, Completion.normal ())
  else (s, Completion.normal ())

/-- Source `addTab(tab, element)`, published as `add`: the state afterwards and the
returned `tab.$index`. -/
def addTab (s : TabsController) (tab : Tab) : TabsController × Nat :=
  let index := tab.index.getD (Registry.count s.list)
  let tab1 : Tab := { tab with index := some index }
  let s1 :=
    if !Registry.contains s.list tab1 then
      let r := Registry.add s.list tab1 index
      let s2 : TabsController := { s with list := r.1 }
      if s2.selIndex.map SelIndex.toNumber = some (r.2 : Int) || tab1.active then (selectTab s2 (some tab1) false).1
      else onTabsChanged s2
    else s
  (updateHash s1, index)

/-- Source `removeTab(tab)`, published as `remove`. -/
def removeTab (s : TabsController) (tab : Tab) : TabsController :=
  let s1 :=
    if Registry.contains s.list tab then
      let target :=
        (Registry.next s.list tab isEnabled).orElse (fun _ => Registry.previous s.list tab isEnabled)
      let s2 := (selectTab s target false).1
      onTabsChanged { s2 with list := Registry.remove s2.list tab }
    else s
  updateHash s1

/-- Source `selectDefaultTab` of the tabs directive: `tabsController.$$tabs()` is the
registry in order; the first tab is selected when `$selIndex` is undefined. -/
def selectDefaultTab (s : TabsController) : TabsController :=
  match s.list with
  | first :: _ => if s.selIndex.isNone then (selectTab s (some first) false).1 else s
  | [] => s

/-- The `disabled` watcher of a tab (`configureWatchers`): when the tab is
active and now disabled, `tabsController.next(scope)`. -/
def disabledWatcher (fuel : Nat) (s : TabsController) (scope : Tab) (isDisabled : Bool) :
    TabsController × Completion Unit :=
  if scope.active && isDisabled then
    match selectNext fuel s (some scope) with
    | (s1, Completion.normal _) => (s1, Completion.normal ())
    | (s1, Completion.typeError) => (s1, Completion.typeError)
    | (s1, Completion.outOfFuel) => (s1, Completion.outOfFuel)
  else (s, Completion.normal ())

/-- The tabs of the registry whose `active` flag is set. -/
def activeTabs (s : TabsController) : List Tab := s.list.filter (fun it => it.active)

/-- The tab object with its `active` flag cleared. -/
def Tab.off (t : Tab) : Tab := { t with active := false }

/-- The invariant of the selection state machine: the registry holds each tab
object once, and a tab whose `active` flag is set is the one `selected` refers
to. -/
def Inv (s : TabsController) : Prop :=
  (s.list.map (fun it => it.id)).Nodup ∧
    ∀ t ∈ s.list, t.active = true → s.selected = some t.id

/-- The operations a controller receives from its tabs and from the
`$selIndex` watcher. -/
inductive Op where
  | add (tab : Tab)
  | remove (tab : Tab)
  | select (tab : Tab)
  | selectAt (index : Int)
deriving DecidableEq, Repr

/-- One operation; a call that ends abnormally leaves the state it reached. -/
def step (fuel : Nat) (s : TabsController) : Op → TabsController
  | Op.add tab => (addTab s tab).1
  | Op.remove tab => removeTab s tab
  | Op.select tab => (selectTab s (some tab) false).1
  | Op.selectAt index => (selectTabAt fuel s index false).1

/-- A sequence of operations on a new controller bound to `selIndex`. -/
def run (fuel : Nat) (selIndex : Option Int) (ops : List Op) : TabsController :=
  ops.foldl (step fuel) (TabsController.init selIndex)

/-- The registry with the `active` flag set on exactly the tab whose id is `sel`. -/
def setActive (l : List Tab) (sel : Option Nat) : List Tab :=
  l.map (fun u => { u with active := decide (sel = some u.id) })

/-- The tab `selectTab` activates for a non-null argument: the tab itself, or
`list.next(tab, isEnabled)` when it is disabled. -/
def resolveTarget (l : List Tab) (t : Tab) : Option Tab :=
  if t.disabled then Registry.next l t isEnabled else some t

/-- Example registry: tabs A (`$id` 10, selected and active), B (11), C (12),
all enabled, with the indices 0, 1, 2. -/
def exampleABC : TabsController :=
  { list := [⟨10, some 0, false, true⟩, ⟨11, some 1, false, false⟩, ⟨12, some 2, false, false⟩],
    selected := some 10, selIndex := some (SelIndex.string 0), queued := false, hash := [10, 11, 12],
    hooks := [], writes := [], scheduled := 0 }

/-- Example registry: tab A (`$id` 10, enabled, index 0) and tab B (11,
disabled, index 1), nothing selected. -/
def exampleAdisabledB : TabsController :=
  { list := [⟨10, some 0, false, false⟩, ⟨11, some 1, true, false⟩],
    selected := none, selIndex := none, queued := false, hash := [10, 11],
    hooks := [], writes := [], scheduled := 0 }

/-- Example registry: A (`$id` 10, index 0), the disabled B (11, index 1) and C
(12, index 2, selected and active). -/
def exampleCactive : TabsController :=
  { list := [⟨10, some 0, false, false⟩, ⟨11, some 1, true, false⟩, ⟨12, some 2, false, true⟩],
    selected := some 12, selIndex := some (SelIndex.string 2), queued := false, hash := [10, 11, 12],
    hooks := [], writes := [], scheduled := 0 }

/-- Example registry: the one tab A (`$id` 10, index 0) is selected, active, and
has just been disabled. -/
def exampleActiveDisabled : TabsController :=
  { list := [⟨10, some 0, true, true⟩],
    selected := some 10, selIndex := some (SelIndex.string 0), queued := false, hash := [10],
    hooks := [], writes := [], scheduled := 0 }

/-- Example registry: two disabled tabs A (`$id` 10) and B (11), nothing
selected. -/
def exampleAllDisabled : TabsController :=
  { list := [⟨10, some 0, true, false⟩, ⟨11, some 1, true, false⟩],
    selected := none, selIndex := none, queued := false, hash := [10, 11],
    hooks := [], writes := [], scheduled := 0 }

/-- Example registry: two enabled tabs A (`$id` 10) and B (11), B selected and
active. -/
def exampleBactive : TabsController :=
  { list := [⟨10, some 0, false, false⟩, ⟨11, some 1, false, true⟩],
    selected := some 11, selIndex := some (SelIndex.string 1), queued := false, hash := [10, 11],
    hooks := [], writes := [], scheduled := 0 }

/-- The expression `previous(next(t))`: the value `next` returns is passed to `previous`; an
abnormal end of `next` ends the whole expression. -/
def previousOfNext (fuel : Nat) (s : TabsController) (t : Tab) :
    TabsController × Completion (Option Tab) :=
  match selectNext fuel s (some t) with
  | (s1, Completion.normal r) => selectPrevious fuel s1 r
  | (s1, Completion.typeError) => (s1, Completion.typeError)
  | (s1, Completion.outOfFuel) => (s1, Completion.outOfFuel)

/-- The directive links three tabs in order (each `linkTab` ends in
`tabsController.add`): the three returned indices and the state afterwards. -/
def addThree (s : TabsController) (a b c : Tab) : (Nat × Nat × Nat) × TabsController :=
  let r1 := addTab s a
  let r2 := addTab r1.1 b
  let r3 := addTab r2.1 c
  ((r1.2, r2.2, r3.2), r3.1)

/-- A run of `add` calls on a new controller bound to `selIndex`. -/
def addAll (selIndex : Option Int) (tabs : List Tab) : TabsController :=
  tabs.foldl (fun s tab => (addTab s tab).1) (TabsController.init selIndex)

/-- Example registry: A, B, C (`$id` 10, 11, 12) added in that order without
explicit index to a new controller with no `$selIndex` bound. -/
def exampleAdded : TabsController :=
  addAll none [⟨10, none, false, false⟩, ⟨11, none, false, false⟩, ⟨12, none, false, false⟩]

/-! ## Pagination and ink bar of the tabs directive (`tabsPostLink`)

Numbers that the source can leave `undefined` or `NaN` are `Option` values,
`none` standing for both: in arithmetic both propagate as `NaN`, every
comparison with them is false, and `x || 0` replaces them by `0`. -/

/-- The JS comparison `a < b` on numbers that may be `NaN`. -/
def ltNum (a b : Option Int) : Bool :=
  match a, b with
  | some x, some y => decide (x < y)
  | _, _ => false

/-- The JS comparison `a > b` on numbers that may be `NaN`. -/
def gtNum (a b : Option Int) : Bool := ltNum b a

/-- The JS comparison `a >= b` on numbers that may be `NaN`. -/
def geNum (a b : Option Int) : Bool :=
  match a, b with
  | some x, some y => decide (y ≤ x)
  | _, _ => false

/-- The JS comparison `a <= b` on numbers that may be `NaN`. -/
def leNum (a b : Option Int) : Bool := geNum b a

/-- The `pagination` object of the directive scope; every field is undefined
until it is first assigned. -/
structure Pagination where
  active : Option Bool
  pagesCount : Option Int
  itemsPerPage : Option Int
  tabWidth : Option ℚ
  page : Option Int
  startIndex : Option Int
  endIndex : Option Int
  hasPrev : Option Bool
  hasNext : Option Bool
deriving DecidableEq

/-- The `pagination` object as `configurePagination` creates it. -/
def Pagination.init : Pagination :=
  { active := none, pagesCount := none, itemsPerPage := none, tabWidth := none, page := none,
    startIndex := none, endIndex := none, hasPrev := none, hasNext := none }

/-- The directive scope as far as pagination reads and writes it: the
controller (whose `$scope` it is, `$selIndex` included), `scope.pagination` and
`scope.pagingOffset`. The styles written to the button bar are not part of
the model. -/
structure TabsDirective where
  ctrl : TabsController
  pagination : Pagination
  pagingOffset : Option ℚ
deriving DecidableEq

/-- Minimum tab width `TAB_MIN_WIDTH = 8 * 12`. -/
def TAB_MIN_WIDTH : Int := 8 * 12

/-- Width of the two paginators `PAGINATORS_WIDTH = (8 * 4) * 2`. -/
def PAGINATORS_WIDTH : Int := (8 * 4) * 2

/-- Source `isTabInRange(tabIndex)`. -/
def isTabInRange (pagination : Pagination) (tabIndex : Option Int) : Bool :=
  geNum tabIndex pagination.startIndex && leNum tabIndex pagination.endIndex

/-- Source `slideTabButtons(xOffset)`: the new `scope.pagingOffset`. -/
def slideTabButtons (pagingOffset : Option ℚ) (xOffset : Option ℚ) : Option ℚ :=
  match pagingOffset, xOffset with
  | some old, some x => if old = x then some old else some x
  | _, some x => some x
  | _, none => some 0

/-- Source `getPageAtTabIndex(tabIndex)`. -/
def getPageAtTabIndex (pagination : Pagination) (tabIndex : Option Int) : Option Int :=
  let numPages := pagination.pagesCount
  let lastTab : Option Int :=
    (pagination.itemsPerPage.bind fun i => pagination.pagesCount.map fun c => i * c).map
      fun x => x - 1
  let lastPage := pagination.pagesCount.map fun c => c - 1
  if ltNum numPages (some 1) then some (-1)
  else if ltNum tabIndex (some 0) then some 0
  else if gtNum tabIndex lastTab then lastPage
  else tabIndex.bind fun t => pagination.itemsPerPage.map fun i => ⌊(t : ℚ) / (i : ℚ)⌋

/-- The call `tabsController.selectAt(index)` made by `selectPageAt`; a `NaN`
index is not in the range of the registry. -/
def selectAtNum (fuel : Nat) (ctrl : TabsController) (index : Option Int) :
    TabsController × Completion Unit :=
  match index with
  | some i => selectTabAt fuel ctrl i false
  | none => (ctrl, Completion.normal ())

/-- The value of `page` in `selectPageAt(page)` after its two clamps
`if (page < 0) page = 0; if (page > lastPage) page = lastPage;`. -/
def clampPage (pg : Pagination) (page : Option Int) : Option Int :=
  let lastPage := pg.pagesCount.map fun c => c - 1
  let page1 := if ltNum page (some 0) then some 0 else page
  if gtNum page1 lastPage then lastPage else page1

/-- The four assignments of `selectPageAt` to `startIndex`, `endIndex`, `hasPrev`
and `hasNext`, for the clamped `page`; `lastTab` is
`buttonBar.children().length - 1`. -/
def pageRange (pg : Pagination) (lastTab : Int) (page : Option Int) : Pagination :=
  let inactive := !(pg.active.getD false)
  let startIndex : Option Int :=
    if inactive then some 0 else page.bind fun p => pg.itemsPerPage.map fun i => p * i
  let endIndex : Option Int :=
    if inactive then some lastTab
    else startIndex.bind fun s => pg.itemsPerPage.map fun i => s + i - 1
  { pg with
    startIndex := startIndex
    endIndex := endIndex
    hasPrev := some (if inactive then false else gtNum page (some 0))
    hasNext := some (if inactive then false else ltNum (page.map fun p => p + 1) pg.pagesCount) }

/-- The argument `-page * pagination.itemsPerPage * pagination.tabWidth` of
`slideTabButtons` in `selectPageAt`. -/
def pageOffset (pg : Pagination) (page : Option Int) : Option ℚ :=
  page.bind fun p => pg.itemsPerPage.bind fun i => pg.tabWidth.map fun w =>
    -(p : ℚ) * (i : ℚ) * w

/-- Source `selectPageAt(page)`; `tabsLength` is `buttonBar.children().length`.
When `tabsController.selectAt` ends abnormally the final assignment of
`pagination.page` is not reached. -/
def selectPageAt (fuel : Nat) (d : TabsDirective) (tabsLength : Nat) (page : Option Int) :
    TabsDirective × Completion Unit :=
  let page2 := clampPage d.pagination page
  let pg1 := pageRange d.pagination ((tabsLength : Int) - 1) page2
  let offset := slideTabButtons d.pagingOffset (pageOffset d.pagination page2)
  if !isTabInRange pg1 (d.ctrl.selIndex.map SelIndex.toNumber) then
    let index := if gtNum page2 d.pagination.page then pg1.startIndex else pg1.endIndex
    match selectAtNum fuel d.ctrl index with
    | (c, Completion.normal _) =>
      ({ ctrl := c, pagination := { pg1 with page := page2 }, pagingOffset := offset },
        Completion.normal ())
    | (c, Completion.typeError) =>
      ({ ctrl := c, pagination := pg1, pagingOffset := offset }, Completion.typeError)
    | (c, Completion.outOfFuel) =>
      ({ ctrl := c, pagination := pg1, pagingOffset := offset }, Completion.outOfFuel)
  else
    ({ ctrl := d.ctrl, pagination := { pg1 with page := page2 }, pagingOffset := offset },
      Completion.normal ())

/-- Source `Math.max(1, Math.floor(tabs.length / pagination.pagesCount))` for an
integer `pagesCount`. A zero `pagesCount` only arises as `-0` (the ceiling of a
quotient in `(-1, 0]` by a negative width), so the quotient is `NaN` for no
tabs and `-Infinity` otherwise, and the maximum is `NaN` or `1`. -/
def itemsPerPageOf (tabsLength : Nat) (pagesCount : Int) : Option Int :=
  if pagesCount = 0 then (if tabsLength = 0 then none else some 1)
  else some (max 1 ⌊(tabsLength : ℚ) / (pagesCount : ℚ)⌋)

/-- Source `updatePagination()`; `tabsLength` is `buttonBar.children().length`
and `offsetWidth` is `element.prop('offsetWidth')`. The result is `none` in
the one case the integer fields cannot hold: the available width is `0` with
tabs present, so that `pagesCount` is `Infinity`. -/
def updatePagination (fuel : Nat) (d : TabsDirective) (tabsLength : Nat) (offsetWidth : Int) :
    Option (TabsDirective × Completion Unit) :=
  let tabsWidth := offsetWidth - PAGINATORS_WIDTH
  let needPagination := decide (TAB_MIN_WIDTH * (tabsLength : Int) > tabsWidth)
  let paginationToggled := decide (some needPagination ≠ d.pagination.active)
  let pg : Pagination := { d.pagination with active := some needPagination }
  if needPagination then
    if tabsWidth = 0 then none
    else
      let pagesCount : Int := ⌈((TAB_MIN_WIDTH * (tabsLength : Int) : Int) : ℚ) / (tabsWidth : ℚ)⌉
      let itemsPerPage := itemsPerPageOf tabsLength pagesCount
      let tabWidth : Option ℚ := itemsPerPage.map fun (i : Int) => (tabsWidth : ℚ) / (i : ℚ)
      let pg1 : Pagination :=
        { pg with pagesCount := some pagesCount, itemsPerPage := itemsPerPage,
                  tabWidth := tabWidth }
      let pageIndex : Option Int :=
        if paginationToggled then getPageAtTabIndex pg1 (d.ctrl.selIndex.map SelIndex.toNumber)
        else some (min (max (pg1.page.getD 0) 0) (pagesCount - 1))
      some (selectPageAt fuel { d with pagination := pg1 } tabsLength pageIndex)
  else
    if paginationToggled then
      some (selectPageAt fuel { d with pagination := pg } tabsLength (some 0))
    else some ({ d with pagination := pg }, Completion.normal ())

/-- The `pagination` object of `updatePagination` just before it calls
`selectPageAt`, when pagination is needed: `active`, `pagesCount`,
`itemsPerPage` and `tabWidth` have been assigned. -/
def paginationFor (pg : Pagination) (tabsLength : Nat) (tabsWidth : Int) : Pagination :=
  { pg with
    active := some true
    pagesCount := some ⌈(((96 : Int) * (tabsLength : Int) : Int) : ℚ) / (tabsWidth : ℚ)⌉
    itemsPerPage :=
      itemsPerPageOf tabsLength ⌈(((96 : Int) * (tabsLength : Int) : Int) : ℚ) / (tabsWidth : ℚ)⌉
    tabWidth :=
      (itemsPerPageOf tabsLength
        ⌈(((96 : Int) * (tabsLength : Int) : Int) : ℚ) / (tabsWidth : ℚ)⌉).map
        fun (i : Int) => (tabsWidth : ℚ) / (i : ℚ) }

/-- Example directive scope: the controller of `exampleBactive` (two tabs),
nothing paginated yet. -/
def exampleDirective : TabsDirective :=
  { ctrl := exampleBactive, pagination := Pagination.init, pagingOffset := none }

/-- Example directive scope: the controller of `exampleBactive` with pagination
active on its second page of two (one tab of 50px per page). -/
def examplePaged : TabsDirective :=
  { ctrl := exampleBactive,
    pagination :=
      { active := some true, pagesCount := some 2, itemsPerPage := some 1, tabWidth := some 50,
        page := some 1, startIndex := some 1, endIndex := some 1, hasPrev := some true,
        hasNext := some false },
    pagingOffset := some (-50) }

/-- The value `Math.ceil((TAB_MIN_WIDTH * tabs.length) / tabsWidth)` that
`updatePagination` assigns to `pagesCount`, for `n` tabs and a nonzero
available width `w`. -/
def pagesCountOf (n : Nat) (w : Int) : Int :=
  ⌈(((96 : Int) * (n : Int) : Int) : ℚ) / (w : ℚ)⌉

/-- The value `Math.max(1, Math.floor(tabs.length / pagination.pagesCount))`
that `updatePagination` assigns to `itemsPerPage`, for a nonzero page count. -/
def itemsOf (n : Nat) (w : Int) : Int :=
  max 1 ⌊(n : ℚ) / ((pagesCountOf n w : Int) : ℚ)⌋

/-- Example registry: eleven enabled tabs with the `$id`s 100 to 110 and the
indices 0 to 10, the last one selected and active. -/
def exampleEleven : TabsController :=
  { list := (List.range 11).map fun i => ⟨100 + i, some i, false, decide (i = 10)⟩,
    selected := some 110, selIndex := some (SelIndex.string 10), queued := false,
    hash := (List.range 11).map fun i => 100 + i,
    hooks := [], writes := [], scheduled := 0 }

/-- Example directive scope: the eleven tabs of `exampleEleven`, nothing
paginated yet. -/
def exampleElevenDirective : TabsDirective :=
  { ctrl := exampleEleven, pagination := Pagination.init, pagingOffset := none }

/-- Example registry: the one enabled tab A (`$id` 10, index 0), selected and
active. -/
def exampleOneTab : TabsController :=
  { list := [⟨10, some 0, false, true⟩],
    selected := some 10, selIndex := some (SelIndex.string 0), queued := false, hash := [10],
    hooks := [], writes := [], scheduled := 0 }

/-- Example directive scope: the tab of `exampleOneTab`, nothing paginated
yet. -/
def exampleOneTabDirective : TabsDirective :=
  { ctrl := exampleOneTab, pagination := Pagination.init, pagingOffset := none }

/-- The scope that `updatePagination` leaves from `exampleOneTabDirective`
when the container is measured 0px wide (available width -64): pagination is
active with `pagesCount = -1`. -/
def exampleOneTabHidden : TabsDirective :=
  { ctrl := exampleOneTab,
    pagination :=
      { active := some true, pagesCount := some (-1), itemsPerPage := some 1,
        tabWidth := some (-64), page := some (-2), startIndex := some (-2),
        endIndex := some (-2), hasPrev := some false, hasNext := some false },
    pagingOffset := some (-128) }

/-! ## Ink bar and content area of the tabs directive -/

/-- The DOM element of a tab as `updateInkBar` reads it: the jqLite `length`,
whether it carries the class `pagination-hide`, and the measured
`Util.css.width` and `Util.css.left` (injected geometry). -/
structure TabButton where
  length : Nat
  paginationHide : Bool
  width : ℚ
  left : ℚ
deriving DecidableEq

/-- The CSS `display` values `updateInkBar` writes. -/
inductive Display where
  | none
  | block
deriving DecidableEq, Repr

/-- The ink bar element as far as `updateInkBar` writes it: the class
`animate`, `display`, `width` (px) and the x-offset of the `translate3d`
transform (`none` while never written). -/
structure InkBar where
  animate : Bool
  display : Display
  width : ℚ
  translateX : Option ℚ
deriving DecidableEq

/-- Source `tabsController.selectedElement()`: `findElementFor(selected)`, the
cached element of the selected tab; `elements` is the controller's element
cache by `$id`. -/
def selectedElement (ctrl : TabsController) (elements : Nat → Option TabButton) :
    Option TabButton :=
  ctrl.selected.bind elements

/-- Source `updateInkBar(immediate)`; `headerLeft` is `getLeft(tabsHeader)`. The
ink bar element itself is always defined (`findNode` returns a jqLite
object). -/
def updateInkBar (immediate : Bool) (d : TabsDirective) (elements : Nat → Option TabButton)
    (headerLeft : ℚ) (inkBar : InkBar) : InkBar :=
  let selButton := selectedElement d.ctrl elements
  let showInk :=
    match selButton with
    | some b => decide (b.length ≠ 0)
    | none => false
  let isHiding :=
    match selButton with
    | some b => b.paginationHide
    | none => false
  if !showInk || isHiding then
    { inkBar with animate := !immediate, display := Display.none, width := 0 }
  else
    match selButton with
    | some b =>
      { animate := !immediate
        display := if 0 < b.width then Display.block else Display.none
        width := b.width
        translateX := some (headerLeft + d.pagingOffset.getD 0 + b.left) }
    | none => inkBar

/-- A DOM node of a tab's content: its `nodeType` and whether
`(node.nodeValue || '').trim()` is the empty string. -/
structure Node where
  nodeType : Nat
  blank : Bool
deriving DecidableEq, Repr

/-- Source `isNodeEmpty(node)`: a comment node, or a text node of blanks. -/
def isNodeEmpty (node : Node) : Bool :=
  node.nodeType == 8 || (node.nodeType == 3 && node.blank)

/-- Source `extractContent(tab)`, the `nodes` of the view: `tab.content` when
`hasContent(tab)`, undefined otherwise. -/
def extractContent (content : Option (List Node)) : Option (List Node) :=
  match content with
  | some (node :: rest) => some (node :: rest)
  | _ => none

/-- Source `notEmpty(view)`. -/
def notEmpty (nodes : Option (List Node)) : Bool :=
  match nodes with
  | some ns => ns.foldl (fun hasContent node => hasContent || !isNodeEmpty node) false
  | none => false

/-- The jqLite call `element.toggleClass(name, condition)` with a boolean
condition: whether the element carries the class afterwards. -/
def toggleClass (_hasClass : Bool) (condition : Bool) : Bool := condition

/-- Source `showTabContent(visible)`: `cntr.toggleClass('ng-hide', !!visible)`;
the argument is `none` when the call passes none. Yields whether the content
container carries `ng-hide` afterwards. -/
def showTabContent (ngHide : Bool) (visible : Option Bool) : Bool :=
  toggleClass ngHide (visible.getD false)

/-- Source `buildContentItems()` as far as the visibility of the content
container goes: `contents` are the `content` of the tabs not yet in the cache,
`ngHide` whether the container carries `ng-hide` before. Yields whether it
carries `ng-hide` afterwards. -/
def buildContentItems (ngHide : Bool) (contents : List (Option (List Node))) : Bool :=
  let views := contents.map extractContent
  if views.any notEmpty then showTabContent ngHide none
  else showTabContent ngHide (some false)

/-- Every tab of the registry has a `$index`, and a tab whose `$index` is 0
sits at position 0: then `selected.$index || list.indexOf(selected)` is the
`$index` of the selected tab. Registries built by `add` without explicit
index keep this. -/
def IndexSound (l : List Tab) : Prop :=
  ∀ t ∈ l, ∃ i : Nat, t.index = some i ∧ (i = 0 → Registry.indexOf l t = 0)

/-- The bound index `$selIndex` is what `selectTab` assigns for the current
selection: the string of the `$index` of the registry tab `selected` refers
to, and the number -1 when nothing is selected. -/
def Synced (s : TabsController) : Prop :=
  (∀ x ∈ s.list, s.selected = some x.id →
      s.selIndex = x.index.map (fun i => SelIndex.string (i : Int))) ∧
    (s.selected = none → s.selIndex = some (SelIndex.number (-1)))

/-- An operation that is not an `add` of a tab with an explicit `$index`. -/
def Op.noExplicitIndex : Op → Prop
  | Op.add tab => tab.index = none
  | _ => True

/-- An operation other than `remove`. -/
def Op.notRemove : Op → Prop
  | Op.remove _ => False
  | _ => True

/-! ## The controller over the scans of its registry

`selectTab` and `removeTab` reach the registry's traversal only through the
two calls `list.next(tab, isEnabled)` and `list.previous(tab, isEnabled)`.
`Util.iterator` is not among the sources, so the statements about reselection
take the two scans as parameters. -/

/-- The type of a scan `list.next(tab, predicate)` or
`list.previous(tab, predicate)` of the registry: the entries, the tab to start
from and the predicate give the tab found, or null. -/
abbrev Scan : Type := List Tab → Tab → (Tab → Bool) → Option Tab

/-- What the controller relies on from a scan: in a registry of unique tab
objects, a tab it returns is an entry of the registry, satisfies the
predicate, and is not the tab the scan started from. -/
def Scan.Sound (scan : Scan) : Prop :=
  ∀ (items : List Tab) (tab : Tab) (predicate : Tab → Bool) (found : Tab),
    (items.map (fun it => it.id)).Nodup → scan items tab predicate = some found →
      found ∈ items ∧ predicate found = true ∧ found.id ≠ tab.id

/-- Source `selectTab(tab, noUpdate)` with the scan `list.next` taken as a
parameter; `selectTab` is this function at `Registry.next`. -/
def selectTabWith (next : Scan) (s : TabsController) (tab : Option Tab) (noUpdate : Bool) :
    TabsController × Option Tab :=
  if tab.map (fun t => t.id) = s.selected then (s, none)
  else
    let d := forEachDeactivate s.list s.selected
    let s1 : TabsController := { s with list := d.1, selected := d.2.1, hooks := s.hooks ++ d.2.2 }
    match tab with
    | none => (s1, selectedTab s1)
    | some t =>
      let target := if t.disabled then next s1.list t isEnabled else some t
      let a := activate s1.list s1.selected target
      let s2 : TabsController :=
        { s1 with list := a.1, selected := a.2.2.2.map (fun x => x.id), hooks := s1.hooks ++ a.2.2.1 }
      let v := selIndexValue s2.list a.2.2.2
      let s3 : TabsController := { s2 with selIndex := some v, writes := s2.writes ++ [v] }
      (if noUpdate then s3 else onTabsChanged s3, a.2.2.2)

/-- Source `removeTab(tab)` with the scans `list.next` and `list.previous`
taken as parameters; `removeTab` is this function at `Registry.next` and
`Registry.previous`. -/
def removeTabWith (next previous : Scan) (s : TabsController) (tab : Tab) : TabsController :=
  let s1 :=
    if Registry.contains s.list tab then
      let target :=
        (next s.list tab isEnabled).orElse (fun _ => previous s.list tab isEnabled)
      let s2 := (selectTabWith next s target false).1
      onTabsChanged { s2 with list := Registry.remove s2.list tab }
    else s
  updateHash s1

/-- A scan for the parameter `next` that stops at the end of the sequence
instead of wrapping to the start: the first entry after `tab` that satisfies
the predicate. The controller creates its registry as
`Util.iterator([], false)`, and the comment of `removeTab` reads "Auto select
the next tab or the previous tab (if last)". -/
def Registry.nextNoWrap (items : List Tab) (tab : Tab) (predicate : Tab → Bool) : Option Tab :=
  if Registry.contains items tab then
    let i := items.findIdx (fun it => it.id == tab.id)
    (items.drop (i + 1)).find? predicate
  else none

/-- A scan for the parameter `previous` that stops at the start of the
sequence instead of wrapping to the end: the last entry before `tab` that
satisfies the predicate. -/
def Registry.previousNoWrap (items : List Tab) (tab : Tab) (predicate : Tab → Bool) :
    Option Tab :=
  if Registry.contains items tab then
    let i := items.findIdx (fun it => it.id == tab.id)
    (items.take i).reverse.find? predicate
  else none

/-- Source `pagination.next()`: `selectPageAt(pagination.page + 1)`;
`tabsLength` is `buttonBar.children().length`. -/
def paginationNext (fuel : Nat) (d : TabsDirective) (tabsLength : Nat) :
    TabsDirective × Completion Unit :=
  selectPageAt fuel d tabsLength (d.pagination.page.map fun p => p + 1)

/-- Example directive scope: the two tabs of `exampleBactive` (B, index 1,
selected) in a container of 114px (available width 50), which makes four
pages of one tab of 50px, shown on page `page`. -/
def examplePagedAt (page : Int) : TabsDirective :=
  { ctrl := exampleBactive,
    pagination :=
      { active := some true, pagesCount := some 4, itemsPerPage := some 1, tabWidth := some 50,
        page := some page, startIndex := some page, endIndex := some page,
        hasPrev := some (decide (0 < page)), hasNext := some (decide (page + 1 < 4)) },
    pagingOffset := some (-(page : ℚ) * 50) }

/-! ## Lemmas on activation and the invariant -/

theorem Tab.off_id (t : Tab) : t.off.id = t.id := rfl

theorem Tab.off_disabled (t : Tab) : t.off.disabled = t.disabled := rfl

theorem Tab.off_of_inactive {t : Tab} (h : t.active = false) : t.off = t := by
  cases t; simp_all [Tab.off]

theorem forEachDeactivate_list (l : List Tab) (sel : Option Nat) :
    (forEachDeactivate l sel).1 = l.map Tab.off := by
  induction l generalizing sel with
  | nil => rfl
  | cons t rest ih =>
    cases hact : t.active
    · simp [forEachDeactivate, updateState, hact, ih, Tab.off_of_inactive hact]
    · simp [forEachDeactivate, updateState, hact, ih, Tab.off]

theorem forEachDeactivate_hooks (l : List Tab) (sel : Option Nat) :
    (forEachDeactivate l sel).2.2 =
      (l.filter (fun it => it.active)).map (fun it => Hook.deselected it.id) := by
  induction l generalizing sel with
  | nil => rfl
  | cons t rest ih =>
    cases hact : t.active
    · simp [forEachDeactivate, updateState, hact, ih]
    · simp [forEachDeactivate, updateState, hact, ih]

theorem forEachDeactivate_selected (l : List Tab) (sel : Option Nat) :
    (forEachDeactivate l sel).2.1 =
      if l.any (fun it => it.active && decide (sel = some it.id)) then none else sel := by
  induction l generalizing sel with
  | nil => rfl
  | cons t rest ih =>
    cases hact : t.active
    · simp [forEachDeactivate, updateState, hact, ih]
    · by_cases hs : sel = some t.id
      · simp [forEachDeactivate, updateState, hact, ih, hs]
      · simp [forEachDeactivate, updateState, hact, ih, hs]

theorem activate_ids (l : List Tab) (sel : Option Nat) (x : Option Tab) :
    (activate l sel x).1.map (fun it => it.id) = l.map (fun it => it.id) := by
  cases x with
  | none => cases l <;> rfl
  | some x =>
    induction l with
    | nil => rfl
    | cons t rest ih =>
      by_cases h : t.id = x.id
      · simp only [activate, h, if_true, updateState]
        split <;> simp [h]
      · simp [activate, h, ih]

theorem activate_active (l : List Tab) (sel : Option Nat) (x : Option Tab)
    (hoff : ∀ t ∈ l, t.active = false) :
    ∀ u ∈ (activate l sel x).1, u.active = true →
      (activate l sel x).2.2.2.map (fun it => it.id) = some u.id := by
  cases x with
  | none =>
    intro u hu hact
    have : (activate l sel none).1 = l := by cases l <;> rfl
    rw [this] at hu
    simp [hoff u hu] at hact
  | some x =>
    induction l with
    | nil => intro u hu; simp [activate] at hu
    | cons t rest ih =>
      have ht : t.active = false := hoff t (List.mem_cons_self _ _)
      have hrest : ∀ v ∈ rest, v.active = false := fun v hv => hoff v (List.mem_cons_of_mem _ hv)
      by_cases h : t.id = x.id
      · intro u hu hact
        simp only [activate, h, if_true, updateState, ht] at hu ⊢
        simp at hu ⊢
        rcases hu with rfl | hu
        · simp [h]
        · simp [hrest u hu] at hact
      · intro u hu hact
        simp only [activate, h, if_false] at hu ⊢
        simp at hu
        rcases hu with rfl | hu
        · simp [ht] at hact
        · exact ih hrest u hu hact

@[simp] theorem onTabsChanged_list (s : TabsController) : (onTabsChanged s).list = s.list := by
  unfold onTabsChanged; split <;> rfl

@[simp] theorem onTabsChanged_selected (s : TabsController) :
    (onTabsChanged s).selected = s.selected := by
  unfold onTabsChanged; split <;> rfl

@[simp] theorem onTabsChanged_hooks (s : TabsController) : (onTabsChanged s).hooks = s.hooks := by
  unfold onTabsChanged; split <;> rfl

@[simp] theorem onTabsChanged_selIndex (s : TabsController) :
    (onTabsChanged s).selIndex = s.selIndex := by
  unfold onTabsChanged; split <;> rfl

@[simp] theorem onTabsChanged_writes (s : TabsController) :
    (onTabsChanged s).writes = s.writes := by
  unfold onTabsChanged; split <;> rfl

theorem map_off_ids (l : List Tab) :
    (l.map Tab.off).map (fun it => it.id) = l.map (fun it => it.id) := by
  simp [List.map_map, Function.comp_def, Tab.off_id]

theorem map_off_inactive (l : List Tab) : ∀ t ∈ l.map Tab.off, t.active = false := by
  intro t ht
  rcases List.mem_map.1 ht with ⟨u, _, rfl⟩
  rfl

/-- The registry after a `selectTab` that does not return early, for a non-null tab. -/
theorem selectTab_some_list (s : TabsController) (t : Tab) (b : Bool)
    (h : some t.id ≠ s.selected) :
    (selectTab s (some t) b).1.list =
      (activate (s.list.map Tab.off) (forEachDeactivate s.list s.selected).2.1
        (if t.disabled then Registry.next (s.list.map Tab.off) t isEnabled else some t)).1 := by
  simp only [selectTab, Option.map_some', h, if_false, forEachDeactivate_list]
  cases b <;> simp

/-- The closure variable `selected` after such a `selectTab`. -/
theorem selectTab_some_selected (s : TabsController) (t : Tab) (b : Bool)
    (h : some t.id ≠ s.selected) :
    (selectTab s (some t) b).1.selected =
      (activate (s.list.map Tab.off) (forEachDeactivate s.list s.selected).2.1
        (if t.disabled then Registry.next (s.list.map Tab.off) t isEnabled
          else some t)).2.2.2.map (fun it => it.id) := by
  simp only [selectTab, Option.map_some', h, if_false, forEachDeactivate_list]
  cases b <;> simp

/-- The value returned by such a `selectTab`. -/
theorem selectTab_some_result (s : TabsController) (t : Tab) (b : Bool)
    (h : some t.id ≠ s.selected) :
    (selectTab s (some t) b).2 =
      (activate (s.list.map Tab.off) (forEachDeactivate s.list s.selected).2.1
        (if t.disabled then Registry.next (s.list.map Tab.off) t isEnabled
          else some t)).2.2.2 := by
  simp only [selectTab, Option.map_some', h, if_false, forEachDeactivate_list]

theorem selectTab_none_list (s : TabsController) (b : Bool) (h : none ≠ s.selected) :
    (selectTab s none b).1.list = s.list.map Tab.off := by
  simp [selectTab, h, forEachDeactivate_list]

theorem selectTab_early (s : TabsController) (tab : Option Tab) (b : Bool)
    (h : tab.map (fun t => t.id) = s.selected) : selectTab s tab b = (s, none) := by
  simp [selectTab, h]

/-- Function `selectTab` establishes the invariant from uniqueness of the tab objects
alone, unless it returns early. -/
theorem selectTab_inv (s : TabsController) (tab : Option Tab) (b : Bool)
    (hnd : (s.list.map (fun it => it.id)).Nodup)
    (hsel : tab.map (fun t => t.id) = s.selected →
      ∀ t ∈ s.list, t.active = true → s.selected = some t.id) :
    Inv (selectTab s tab b).1 := by
  by_cases h : tab.map (fun t => t.id) = s.selected
  · rw [selectTab_early s tab b h]
    exact ⟨hnd, hsel h⟩
  · cases tab with
    | none =>
      have h1 : none ≠ s.selected := h
      refine ⟨?_, ?_⟩
      · rw [selectTab_none_list s b h1, map_off_ids]; exact hnd
      · intro t ht hact
        rw [selectTab_none_list s b h1] at ht
        rw [map_off_inactive _ t ht] at hact
        cases hact
    | some t =>
      have h1 : some t.id ≠ s.selected := h
      refine ⟨?_, ?_⟩
      · rw [selectTab_some_list s t b h1, activate_ids, map_off_ids]; exact hnd
      · intro u hu hact
        rw [selectTab_some_list s t b h1] at hu
        rw [selectTab_some_selected s t b h1]
        exact activate_active _ _ _ (map_off_inactive _) u hu hact

theorem selectTab_inv_of_inv (s : TabsController) (tab : Option Tab) (b : Bool) (h : Inv s) :
    Inv (selectTab s tab b).1 :=
  selectTab_inv s tab b h.1 (fun _ => h.2)

theorem selectNext_selectPrevious_inv (fuel : Nat) :
    ∀ (s : TabsController) (target : Option Tab), Inv s →
      Inv (selectNext fuel s target).1 ∧ Inv (selectPrevious fuel s target).1 := by
  induction fuel with
  | zero =>
    intro s target h
    exact ⟨by simpa [selectNext] using h, by simpa [selectPrevious] using h⟩
  | succ n ih =>
    intro s target h
    cases target with
    | none => exact ⟨by simpa [selectNext] using h, by simpa [selectPrevious] using h⟩
    | some t =>
      refine ⟨?_, ?_⟩
      · simp only [selectNext]
        split
        · exact selectTab_inv_of_inv _ _ _ h
        · split
          · exact (ih s (some t) h).2
          · exact h
      · simp only [selectPrevious]
        split
        · exact selectTab_inv_of_inv _ _ _ h
        · split
          · exact (ih s (some t) h).1
          · exact h

theorem selectTabAt_inv (fuel : Nat) (s : TabsController) (index : Int) (b : Bool)
    (h : Inv s) : Inv (selectTabAt fuel s index b).1 := by
  have hd := (selectNext_selectPrevious_inv fuel s (Registry.findBy s.list index).head? h).1
  simp only [selectTabAt]
  split
  · split
    · split
      · split
        · rename_i s1 it1 heq
          rw [heq] at hd
          exact selectTab_inv_of_inv _ _ _ hd
        · rename_i s1 heq
          rw [heq] at hd; exact hd
        · rename_i s1 heq
          rw [heq] at hd; exact hd
      · exact selectTab_inv_of_inv _ _ _ h
    · exact h
  · exact h

theorem Registry.contains_iff (l : List Tab) (t : Tab) :
    Registry.contains l t = true ↔ t.id ∈ l.map (fun it => it.id) := by
  simp only [Registry.contains, List.any_eq_true, List.mem_map, beq_iff_eq]

theorem Registry.mem_add (l : List Tab) (tab : Tab) (index : Nat) (t : Tab) :
    t ∈ (Registry.add l tab index).1 ↔ t = tab ∨ t ∈ l := by
  simp only [Registry.add, List.mem_append, List.mem_cons]
  constructor
  · rintro (h | h | h)
    · exact Or.inr (List.mem_of_mem_take h)
    · exact Or.inl h
    · exact Or.inr (List.mem_of_mem_drop h)
  · rintro (h | h)
    · exact Or.inr (Or.inl h)
    · rw [← List.take_append_drop index l, List.mem_append] at h
      rcases h with h | h
      · exact Or.inl h
      · exact Or.inr (Or.inr h)

theorem Registry.add_ids_perm (l : List Tab) (tab : Tab) (index : Nat) :
    ((Registry.add l tab index).1.map (fun it => it.id)).Perm
      (tab.id :: l.map (fun it => it.id)) := by
  have h : (Registry.add l tab index).1.Perm (tab :: l) := by
    simp only [Registry.add]
    refine List.perm_middle.trans ?_
    rw [List.take_append_drop]
  simpa using h.map (fun it => it.id)

theorem addTab_inv (s : TabsController) (tab : Tab) (h : Inv s) : Inv (addTab s tab).1 := by
  simp only [addTab, updateHash]
  split
  · rename_i hc
    have hnot : (⟨tab.id, some (tab.index.getD (Registry.count s.list)), tab.disabled,
        tab.active⟩ : Tab).id ∉ s.list.map (fun it => it.id) := by
      intro hmem
      rw [← Registry.contains_iff] at hmem
      simp [hmem] at hc
    have hnd : ((Registry.add s.list ⟨tab.id, some (tab.index.getD (Registry.count s.list)),
        tab.disabled, tab.active⟩ (tab.index.getD (Registry.count s.list))).1.map
          (fun it => it.id)).Nodup :=
      (Registry.add_ids_perm _ _ _).nodup_iff.2 (List.nodup_cons.2 ⟨hnot, h.1⟩)
    split
    · rename_i hcond
      have := selectTab_inv
        { s with list := (Registry.add s.list ⟨tab.id, some (tab.index.getD (Registry.count s.list)),
            tab.disabled, tab.active⟩ (tab.index.getD (Registry.count s.list))).1 }
        (some ⟨tab.id, some (tab.index.getD (Registry.count s.list)), tab.disabled, tab.active⟩)
        false hnd (by
          intro hsel t ht _
          rcases (Registry.mem_add _ _ _ _).1 ht with rfl | ht
          · exact hsel.symm
          · exact h.2 t ht ‹_›)
      exact this
    · rename_i hcond
      refine ⟨by simpa using hnd, ?_⟩
      intro t ht hact
      simp only [onTabsChanged_list, onTabsChanged_selected] at ht ⊢
      rcases (Registry.mem_add _ _ _ _).1 ht with rfl | ht
      · simp only [Bool.or_eq_true, decide_eq_true_eq, not_or] at hcond
        exact absurd hact hcond.2
      · exact h.2 t ht hact
  · exact h

theorem removeTab_inv (s : TabsController) (tab : Tab) (h : Inv s) : Inv (removeTab s tab) := by
  simp only [removeTab, updateHash]
  split
  · have hs := selectTab_inv_of_inv s
      ((Registry.next s.list tab isEnabled).orElse
        (fun _ => Registry.previous s.list tab isEnabled)) false h
    refine ⟨?_, ?_⟩
    · simp only [onTabsChanged_list, Registry.remove]
      exact hs.1.sublist (List.filter_sublist _ |>.map _)
    · intro t ht hact
      simp only [onTabsChanged_list, onTabsChanged_selected, Registry.remove] at ht ⊢
      exact hs.2 t (List.mem_of_mem_filter ht) hact
  · exact h

theorem step_inv (fuel : Nat) (s : TabsController) (op : Op) (h : Inv s) :
    Inv (step fuel s op) := by
  cases op with
  | add tab => exact addTab_inv s tab h
  | remove tab => exact removeTab_inv s tab h
  | select tab => exact selectTab_inv_of_inv s (some tab) false h
  | selectAt index => exact selectTabAt_inv fuel s index false h

theorem init_inv (selIndex : Option Int) : Inv (TabsController.init selIndex) :=
  ⟨List.nodup_nil, fun _ ht => by simp [TabsController.init] at ht⟩

theorem foldl_step_inv (fuel : Nat) (ops : List Op) (s : TabsController) (h : Inv s) :
    Inv (ops.foldl (step fuel) s) := by
  induction ops generalizing s with
  | nil => exact h
  | cons op rest ih => exact ih _ (step_inv fuel s op h)

theorem filter_id_length_le_one (l : List Tab) (i : Nat)
    (hnd : (l.map (fun it => it.id)).Nodup) :
    (l.filter (fun it => decide (it.id = i))).length ≤ 1 := by
  induction l with
  | nil => simp
  | cons t rest ih =>
    rw [List.map_cons, List.nodup_cons] at hnd
    by_cases h : t.id = i
    · have hrest : rest.filter (fun it => decide (it.id = i)) = [] := by
        rw [List.filter_eq_nil_iff]
        intro u hu hdec
        have : u.id = i := by simpa using hdec
        exact hnd.1 (List.mem_map.2 ⟨u, hu, by rw [this, h]⟩)
      simp [List.filter_cons, h, hrest]
    · simpa [List.filter_cons, h] using ih hnd.2

theorem Inv.activeTabs_length_le_one {s : TabsController} (h : Inv s) :
    (activeTabs s).length ≤ 1 := by
  unfold activeTabs
  cases hsel : s.selected with
  | none =>
    have : s.list.filter (fun it => it.active) = [] := by
      rw [List.filter_eq_nil_iff]
      intro t ht hact
      have := h.2 t ht hact
      rw [hsel] at this
      cases this
    simp [this]
  | some i =>
    have hsub : s.list.filter (fun it => it.active) =
        (s.list.filter (fun it => decide (it.id = i))).filter (fun it => it.active) := by
      rw [List.filter_filter]
      apply List.filter_congr
      intro t ht
      cases hact : t.active
      · simp
      · have := h.2 t ht hact
        rw [hsel] at this
        simp [Option.some.inj this]
    rw [hsub]
    exact (List.length_filter_le _ _).trans (filter_id_length_le_one _ _ h.1)

/-- C1: for every sequence of add, remove, select and selectAt operations on a
controller that starts with an empty registry (whatever the `$selIndex` binding
holds, whatever the flags and indices of the tabs passed in, and whatever the
recursion budget), at most one tab of the registry has `active = true`
afterwards; every initial segment of a sequence is a sequence, so this holds
after each operation. -/
theorem at_most_one_active (fuel : Nat) (selIndex : Option Int) (ops : List Op) :
    (activeTabs (run fuel selIndex ops)).length ≤ 1 :=
  (foldl_step_inv fuel ops _ (init_inv selIndex)).activeTabs_length_le_one

/-! ## Lemmas on the registry scans and on `selectTab` -/

theorem findIdx_split {p : Tab → Bool} (l : List Tab) (h : ∃ x ∈ l, p x = true) :
    ∃ pre t0 post, l = pre ++ t0 :: post ∧ p t0 = true ∧ (∀ u ∈ pre, p u = false) ∧
      l.findIdx p = pre.length := by
  induction l with
  | nil => simp at h
  | cons a rest ih =>
    cases hpa : p a
    · have h1 : ∃ x ∈ rest, p x = true := by
        rcases h with ⟨x, hx, hpx⟩
        rcases List.mem_cons.1 hx with rfl | hx
        · rw [hpa] at hpx; cases hpx
        · exact ⟨x, hx, hpx⟩
      rcases ih h1 with ⟨pre, t0, post, hl, ht0, hpre, hidx⟩
      refine ⟨a :: pre, t0, post, by rw [hl]; rfl, ht0, ?_, ?_⟩
      · intro u hu
        rcases List.mem_cons.1 hu with rfl | hu
        · exact hpa
        · exact hpre u hu
      · rw [List.findIdx_cons, hpa]; simp [hidx]
    · exact ⟨[], a, rest, rfl, hpa, by simp, by rw [List.findIdx_cons, hpa]; rfl⟩

/-- The registry around a tab it holds, and the two scans read off it. -/
theorem Registry.split (l : List Tab) (t : Tab) (p : Tab → Bool)
    (h : Registry.contains l t = true) :
    ∃ pre t0 post, l = pre ++ t0 :: post ∧ t0.id = t.id ∧ (∀ u ∈ pre, u.id ≠ t.id) ∧
      Registry.next l t p = (post ++ pre).find? p ∧
      Registry.previous l t p = (pre.reverse ++ post.reverse).find? p ∧
      Registry.indexOf l t = (pre.length : Int) := by
  have hex : ∃ x ∈ l, (fun it : Tab => it.id == t.id) x = true := by
    simpa [Registry.contains] using h
  rcases findIdx_split l hex with ⟨pre, t0, post, hl, ht0, hpre, hidx⟩
  refine ⟨pre, t0, post, hl, by simpa using ht0, ?_, ?_, ?_, ?_⟩
  · intro u hu; simpa using hpre u hu
  · simp only [Registry.next, h, if_true, hidx]
    rw [hl]; simp
  · simp only [Registry.previous, h, if_true, hidx]
    rw [hl]; simp
  · simp only [Registry.indexOf, h, if_true, hidx]

theorem findIdx_map_off (l : List Tab) (i : Nat) :
    (l.map Tab.off).findIdx (fun it => it.id == i) = l.findIdx (fun it => it.id == i) := by
  induction l with
  | nil => rfl
  | cons a rest ih => simp only [List.map_cons, List.findIdx_cons, ih, Tab.off_id]

theorem Registry.contains_map_off (l : List Tab) (t : Tab) :
    Registry.contains (l.map Tab.off) t = Registry.contains l t := by
  simp [Registry.contains, List.any_map, Function.comp_def, Tab.off_id]

theorem Registry.next_map_off (l : List Tab) (t : Tab) :
    Registry.next (l.map Tab.off) t isEnabled = (Registry.next l t isEnabled).map Tab.off := by
  have hcomp : (isEnabled ∘ Tab.off) = isEnabled := by funext u; rfl
  simp only [Registry.next, Registry.contains_map_off, findIdx_map_off]
  split
  · rw [← List.map_drop, ← List.map_take, ← List.map_append, List.find?_map, hcomp]
  · rfl

theorem Registry.next_some (l : List Tab) (t n : Tab) (p : Tab → Bool)
    (hnd : (l.map (fun it => it.id)).Nodup) (h : Registry.next l t p = some n) :
    n ∈ l ∧ p n = true ∧ n.id ≠ t.id := by
  have hc : Registry.contains l t = true := by
    cases hc : Registry.contains l t
    · simp [Registry.next, hc] at h
    · rfl
  rcases Registry.split l t p hc with ⟨pre, t0, post, hl, ht0, hpre, hnext, -, -⟩
  rw [hnext] at h
  have hmem := List.mem_of_find?_eq_some h
  refine ⟨?_, List.find?_some h, ?_⟩
  · rw [hl]
    rcases List.mem_append.1 hmem with hm | hm
    · exact List.mem_append_right _ (List.mem_cons_of_mem _ hm)
    · exact List.mem_append_left _ hm
  · rcases List.mem_append.1 hmem with hm | hm
    · rw [hl, List.map_append, List.map_cons] at hnd
      have h2 := (List.nodup_cons.1 (List.nodup_append.1 hnd).2.1).1
      intro heq
      exact h2 (List.mem_map.2 ⟨n, hm, by rw [heq, ht0]⟩)
    · exact hpre n hm

theorem Registry.previous_some (l : List Tab) (t n : Tab) (p : Tab → Bool)
    (hnd : (l.map (fun it => it.id)).Nodup) (h : Registry.previous l t p = some n) :
    n ∈ l ∧ p n = true ∧ n.id ≠ t.id := by
  have hc : Registry.contains l t = true := by
    cases hc : Registry.contains l t
    · simp [Registry.previous, hc] at h
    · rfl
  rcases Registry.split l t p hc with ⟨pre, t0, post, hl, ht0, hpre, -, hprev, -⟩
  rw [hprev] at h
  have hmem := List.mem_of_find?_eq_some h
  refine ⟨?_, List.find?_some h, ?_⟩
  · rw [hl]
    rcases List.mem_append.1 hmem with hm | hm
    · exact List.mem_append_left _ (List.mem_reverse.1 hm)
    · exact List.mem_append_right _ (List.mem_cons_of_mem _ (List.mem_reverse.1 hm))
  · rcases List.mem_append.1 hmem with hm | hm
    · exact hpre n (List.mem_reverse.1 hm)
    · rw [hl, List.map_append, List.map_cons] at hnd
      have h2 := (List.nodup_cons.1 (List.nodup_append.1 hnd).2.1).1
      intro heq
      exact h2 (List.mem_map.2 ⟨n, List.mem_reverse.1 hm, by rw [heq, ht0]⟩)

theorem setActive_map_off (l : List Tab) (o : Option Nat) :
    setActive (l.map Tab.off) o = setActive l o := by
  simp [setActive, List.map_map, Function.comp_def, Tab.off]

theorem setActive_none (l : List Tab) : setActive l none = l.map Tab.off := by
  simp [setActive, Tab.off]

theorem setActive_ids (l : List Tab) (o : Option Nat) :
    (setActive l o).map (fun it => it.id) = l.map (fun it => it.id) := by
  simp [setActive, List.map_map, Function.comp_def]

theorem setActive_of_not_mem (l : List Tab) (i : Nat) (hoff : ∀ t ∈ l, t.active = false)
    (h : i ∉ l.map (fun it => it.id)) : setActive l (some i) = l := by
  unfold setActive
  conv_rhs => rw [← List.map_id l]
  apply List.map_congr_left
  intro u hu
  have hne : i ≠ u.id := fun heq => h (List.mem_map.2 ⟨u, hu, heq.symm⟩)
  have := hoff u hu
  cases u
  simp_all

/-- Activation of a tab of a registry in which no tab is active. -/
theorem activate_spec (l : List Tab) (sel : Option Nat) (x : Tab)
    (hoff : ∀ t ∈ l, t.active = false) (hnd : (l.map (fun it => it.id)).Nodup)
    (hx : x.id ∈ l.map (fun it => it.id)) :
    (activate l sel (some x)).1 = setActive l (some x.id) ∧
      (activate l sel (some x)).2.2.1 = [Hook.selected x.id] ∧
      (activate l sel (some x)).2.2.2.map (fun it => it.id) = some x.id := by
  induction l with
  | nil => simp at hx
  | cons t rest ih =>
    have ht : t.active = false := hoff t (List.mem_cons_self _ _)
    have hrest : ∀ v ∈ rest, v.active = false := fun v hv => hoff v (List.mem_cons_of_mem _ hv)
    rw [List.map_cons, List.nodup_cons] at hnd
    by_cases h : t.id = x.id
    · have hnot : x.id ∉ rest.map (fun it => it.id) := by rw [← h]; exact hnd.1
      have hr := setActive_of_not_mem rest x.id hrest hnot
      have hcons : setActive (t :: rest) (some x.id) =
          { t with active := decide (some x.id = some t.id) } :: setActive rest (some x.id) := rfl
      rw [hcons, hr]
      simp [activate, h, updateState, ht]
    · have hx1 : x.id ∈ rest.map (fun it => it.id) := by
        rcases List.mem_cons.1 hx with heq | hm
        · exact absurd heq.symm h
        · exact hm
      rcases ih hrest hnd.2 hx1 with ⟨h1, h2, h3⟩
      have hcons : setActive (t :: rest) (some x.id) =
          { t with active := decide (some x.id = some t.id) } :: setActive rest (some x.id) := rfl
      have hne : ¬ x.id = t.id := fun heq => h heq.symm
      refine ⟨?_, ?_, ?_⟩
      · rw [hcons]
        simp only [activate, h, if_false, h1]
        cases t
        simp_all
      · simp only [activate, h, if_false, h2]
      · simp only [activate, h, if_false, h3]

theorem activeTabs_setActive_none (l : List Tab) :
    (setActive l none).filter (fun it => it.active) = [] := by
  rw [List.filter_eq_nil_iff]
  intro t ht
  rw [setActive_none] at ht
  simp [map_off_inactive l t ht]

theorem activeTabs_setActive_some (l : List Tab) (i : Nat)
    (hnd : (l.map (fun it => it.id)).Nodup) (hi : i ∈ l.map (fun it => it.id)) :
    ((setActive l (some i)).filter (fun it => it.active)).map (fun it => it.id) = [i] := by
  induction l with
  | nil => simp at hi
  | cons t rest ih =>
    rw [List.map_cons, List.nodup_cons] at hnd
    have hcons : setActive (t :: rest) (some i) =
        { t with active := decide (some i = some t.id) } :: setActive rest (some i) := rfl
    rw [hcons]
    by_cases h : i = t.id
    · have hnot : i ∉ rest.map (fun it => it.id) := by rw [h]; exact hnd.1
      have hnil : (setActive rest (some i)).filter (fun it => it.active) = [] := by
        rw [List.filter_eq_nil_iff]
        intro u hu
        rcases List.mem_map.1 hu with ⟨v, hv, rfl⟩
        have : i ≠ v.id := fun heq => hnot (List.mem_map.2 ⟨v, hv, heq.symm⟩)
        simp [this]
      have hnil2 := hnil
      rw [h] at hnil2
      simp [List.filter_cons, h, hnil2]
    · have hi1 : i ∈ rest.map (fun it => it.id) := by
        rcases List.mem_cons.1 hi with heq | hm
        · exact absurd heq h
        · exact hm
      simp [List.filter_cons, h]
      simpa using ih hnd.2 hi1

theorem selectTab_some_hooks (s : TabsController) (t : Tab) (b : Bool)
    (h : some t.id ≠ s.selected) :
    (selectTab s (some t) b).1.hooks =
      s.hooks ++ (activeTabs s).map (fun it => Hook.deselected it.id) ++
        (activate (s.list.map Tab.off) (forEachDeactivate s.list s.selected).2.1
          (if t.disabled then Registry.next (s.list.map Tab.off) t isEnabled
            else some t)).2.2.1 := by
  simp only [selectTab, Option.map_some', h, if_false, forEachDeactivate_list,
    forEachDeactivate_hooks, activeTabs]
  cases b <;> simp

theorem activate_none (l : List Tab) (sel : Option Nat) :
    activate l sel none = (l, sel, [], none) := by
  cases l <;> rfl

/-- What a `selectTab` that does not return early does, for a tab of the
registry: every other tab is deactivated, the resolved tab is activated. -/
theorem selectTab_spec (s : TabsController) (t : Tab) (b : Bool)
    (hnd : (s.list.map (fun it => it.id)).Nodup) (ht : t ∈ s.list)
    (h : some t.id ≠ s.selected) :
    (selectTab s (some t) b).1.list =
        setActive s.list ((resolveTarget s.list t).map (fun it => it.id)) ∧
      (selectTab s (some t) b).1.selected = (resolveTarget s.list t).map (fun it => it.id) ∧
      (selectTab s (some t) b).1.hooks =
        s.hooks ++ (activeTabs s).map (fun it => Hook.deselected it.id) ++
          ((resolveTarget s.list t).map (fun it => Hook.selected it.id)).toList ∧
      (selectTab s (some t) b).2.map (fun it => it.id) =
        (resolveTarget s.list t).map (fun it => it.id) := by
  rw [selectTab_some_list s t b h, selectTab_some_selected s t b h,
    selectTab_some_hooks s t b h, selectTab_some_result s t b h]
  have hnd1 : ((s.list.map Tab.off).map (fun it => it.id)).Nodup := by
    rw [map_off_ids]; exact hnd
  have key : ∀ x : Tab, x.id ∈ s.list.map (fun it => it.id) →
      (activate (s.list.map Tab.off) (forEachDeactivate s.list s.selected).2.1 (some x)).1 =
          setActive s.list (some x.id) ∧
        (activate (s.list.map Tab.off) (forEachDeactivate s.list s.selected).2.1
          (some x)).2.2.1 = [Hook.selected x.id] ∧
        (activate (s.list.map Tab.off) (forEachDeactivate s.list s.selected).2.1
          (some x)).2.2.2.map (fun it => it.id) = some x.id := by
    intro x hx
    have := activate_spec (s.list.map Tab.off) (forEachDeactivate s.list s.selected).2.1 x
      (map_off_inactive _) hnd1 (by rw [map_off_ids]; exact hx)
    rwa [setActive_map_off] at this
  unfold resolveTarget
  cases hd : t.disabled
  · simp only [Bool.false_eq_true, if_false, Option.map_some', Option.toList]
    rcases key t (List.mem_map.2 ⟨t, ht, rfl⟩) with ⟨h1, h2, h3⟩
    exact ⟨h1, h3, by rw [h2], h3⟩
  · simp only [if_true, Registry.next_map_off]
    cases hn : Registry.next s.list t isEnabled with
    | none =>
      simp only [Option.map_none', activate_none, setActive_none, Option.toList,
        List.append_nil, and_self]
    | some n =>
      have hmem := (Registry.next_some s.list t n isEnabled hnd hn).1
      rcases key n.off (List.mem_map.2 ⟨n, hmem, rfl⟩) with ⟨h1, h2, h3⟩
      simp only [Option.map_some', Option.toList]
      exact ⟨h1, h3, by rw [h2]; rfl, h3⟩

/-- What `selectTab(null)` does when a tab is selected. -/
theorem selectTab_none_spec (s : TabsController) (b : Bool) (h : none ≠ s.selected) :
    (selectTab s none b).1.list = setActive s.list none ∧
      (selectTab s none b).1.selected =
        (if s.list.any (fun it => it.active && decide (s.selected = some it.id)) then none
          else s.selected) ∧
      (selectTab s none b).1.hooks =
        s.hooks ++ (activeTabs s).map (fun it => Hook.deselected it.id) := by
  simp [selectTab, h, forEachDeactivate_list, forEachDeactivate_hooks,
    forEachDeactivate_selected, setActive_none, activeTabs]

theorem resolveTarget_enabled (l : List Tab) (t : Tab) (h : isEnabled t = true) :
    resolveTarget l t = some t := by
  have : t.disabled = false := by simpa [isEnabled] using h
  simp [resolveTarget, this]

theorem mem_contains {l : List Tab} {t : Tab} (h : t ∈ l) : Registry.contains l t = true :=
  (Registry.contains_iff l t).2 (List.mem_map.2 ⟨t, h, rfl⟩)

theorem removeTab_of_contains (s : TabsController) (t : Tab)
    (h : Registry.contains s.list t = true) :
    (removeTab s t).list =
        Registry.remove (selectTab s ((Registry.next s.list t isEnabled).orElse
          (fun _ => Registry.previous s.list t isEnabled)) false).1.list t ∧
      (removeTab s t).selected = (selectTab s ((Registry.next s.list t isEnabled).orElse
          (fun _ => Registry.previous s.list t isEnabled)) false).1.selected ∧
      (removeTab s t).hooks = (selectTab s ((Registry.next s.list t isEnabled).orElse
          (fun _ => Registry.previous s.list t isEnabled)) false).1.hooks := by
  simp [removeTab, updateHash, h]

theorem Registry.not_mem_remove (l : List Tab) (t : Tab) :
    t.id ∉ (Registry.remove l t).map (fun it => it.id) := by
  intro hmem
  rcases List.mem_map.1 hmem with ⟨u, hu, hid⟩
  have := (List.mem_filter.1 hu).2
  simp [hid] at this

theorem activeIds_remove (l : List Tab) (t : Tab) (i : Nat)
    (h : (l.filter (fun it => it.active)).map (fun it => it.id) = [i]) (hne : i ≠ t.id) :
    ((Registry.remove l t).filter (fun it => it.active)).map (fun it => it.id) = [i] := by
  have hcomm : (Registry.remove l t).filter (fun it => it.active) =
      (l.filter (fun it => it.active)).filter (fun it => it.id != t.id) := by
    unfold Registry.remove
    rw [List.filter_filter, List.filter_filter]
    apply List.filter_congr
    intro x _
    exact Bool.and_comm _ _
  rw [hcomm]
  cases hl : l.filter (fun it => it.active) with
  | nil => rw [hl] at h; simp at h
  | cons y ys =>
    rw [hl] at h
    simp only [List.map_cons, List.cons.injEq, List.map_eq_nil_iff] at h
    rcases h with ⟨hyi, hys⟩
    subst hys
    simp [List.filter_cons, hyi, hne]

theorem activeTabs_remove_nil (l : List Tab) (t : Tab)
    (h : l.filter (fun it => it.active) = []) :
    (Registry.remove l t).filter (fun it => it.active) = [] := by
  rw [List.filter_eq_nil_iff] at h ⊢
  intro u hu
  exact h u (List.mem_of_mem_filter hu)

/-! ## Removal and selection (C2, C3, C4) -/

theorem Registry.next_none_of_all_disabled (l : List Tab) (t : Tab)
    (h : ∀ u ∈ l, u.disabled = true) : Registry.next l t isEnabled = none := by
  unfold Registry.next
  split
  · rw [List.find?_eq_none]
    intro u hu
    have hmem : u ∈ l := by
      rcases List.mem_append.1 hu with hm | hm
      · exact List.mem_of_mem_drop hm
      · exact List.mem_of_mem_take hm
    simp [isEnabled, h u hmem]
  · rfl

theorem Registry.previous_none_of_all_disabled (l : List Tab) (t : Tab)
    (h : ∀ u ∈ l, u.disabled = true) : Registry.previous l t isEnabled = none := by
  unfold Registry.previous
  split
  · rw [List.find?_eq_none]
    intro u hu
    have hmem : u ∈ l := by
      rcases List.mem_append.1 hu with hm | hm
      · exact List.mem_of_mem_take (List.mem_reverse.1 hm)
      · exact List.mem_of_mem_drop (List.mem_reverse.1 hm)
    simp [isEnabled, h u hmem]
  · rfl

theorem activeIds_setActive (l : List Tab) (o : Option Tab)
    (hnd : (l.map (fun it => it.id)).Nodup) (ho : ∀ x, o = some x → x ∈ l) :
    ((setActive l (o.map (fun it => it.id))).filter (fun it => it.active)).map
      (fun it => it.id) = (o.map (fun it => it.id)).toList := by
  cases o with
  | none => simp [activeTabs_setActive_none]
  | some x =>
    simpa using activeTabs_setActive_some l x.id hnd (List.mem_map.2 ⟨x, ho x rfl, rfl⟩)

/-- The function `selectTab` is `selectTabWith` at the scan `Registry.next`. -/
theorem selectTabWith_registry (s : TabsController) (tab : Option Tab) (b : Bool) :
    selectTabWith Registry.next s tab b = selectTab s tab b := rfl

/-- The function `removeTab` is `removeTabWith` at the scans `Registry.next` and
`Registry.previous`. -/
theorem removeTabWith_registry (s : TabsController) (tab : Tab) :
    removeTabWith Registry.next Registry.previous s tab = removeTab s tab := rfl

/-- The cyclic scans of the modelled registry are sound. -/
theorem Registry.next_sound : Scan.Sound Registry.next :=
  fun l t p x hnd h => Registry.next_some l t x p hnd h

theorem Registry.previous_sound : Scan.Sound Registry.previous :=
  fun l t p x hnd h => Registry.previous_some l t x p hnd h

/-- The registry around a tab it holds, and the two scans without wrap-around
read off it. -/
theorem Registry.splitNoWrap (l : List Tab) (t : Tab) (p : Tab → Bool)
    (h : Registry.contains l t = true) :
    ∃ pre t0 post, l = pre ++ t0 :: post ∧ t0.id = t.id ∧ (∀ u ∈ pre, u.id ≠ t.id) ∧
      Registry.nextNoWrap l t p = post.find? p ∧
      Registry.previousNoWrap l t p = pre.reverse.find? p := by
  have hex : ∃ x ∈ l, (fun it : Tab => it.id == t.id) x = true := by
    simpa [Registry.contains] using h
  rcases findIdx_split l hex with ⟨pre, t0, post, hl, ht0, hpre, hidx⟩
  refine ⟨pre, t0, post, hl, by simpa using ht0, ?_, ?_, ?_⟩
  · intro u hu; simpa using hpre u hu
  · simp only [Registry.nextNoWrap, h, if_true, hidx]
    rw [hl]; simp
  · simp only [Registry.previousNoWrap, h, if_true, hidx]
    rw [hl]; simp

/-- The scans that do not wrap are sound. -/
theorem Registry.nextNoWrap_sound : Scan.Sound Registry.nextNoWrap := by
  intro l t p n hnd h
  have hc : Registry.contains l t = true := by
    cases hc : Registry.contains l t
    · simp [Registry.nextNoWrap, hc] at h
    · rfl
  rcases Registry.splitNoWrap l t p hc with ⟨pre, t0, post, hl, ht0, -, hnext, -⟩
  rw [hnext] at h
  have hmem := List.mem_of_find?_eq_some h
  refine ⟨?_, List.find?_some h, ?_⟩
  · rw [hl]
    exact List.mem_append_right _ (List.mem_cons_of_mem _ hmem)
  · rw [hl, List.map_append, List.map_cons] at hnd
    have h2 := (List.nodup_cons.1 (List.nodup_append.1 hnd).2.1).1
    intro heq
    exact h2 (List.mem_map.2 ⟨n, hmem, by rw [heq, ht0]⟩)

theorem Registry.previousNoWrap_sound : Scan.Sound Registry.previousNoWrap := by
  intro l t p n hnd h
  have hc : Registry.contains l t = true := by
    cases hc : Registry.contains l t
    · simp [Registry.previousNoWrap, hc] at h
    · rfl
  rcases Registry.splitNoWrap l t p hc with ⟨pre, t0, post, hl, ht0, hpre, -, hprev⟩
  rw [hprev] at h
  have hmem := List.mem_of_find?_eq_some h
  refine ⟨?_, List.find?_some h, hpre n (List.mem_reverse.1 hmem)⟩
  rw [hl]
  exact List.mem_append_left _ (List.mem_reverse.1 hmem)

/-- On a null tab or an enabled tab, `selectTab` does not consult the scan. -/
theorem selectTabWith_of_enabled (next : Scan) (s : TabsController) (tab : Option Tab)
    (b : Bool) (h : ∀ t, tab = some t → isEnabled t = true) :
    selectTabWith next s tab b = selectTab s tab b := by
  cases tab with
  | none => rfl
  | some t =>
    have hd : t.disabled = false := by simpa [isEnabled] using h t rfl
    simp only [selectTabWith, selectTab, hd]
    rfl

/-- The reselection target of `removeTab` is an enabled tab of the registry
other than the removed one. -/
theorem removeTarget_some (next previous : Scan) (hn : next.Sound) (hp : previous.Sound)
    (l : List Tab) (t x : Tab) (hnd : (l.map (fun it => it.id)).Nodup)
    (h : (next l t isEnabled).orElse (fun _ => previous l t isEnabled) = some x) :
    x ∈ l ∧ isEnabled x = true ∧ x.id ≠ t.id := by
  cases hnx : next l t isEnabled with
  | some n =>
    rw [hnx] at h
    simp only [Option.orElse, Option.some.injEq] at h
    subst h
    exact hn l t isEnabled n hnd hnx
  | none =>
    rw [hnx] at h
    simp only [Option.orElse] at h
    exact hp l t isEnabled x hnd h

/-- With sound scans, `removeTab` of a registry tab is `selectTab` of the
reselection target followed by `list.remove`. -/
theorem removeTabWith_of_contains (next previous : Scan) (hn : next.Sound)
    (hp : previous.Sound) (s : TabsController) (t : Tab)
    (hnd : (s.list.map (fun it => it.id)).Nodup) (h : Registry.contains s.list t = true) :
    (removeTabWith next previous s t).list =
        Registry.remove (selectTab s ((next s.list t isEnabled).orElse
          (fun _ => previous s.list t isEnabled)) false).1.list t ∧
      (removeTabWith next previous s t).selected = (selectTab s ((next s.list t isEnabled).orElse
          (fun _ => previous s.list t isEnabled)) false).1.selected ∧
      (removeTabWith next previous s t).hooks = (selectTab s ((next s.list t isEnabled).orElse
          (fun _ => previous s.list t isEnabled)) false).1.hooks := by
  have he := selectTabWith_of_enabled next s ((next s.list t isEnabled).orElse
    (fun _ => previous s.list t isEnabled)) false
    (fun x hx => (removeTarget_some next previous hn hp s.list t x hnd hx).2.1)
  simp [removeTabWith, updateHash, h, he]


/-- State of the selection after `removeTab` of a registry tab, when the tab
that `selected` refers to is in the registry and active. -/
theorem removeTabWith_selection (next previous : Scan) (hn : next.Sound) (hp : previous.Sound)
    (s : TabsController) (t a : Tab)
    (hnd : (s.list.map (fun it => it.id)).Nodup) (ht : t ∈ s.list)
    (ha : a ∈ s.list) (hact : a.active = true) (hsel : s.selected = some a.id)
    (hne : ∀ x, (next s.list t isEnabled).orElse
      (fun _ => previous s.list t isEnabled) = some x → x.id ≠ a.id) :
    (removeTabWith next previous s t).selected =
        ((next s.list t isEnabled).orElse
          (fun _ => previous s.list t isEnabled)).map (fun it => it.id) ∧
      (activeTabs (removeTabWith next previous s t)).map (fun it => it.id) =
        (((next s.list t isEnabled).orElse
          (fun _ => previous s.list t isEnabled)).map (fun it => it.id)).toList := by
  rcases removeTabWith_of_contains next previous hn hp s t hnd (mem_contains ht) with ⟨hl, hs, -⟩
  unfold activeTabs
  rw [hl, hs]
  cases htar : (next s.list t isEnabled).orElse
      (fun _ => previous s.list t isEnabled) with
  | none =>
    have h0 : none ≠ s.selected := by rw [hsel]; simp
    rcases selectTab_none_spec s false h0 with ⟨h1, h2, -⟩
    rw [h1, h2]
    refine ⟨?_, ?_⟩
    · have : s.list.any (fun it => it.active && decide (s.selected = some it.id)) = true := by
        rw [List.any_eq_true]
        exact ⟨a, ha, by simp [hact, hsel]⟩
      simp [this]
    · simp [activeTabs_remove_nil _ t (activeTabs_setActive_none s.list)]
  | some x =>
    rcases removeTarget_some next previous hn hp s.list t x hnd htar with ⟨hx, hen, hxt⟩
    have h0 : some x.id ≠ s.selected := by
      rw [hsel]; intro heq; exact hne x htar (Option.some.inj heq)
    rcases selectTab_spec s x false hnd hx h0 with ⟨h1, h2, -, -⟩
    rw [h1, h2, resolveTarget_enabled _ _ hen]
    refine ⟨rfl, ?_⟩
    simp only [Option.map_some', Option.toList]
    exact activeIds_remove _ t x.id (activeTabs_setActive_some s.list x.id hnd
      (List.mem_map.2 ⟨x, hx, rfl⟩)) hxt

/-- C2: for every pair of registry scans `next`, `previous` that return
entries of the registry other than the tab they start from and satisfying
the predicate (the cyclic scans `Registry.next` / `Registry.previous` and the
scans without wrap-around are such), removing the active tab `t` of a
registry (tab objects unique) drops `t` from the registry and leaves
`next(t, enabled)` as the one active tab if it exists, otherwise
`previous(t, enabled)` if that exists, otherwise no tab active and nothing
selected. -/
theorem remove_active_reselects (next previous : Scan) (hn : next.Sound) (hp : previous.Sound)
    (s : TabsController) (t : Tab)
    (hnd : (s.list.map (fun it => it.id)).Nodup) (ht : t ∈ s.list)
    (hact : t.active = true) (hsel : s.selected = some t.id) :
    t.id ∉ (removeTabWith next previous s t).list.map (fun it => it.id) ∧
      (∀ n, next s.list t isEnabled = some n →
        (removeTabWith next previous s t).selected = some n.id ∧
          (activeTabs (removeTabWith next previous s t)).map (fun it => it.id) = [n.id]) ∧
      (next s.list t isEnabled = none →
        ∀ p, previous s.list t isEnabled = some p →
          (removeTabWith next previous s t).selected = some p.id ∧
            (activeTabs (removeTabWith next previous s t)).map (fun it => it.id) = [p.id]) ∧
      (next s.list t isEnabled = none →
        previous s.list t isEnabled = none →
          (removeTabWith next previous s t).selected = none ∧
            activeTabs (removeTabWith next previous s t) = []) := by
  have hsel2 := removeTabWith_selection next previous hn hp s t t hnd ht ht hact hsel
    (fun x hx => (removeTarget_some next previous hn hp s.list t x hnd hx).2.2)
  refine ⟨?_, ?_, ?_, ?_⟩
  · rw [(removeTabWith_of_contains next previous hn hp s t hnd (mem_contains ht)).1]
    exact Registry.not_mem_remove _ t
  · intro n hn1
    rw [hn1] at hsel2
    simpa using hsel2
  · intro hn1 p hp1
    rw [hn1, Option.orElse, hp1] at hsel2
    simpa using hsel2
  · intro hn1 hp1
    rw [hn1, Option.orElse, hp1] at hsel2
    simpa using hsel2

/-- Witness of C2. With the scans that do not wrap, removing the active last
tab C of the registry (A, disabled B, C) finds no next tab and selects the
previous enabled tab A; with the cyclic scans of the modelled registry,
removing the active first tab A of the registry (A, B, C) selects the next
tab B. -/
theorem remove_active_reselects_witness :
    (Registry.nextNoWrap exampleCactive.list ⟨12, some 2, false, true⟩ isEnabled = none ∧
      Registry.previousNoWrap exampleCactive.list ⟨12, some 2, false, true⟩ isEnabled =
        some ⟨10, some 0, false, false⟩ ∧
      (removeTabWith Registry.nextNoWrap Registry.previousNoWrap exampleCactive
        ⟨12, some 2, false, true⟩).selected = some 10 ∧
      (activeTabs (removeTabWith Registry.nextNoWrap Registry.previousNoWrap exampleCactive
        ⟨12, some 2, false, true⟩)).map (fun it => it.id) = [10]) ∧
    ((removeTab exampleABC ⟨10, some 0, false, true⟩).selected = some 11 ∧
      (activeTabs (removeTab exampleABC ⟨10, some 0, false, true⟩)).map (fun it => it.id) =
        [11]) :=
  ⟨⟨by decide, by decide,
      (remove_active_reselects Registry.nextNoWrap Registry.previousNoWrap
        Registry.nextNoWrap_sound Registry.previousNoWrap_sound exampleCactive
        ⟨12, some 2, false, true⟩ (by decide) (by decide) rfl rfl).2.2.1 (by decide)
        ⟨10, some 0, false, false⟩ (by decide)⟩,
    (remove_active_reselects Registry.next Registry.previous Registry.next_sound
      Registry.previous_sound exampleABC ⟨10, some 0, false, true⟩ (by decide) (by decide)
      rfl rfl).2.1 ⟨11, some 1, false, false⟩ (by decide)⟩

/-- C3: for a tab `t` of the registry (tab objects unique): when `t` is the
selected tab, `select(t)` leaves the whole state as it is (flags, hook record,
bound index and its write record, notification schedule); otherwise the one
active tab afterwards is `t` when `t` is enabled and `registry.next(t, enabled)`
when `t` is disabled, and when `t` is disabled and no tab is enabled, no tab is
active, nothing is selected and the only hooks called are the `deselected`
hooks of the tabs that were active. -/
theorem select_spec (s : TabsController) (t : Tab)
    (hnd : (s.list.map (fun it => it.id)).Nodup) (ht : t ∈ s.list) :
    (s.selected = some t.id → (selectTab s (some t) false).1 = s) ∧
      (s.selected ≠ some t.id →
        (t.disabled = false →
          (selectTab s (some t) false).1.selected = some t.id ∧
            (activeTabs (selectTab s (some t) false).1).map (fun it => it.id) = [t.id]) ∧
        (t.disabled = true → ∀ n, Registry.next s.list t isEnabled = some n →
          (selectTab s (some t) false).1.selected = some n.id ∧
            (activeTabs (selectTab s (some t) false).1).map (fun it => it.id) = [n.id]) ∧
        (t.disabled = true → (∀ u ∈ s.list, u.disabled = true) →
          (selectTab s (some t) false).1.selected = none ∧
            activeTabs (selectTab s (some t) false).1 = [] ∧
            (selectTab s (some t) false).1.hooks =
              s.hooks ++ (activeTabs s).map (fun it => Hook.deselected it.id))) := by
  refine ⟨?_, ?_⟩
  · intro h
    rw [selectTab_early s (some t) false (by simpa using h.symm)]
  · intro h
    have h0 : some t.id ≠ s.selected := fun heq => h heq.symm
    rcases selectTab_spec s t false hnd ht h0 with ⟨h1, h2, h3, -⟩
    unfold activeTabs
    rw [h1, h2, h3]
    refine ⟨?_, ?_, ?_⟩
    · intro hd
      have hr : resolveTarget s.list t = some t := by simp [resolveTarget, hd]
      rw [hr]
      exact ⟨rfl, activeTabs_setActive_some s.list t.id hnd (List.mem_map.2 ⟨t, ht, rfl⟩)⟩
    · intro hd n hn
      have hr : resolveTarget s.list t = some n := by simp [resolveTarget, hd, hn]
      rw [hr]
      exact ⟨rfl, activeTabs_setActive_some s.list n.id hnd
        (List.mem_map.2 ⟨n, (Registry.next_some s.list t n isEnabled hnd hn).1, rfl⟩)⟩
    · intro hd hall
      have hr : resolveTarget s.list t = none := by
        simp [resolveTarget, hd, Registry.next_none_of_all_disabled s.list t hall]
      rw [hr]
      exact ⟨rfl, activeTabs_setActive_none s.list, by simp [activeTabs]⟩

/-- Witness of C3: selecting the disabled B of the example registry activates
the enabled A. -/
theorem select_spec_witness :
    (selectTab exampleAdisabledB (some ⟨11, some 1, true, false⟩) false).1.selected = some 10 ∧
      (activeTabs (selectTab exampleAdisabledB (some ⟨11, some 1, true, false⟩) false).1).map
        (fun it => it.id) = [10] :=
  ((select_spec exampleAdisabledB ⟨11, some 1, true, false⟩ (by decide) (by decide)).2
    (by decide)).2.1 rfl ⟨10, some 0, false, false⟩ (by decide)

/-- C4 as stated fails: on the example registry (A active, then B, C), removing
the inactive B deselects A and selects C, and both hooks fire. -/
theorem remove_inactive_reselects_counterexample :
    exampleABC.selected = some 10 ∧
      (removeTab exampleABC ⟨11, some 1, false, false⟩).selected = some 12 ∧
      (activeTabs (removeTab exampleABC ⟨11, some 1, false, false⟩)).map (fun it => it.id) =
        [12] ∧
      (removeTab exampleABC ⟨11, some 1, false, false⟩).hooks =
        [Hook.deselected 10, Hook.selected 12] := by
  decide

theorem Inv.activeIds {s : TabsController} (h : Inv s) (a : Tab) (ha : a ∈ s.list)
    (hact : a.active = true) : (activeTabs s).map (fun it => it.id) = [a.id] := by
  have hlen := h.activeTabs_length_le_one
  have hmem : a ∈ activeTabs s := List.mem_filter.2 ⟨ha, by simpa using hact⟩
  cases hl : activeTabs s with
  | nil => rw [hl] at hmem; cases hmem
  | cons y ys =>
    rw [hl] at hlen hmem
    cases ys with
    | nil =>
      rcases List.mem_singleton.1 hmem with rfl
      rfl
    | cons z zs => simp at hlen

/-- C4, amended: `remove(t)` reselects whichever tab is removed. For every pair
of registry scans `next`, `previous` that return entries of the registry other
than the tab they start from and satisfying the predicate: in a registry
satisfying the invariant with active tab `a`, after `remove(t)` of another tab
`t` the one active tab is `next(t, enabled)`, else `previous(t, enabled)`,
else none; when that tab is `a` itself, `a` is still the active tab, no hook
has fired and no flag of a remaining tab has changed. -/
theorem remove_inactive_reselects (next previous : Scan) (hn : next.Sound)
    (hp : previous.Sound) (s : TabsController) (t a : Tab) (hinv : Inv s)
    (ht : t ∈ s.list) (ha : a ∈ s.list) (hact : a.active = true)
    (hsel : s.selected = some a.id) (hne : t.id ≠ a.id) :
    (removeTabWith next previous s t).selected =
        ((next s.list t isEnabled).orElse
          (fun _ => previous s.list t isEnabled)).map (fun it => it.id) ∧
      (activeTabs (removeTabWith next previous s t)).map (fun it => it.id) =
        (((next s.list t isEnabled).orElse
          (fun _ => previous s.list t isEnabled)).map (fun it => it.id)).toList ∧
      (((next s.list t isEnabled).orElse
          (fun _ => previous s.list t isEnabled)).map (fun it => it.id) = some a.id →
        (removeTabWith next previous s t).hooks = s.hooks ∧
          (removeTabWith next previous s t).list = Registry.remove s.list t) := by
  by_cases hsame : ((next s.list t isEnabled).orElse
      (fun _ => previous s.list t isEnabled)).map (fun it => it.id) = some a.id
  · rcases removeTabWith_of_contains next previous hn hp s t hinv.1 (mem_contains ht) with
      ⟨hl, hs, hh⟩
    have hearly := selectTab_early s _ false (hsame.trans hsel.symm)
    rw [hearly] at hl hs hh
    refine ⟨by rw [hs, hsel, hsame], ?_, fun _ => ⟨hh, hl⟩⟩
    rw [hsame]
    unfold activeTabs
    rw [hl]
    exact activeIds_remove _ t a.id (hinv.activeIds a ha hact) (fun heq => hne heq.symm)
  · have hsel2 := removeTabWith_selection next previous hn hp s t a hinv.1 ht ha hact hsel (by
      intro x hx heq
      apply hsame
      rw [hx]
      simp [heq])
    exact ⟨hsel2.1, hsel2.2, fun h => absurd h hsame⟩

/-- Witness of the amended C4, with the scans that do not wrap. Removing the
inactive last tab C of the registry (A active, B, C) finds no next tab and
selects the previous tab B: A is deselected and both hooks fire. Removing the
inactive first tab A of the registry (A, B active) finds the active B as the
next tab: B stays active and no hook fires. -/
theorem remove_inactive_reselects_witness :
    (Registry.nextNoWrap exampleABC.list ⟨12, some 2, false, false⟩ isEnabled = none ∧
      (removeTabWith Registry.nextNoWrap Registry.previousNoWrap exampleABC
        ⟨12, some 2, false, false⟩).selected = some 11 ∧
      (activeTabs (removeTabWith Registry.nextNoWrap Registry.previousNoWrap exampleABC
        ⟨12, some 2, false, false⟩)).map (fun it => it.id) = [11] ∧
      (removeTabWith Registry.nextNoWrap Registry.previousNoWrap exampleABC
        ⟨12, some 2, false, false⟩).hooks = [Hook.deselected 10, Hook.selected 11]) ∧
    ((removeTabWith Registry.nextNoWrap Registry.previousNoWrap exampleBactive
        ⟨10, some 0, false, false⟩).selected = some 11 ∧
      (removeTabWith Registry.nextNoWrap Registry.previousNoWrap exampleBactive
        ⟨10, some 0, false, false⟩).hooks = []) :=
  have h1 := remove_inactive_reselects Registry.nextNoWrap Registry.previousNoWrap
    Registry.nextNoWrap_sound Registry.previousNoWrap_sound exampleABC
    ⟨12, some 2, false, false⟩ ⟨10, some 0, false, true⟩ ⟨by decide, by decide⟩ (by decide)
    (by decide) rfl rfl (by decide)
  have h2 := remove_inactive_reselects Registry.nextNoWrap Registry.previousNoWrap
    Registry.nextNoWrap_sound Registry.previousNoWrap_sound exampleBactive
    ⟨10, some 0, false, false⟩ ⟨11, some 1, false, true⟩ ⟨by decide, by decide⟩ (by decide)
    (by decide) rfl rfl (by decide)
  ⟨⟨by decide, h1.1, h1.2.1, by decide⟩, h2.1, (h2.2.2 (by decide)).1⟩

/-! ## `selectAt`, `next` and `previous` (C5 to C8) -/

/-- With no enabled tab to find in either direction, `selectNext` and
`selectPrevious` on a disabled target call each other until the budget is used
up, whatever the budget: the call never returns, and the state is untouched. -/
theorem selectNext_selectPrevious_diverge (fuel : Nat) (s : TabsController) (t : Tab)
    (hn : Registry.next s.list t isEnabled = none)
    (hp : Registry.previous s.list t isEnabled = none) (hd : t.disabled = true) :
    selectNext fuel s (some t) = (s, Completion.outOfFuel) ∧
      selectPrevious fuel s (some t) = (s, Completion.outOfFuel) := by
  induction fuel with
  | zero => exact ⟨rfl, rfl⟩
  | succ n ih =>
    refine ⟨?_, ?_⟩
    · simp only [selectNext, hn, hd, if_true]
      exact ih.2
    · simp only [selectPrevious, hp, hd, if_true]
      exact ih.1

/-- Away from that case `selectNext` and `selectPrevious` return within two
calls, with the same result for every larger budget. -/
theorem selectNext_selectPrevious_return (fuel : Nat) (s : TabsController) (t : Tab)
    (h : (Registry.next s.list t isEnabled).isSome = true ∨
      (Registry.previous s.list t isEnabled).isSome = true ∨ t.disabled = false) :
    (selectNext (fuel + 2) s (some t) = selectNext 2 s (some t) ∧
        (selectNext 2 s (some t)).2 ≠ Completion.outOfFuel) ∧
      (selectPrevious (fuel + 2) s (some t) = selectPrevious 2 s (some t) ∧
        (selectPrevious 2 s (some t)).2 ≠ Completion.outOfFuel) := by
  cases hd : t.disabled <;>
    cases hn : Registry.next s.list t isEnabled <;>
    cases hp : Registry.previous s.list t isEnabled <;>
    simp_all [selectNext, selectPrevious]

/-- C5 fails at this input: in the example registry (A, disabled B, active C)
`registry.next(B, enabled)` is the already active C, and `selectAt(1)`, B's
index, ends with A active instead of C, for every recursion budget. -/
theorem selectAt_disabled_next_active (fuel : Nat) :
    Registry.next exampleCactive.list ⟨11, some 1, true, false⟩ isEnabled =
        some ⟨12, some 2, false, true⟩ ∧
      selectTabAt (fuel + 1) exampleCactive 1 false =
        ({ exampleCactive with
            list := [⟨10, some 0, false, true⟩, ⟨11, some 1, true, false⟩,
              ⟨12, some 2, false, false⟩],
            selected := some 10, selIndex := some (SelIndex.string 0), queued := true,
            hooks := [Hook.deselected 12, Hook.selected 10], writes := [SelIndex.string 0],
            scheduled := 1 },
          Completion.normal ()) :=
  ⟨by decide, rfl⟩

/-- C6 fails at this input: when the only tab is active and has just been
disabled, the `disabled` watcher's call of `next` never returns, whatever the
recursion budget, and the tab is still the active one. -/
theorem disabledWatcher_none_enabled (fuel : Nat) :
    disabledWatcher fuel exampleActiveDisabled ⟨10, some 0, true, true⟩ true =
        (exampleActiveDisabled, Completion.outOfFuel) ∧
      (activeTabs exampleActiveDisabled).map (fun it => it.id) = [10] := by
  refine ⟨?_, by decide⟩
  have h := (selectNext_selectPrevious_diverge fuel exampleActiveDisabled
    ⟨10, some 0, true, true⟩ (by decide) (by decide) rfl).1
  simp only [disabledWatcher, h]
  rfl

/-- C7 fails at this input: on a registry of two disabled tabs, `next(A)` and
`previous(A)` do not return for any recursion budget. -/
theorem next_previous_none_enabled (fuel : Nat) :
    selectNext fuel exampleAllDisabled (some ⟨10, some 0, true, false⟩) =
        (exampleAllDisabled, Completion.outOfFuel) ∧
      selectPrevious fuel exampleAllDisabled (some ⟨10, some 0, true, false⟩) =
        (exampleAllDisabled, Completion.outOfFuel) :=
  selectNext_selectPrevious_diverge fuel exampleAllDisabled _ (by decide) (by decide) rfl

/-- C8 fails at this input: with A, B enabled and B already selected, `next(A)`
returns no tab (the early return of `selectTab`), so `previous(next(A))` reads
`disabled` of an undefined target and ends in a `TypeError` instead of
returning A. -/
theorem previous_next_selected (fuel : Nat) :
    selectNext (fuel + 1) exampleBactive (some ⟨10, some 0, false, false⟩) =
        (exampleBactive, Completion.normal none) ∧
      previousOfNext (fuel + 1) exampleBactive ⟨10, some 0, false, false⟩ =
        (exampleBactive, Completion.typeError) :=
  ⟨rfl, rfl⟩

/-! ## Index assignment (C9, C10) -/

theorem activate_indices (l : List Tab) (sel : Option Nat) (x : Option Tab) :
    (activate l sel x).1.map (fun it => it.index) = l.map (fun it => it.index) := by
  cases x with
  | none => cases l <;> rfl
  | some x =>
    induction l with
    | nil => rfl
    | cons t rest ih =>
      by_cases h : t.id = x.id
      · simp only [activate, h, if_true, updateState]
        split <;> simp
      · simp [activate, h, ih]

/-- Function `selectTab` never changes a `$index`. -/
theorem selectTab_indices (s : TabsController) (tab : Option Tab) (b : Bool) :
    (selectTab s tab b).1.list.map (fun it => it.index) = s.list.map (fun it => it.index) := by
  have hoff : (s.list.map Tab.off).map (fun it => it.index) =
      s.list.map (fun it => it.index) := by
    simp [List.map_map, Function.comp_def, Tab.off]
  by_cases h : tab.map (fun t => t.id) = s.selected
  · rw [selectTab_early s tab b h]
  · cases tab with
    | none => rw [selectTab_none_list s b h, hoff]
    | some t => rw [selectTab_some_list s t b h, activate_indices, hoff]

/-- Calling `add` on a tab without `$index` returns the registry count before the add,
and appends the tab with that index. -/
theorem addTab_no_index (s : TabsController) (tab : Tab) (h : tab.index = none) :
    (addTab s tab).2 = Registry.count s.list ∧
      (Registry.contains s.list tab = false →
        (addTab s tab).1.list.map (fun it => it.index) =
          s.list.map (fun it => it.index) ++ [some (Registry.count s.list)]) ∧
      (Registry.contains s.list tab = true → (addTab s tab).1.list = s.list) := by
  have hadd : ∀ t : Tab, (Registry.add s.list t (Registry.count s.list)).1 = s.list ++ [t] := by
    intro t; simp [Registry.add, Registry.count]
  have hc : ∀ i, Registry.contains s.list ⟨tab.id, i, tab.disabled, tab.active⟩ =
      Registry.contains s.list tab := fun _ => rfl
  refine ⟨by simp [addTab, h], ?_, ?_⟩
  · intro hnot
    simp only [addTab, updateHash, h, Option.getD_none, hc, hnot, Bool.not_false, if_true, hadd]
    split
    · rw [selectTab_indices]; simp
    · simp
  · intro hin
    simp [addTab, updateHash, hc, hin]

/-- C9 as stated fails: when the first tab A is disabled, adding A, B, C
without explicit index and with `active = false` to a new controller with no
`$selIndex` bound still returns the indices 0, 1, 2, but `selectDefaultTab`
calls `select(A)`, which activates `list.next(A, isEnabled)`: B is the one
active tab, not A. -/
theorem add_three_then_default_counterexample :
    (addThree (TabsController.init none) ⟨10, none, true, false⟩ ⟨11, none, false, false⟩
        ⟨12, none, false, false⟩).1 = (0, 1, 2) ∧
      (selectDefaultTab (addThree (TabsController.init none) ⟨10, none, true, false⟩
        ⟨11, none, false, false⟩ ⟨12, none, false, false⟩).2).list =
        [⟨10, some 0, true, false⟩, ⟨11, some 1, false, true⟩, ⟨12, some 2, false, false⟩] ∧
      (activeTabs (selectDefaultTab (addThree (TabsController.init none)
        ⟨10, none, true, false⟩ ⟨11, none, false, false⟩ ⟨12, none, false, false⟩).2)).map
          (fun it => it.id) = [11] := by
  decide

/-- C9, amended: on a new controller with no `$selIndex` bound, adding three
distinct tabs A, B, C without explicit index and with `active = false`, A
being enabled (B and C enabled or not), returns the indices 0, 1, 2 and stores
them, selects nothing, and `selectDefaultTab` then makes A the one active tab;
in general `add` on a tab without index returns the registry count before the
add. -/
theorem add_three_then_default (a b c : Nat) (dB dC : Bool)
    (hab : a ≠ b) (hac : a ≠ c) (hbc : b ≠ c) :
    (addThree (TabsController.init none) ⟨a, none, false, false⟩ ⟨b, none, dB, false⟩
        ⟨c, none, dC, false⟩).1 = (0, 1, 2) ∧
      (addThree (TabsController.init none) ⟨a, none, false, false⟩ ⟨b, none, dB, false⟩
        ⟨c, none, dC, false⟩).2.list =
        [⟨a, some 0, false, false⟩, ⟨b, some 1, dB, false⟩, ⟨c, some 2, dC, false⟩] ∧
      (addThree (TabsController.init none) ⟨a, none, false, false⟩ ⟨b, none, dB, false⟩
        ⟨c, none, dC, false⟩).2.selIndex = none ∧
      (selectDefaultTab (addThree (TabsController.init none) ⟨a, none, false, false⟩
        ⟨b, none, dB, false⟩ ⟨c, none, dC, false⟩).2).list =
        [⟨a, some 0, false, true⟩, ⟨b, some 1, dB, false⟩, ⟨c, some 2, dC, false⟩] ∧
      (selectDefaultTab (addThree (TabsController.init none) ⟨a, none, false, false⟩
        ⟨b, none, dB, false⟩ ⟨c, none, dC, false⟩).2).selected = some a ∧
      (∀ (s : TabsController) (tab : Tab), tab.index = none →
        (addTab s tab).2 = Registry.count s.list) := by
  have hba : b ≠ a := fun h => hab h.symm
  have hca : c ≠ a := fun h => hac h.symm
  have hcb : c ≠ b := fun h => hbc h.symm
  have hl : (addThree (TabsController.init none) ⟨a, none, false, false⟩ ⟨b, none, dB, false⟩
        ⟨c, none, dC, false⟩).2 =
      { list := [⟨a, some 0, false, false⟩, ⟨b, some 1, dB, false⟩, ⟨c, some 2, dC, false⟩],
        selected := none, selIndex := none, queued := true, hash := [a, b, c], hooks := [],
        writes := [], scheduled := 1 } := by
    simp [addThree, addTab, TabsController.init, Registry.contains, Registry.add,
      Registry.count, onTabsChanged, updateHash, hab, hac, hbc, hba, hca, hcb]
  refine ⟨?_, ?_, ?_, ?_, ?_, ?_⟩
  · simp [addThree, addTab, TabsController.init, Registry.contains, Registry.add,
      Registry.count, onTabsChanged, updateHash, hab, hac, hbc, hba, hca, hcb]
  · rw [hl]
  · rw [hl]
  · rw [hl]
    simp [selectDefaultTab, selectTab, forEachDeactivate, updateState, activate, onTabsChanged,
      selIndexValue]
  · rw [hl]
    simp [selectDefaultTab, selectTab, forEachDeactivate, updateState, activate, onTabsChanged,
      selIndexValue]
  · intro s tab h
    exact (addTab_no_index s tab h).1

/-- Witness of C9 with the `$id`s 10, 11, 12. -/
theorem add_three_then_default_witness :
    (addThree (TabsController.init none) ⟨10, none, false, false⟩ ⟨11, none, false, false⟩
        ⟨12, none, false, false⟩).1 = (0, 1, 2) ∧
      (activeTabs (selectDefaultTab (addThree (TabsController.init none)
        ⟨10, none, false, false⟩ ⟨11, none, false, false⟩ ⟨12, none, false, false⟩).2)).map
          (fun it => it.id) = [10] :=
  have h := add_three_then_default 10 11 12 false false (by decide) (by decide) (by decide)
  ⟨h.1, by unfold activeTabs; rw [h.2.2.2.1]; decide⟩

/-- C10 as stated fails: after adding A, B, C without explicit index and
removing B, the two remaining tabs carry the indices 0 and 2. -/
theorem indices_after_remove_counterexample :
    exampleAdded.list.map (fun it => it.index) = [some 0, some 1, some 2] ∧
      (removeTab exampleAdded ⟨11, some 1, false, false⟩).list.map (fun it => it.index) =
        [some 0, some 2] ∧
      (removeTab exampleAdded ⟨11, some 1, false, false⟩).list.length = 2 := by
  decide

theorem addTab_contiguous (s : TabsController) (tab : Tab) (h : tab.index = none)
    (hs : s.list.map (fun it => it.index) = (List.range s.list.length).map some) :
    (addTab s tab).1.list.map (fun it => it.index) =
      (List.range (addTab s tab).1.list.length).map some := by
  rcases addTab_no_index s tab h with ⟨-, hnew, hold⟩
  cases hc : Registry.contains s.list tab
  · have hmap := hnew hc
    have hlen : (addTab s tab).1.list.length = s.list.length + 1 := by
      have := congrArg List.length hmap
      simpa using this
    rw [hmap, hlen, List.range_succ, List.map_append, hs]
    rfl
  · rw [hold hc]; exact hs

theorem activate_idIndex (l : List Tab) (sel : Option Nat) (x : Option Tab) :
    (activate l sel x).1.map (fun it => (it.id, it.index)) =
      l.map (fun it => (it.id, it.index)) := by
  cases x with
  | none => cases l <;> rfl
  | some x =>
    induction l with
    | nil => rfl
    | cons t rest ih =>
      by_cases h : t.id = x.id
      · simp only [activate, h, if_true, updateState]
        split <;> simp [h]
      · simp [activate, h, ih]

theorem selectTab_idIndex (s : TabsController) (tab : Option Tab) (b : Bool) :
    (selectTab s tab b).1.list.map (fun it => (it.id, it.index)) =
      s.list.map (fun it => (it.id, it.index)) := by
  have hoff : (s.list.map Tab.off).map (fun it => (it.id, it.index)) =
      s.list.map (fun it => (it.id, it.index)) := by
    simp [List.map_map, Function.comp_def, Tab.off]
  by_cases h : tab.map (fun t => t.id) = s.selected
  · rw [selectTab_early s tab b h]
  · cases tab with
    | none => rw [selectTab_none_list s b h, hoff]
    | some t => rw [selectTab_some_list s t b h, activate_idIndex, hoff]

theorem removeTab_idIndex (s : TabsController) (t : Tab) :
    (removeTab s t).list.map (fun it => (it.id, it.index)) =
      (Registry.remove s.list t).map (fun it => (it.id, it.index)) := by
  have hfilter : ∀ l : List Tab, (Registry.remove l t).map (fun it => (it.id, it.index)) =
      (l.map (fun it => (it.id, it.index))).filter (fun p => p.1 != t.id) := by
    intro l
    rw [List.filter_map]
    rfl
  cases hc : Registry.contains s.list t
  · have hsame : Registry.remove s.list t = s.list := by
      unfold Registry.remove
      rw [List.filter_eq_self]
      intro u hu
      have : ¬ u.id = t.id := by
        intro heq
        have := (Registry.contains_iff s.list t).2 (List.mem_map.2 ⟨u, hu, heq⟩)
        rw [hc] at this
        cases this
      simpa using this
    rw [hsame]
    simp [removeTab, updateHash, hc]
  · rw [(removeTab_of_contains s t hc).1, hfilter, hfilter, selectTab_idIndex]

/-- C10, amended: after any sequence of `add` calls on tabs without explicit
index, on a new controller, the index values read in registry order are exactly
0, 1, ..., count-1; `remove` does not renumber, it keeps the `$id` and `$index`
of every remaining tab in place. -/
theorem add_indices_contiguous (selIndex : Option Int) (tabs : List Tab)
    (h : ∀ t ∈ tabs, t.index = none) :
    (addAll selIndex tabs).list.map (fun it => it.index) =
        (List.range (addAll selIndex tabs).list.length).map some ∧
      (∀ (s : TabsController) (t : Tab),
        (removeTab s t).list.map (fun it => (it.id, it.index)) =
          (Registry.remove s.list t).map (fun it => (it.id, it.index))) := by
  refine ⟨?_, removeTab_idIndex⟩
  unfold addAll
  have key : ∀ (l : List Tab) (s : TabsController), (∀ t ∈ l, t.index = none) →
      s.list.map (fun it => it.index) = (List.range s.list.length).map some →
      (l.foldl (fun s tab => (addTab s tab).1) s).list.map (fun it => it.index) =
        (List.range (l.foldl (fun s tab => (addTab s tab).1) s).list.length).map some := by
    intro l
    induction l with
    | nil => intro s _ hs; exact hs
    | cons t rest ih =>
      intro s hl hs
      exact ih _ (fun u hu => hl u (List.mem_cons_of_mem _ hu))
        (addTab_contiguous s t (hl t (List.mem_cons_self _ _)) hs)
  exact key tabs _ h rfl

/-- Witness of the amended C10: three tabs added without index. -/
theorem add_indices_contiguous_witness :
    (addAll none [⟨10, none, false, false⟩, ⟨11, none, true, false⟩,
      ⟨12, none, false, true⟩]).list.map (fun it => it.index) = [some 0, some 1, some 2] :=
  (add_indices_contiguous none [⟨10, none, false, false⟩, ⟨11, none, true, false⟩,
    ⟨12, none, false, true⟩] (by decide)).1.trans (by decide)

/-! ## Pagination (C12, C17) -/

/-- The fields of `pagination` that `selectPageAt` leaves, however the call of
`tabsController.selectAt` ends. -/
theorem selectPageAt_fields (fuel : Nat) (d : TabsDirective) (n : Nat) (page : Option Int) :
    (selectPageAt fuel d n page).1.pagination.active = d.pagination.active ∧
      (selectPageAt fuel d n page).1.pagination.pagesCount = d.pagination.pagesCount ∧
      (selectPageAt fuel d n page).1.pagination.itemsPerPage = d.pagination.itemsPerPage ∧
      (selectPageAt fuel d n page).1.pagination.tabWidth = d.pagination.tabWidth ∧
      (selectPageAt fuel d n page).1.pagination.startIndex =
        (pageRange d.pagination ((n : Int) - 1) (clampPage d.pagination page)).startIndex ∧
      (selectPageAt fuel d n page).1.pagination.endIndex =
        (pageRange d.pagination ((n : Int) - 1) (clampPage d.pagination page)).endIndex ∧
      (selectPageAt fuel d n page).1.pagination.hasPrev =
        (pageRange d.pagination ((n : Int) - 1) (clampPage d.pagination page)).hasPrev ∧
      (selectPageAt fuel d n page).1.pagination.hasNext =
        (pageRange d.pagination ((n : Int) - 1) (clampPage d.pagination page)).hasNext := by
  simp only [selectPageAt]
  split
  · split <;> simp [pageRange]
  · simp [pageRange]

/-- When the selected index is in the range of the new page, `selectPageAt`
does not touch the controller. -/
theorem selectPageAt_in_range (fuel : Nat) (d : TabsDirective) (n : Nat) (page : Option Int)
    (h : isTabInRange (pageRange d.pagination ((n : Int) - 1) (clampPage d.pagination page))
      (d.ctrl.selIndex.map SelIndex.toNumber) = true) :
    selectPageAt fuel d n page =
      ({ ctrl := d.ctrl,
         pagination :=
          { pageRange d.pagination ((n : Int) - 1) (clampPage d.pagination page) with
            page := clampPage d.pagination page },
         pagingOffset :=
          slideTabButtons d.pagingOffset (pageOffset d.pagination (clampPage d.pagination page)) },
        Completion.normal ()) := by
  simp [selectPageAt, h]

/-- The run of `updatePagination` when pagination is needed and the available
width is not zero. -/
theorem updatePagination_needed (fuel : Nat) (d : TabsDirective) (n : Nat) (offsetWidth : Int)
    (hneed : 96 * (n : Int) > offsetWidth - 64) (hw : offsetWidth - 64 ≠ 0) :
    updatePagination fuel d n offsetWidth =
      some (selectPageAt fuel
        { d with pagination := paginationFor d.pagination n (offsetWidth - 64) } n
        (if some true ≠ d.pagination.active then
          getPageAtTabIndex (paginationFor d.pagination n (offsetWidth - 64))
            (d.ctrl.selIndex.map SelIndex.toNumber)
        else
          some (min (max (d.pagination.page.getD 0) 0)
            (⌈(((96 : Int) * (n : Int) : Int) : ℚ) / ((offsetWidth - 64 : Int) : ℚ)⌉ - 1)))) := by
  have h1 : TAB_MIN_WIDTH = 96 := rfl
  have h2 : PAGINATORS_WIDTH = 64 := rfl
  simp only [updatePagination, h1, h2, hneed, decide_True, if_true, hw, if_false, paginationFor]
  congr 2
  by_cases ha : some true = d.pagination.active <;> simp [ha]

/-- The run of `updatePagination` when pagination is not needed. -/
theorem updatePagination_not_needed (fuel : Nat) (d : TabsDirective) (n : Nat)
    (offsetWidth : Int) (hneed : ¬ 96 * (n : Int) > offsetWidth - 64) :
    updatePagination fuel d n offsetWidth =
      some (if some false ≠ d.pagination.active then
        selectPageAt fuel { d with pagination := { d.pagination with active := some false } } n
          (some 0)
      else ({ d with pagination := { d.pagination with active := some false } },
        Completion.normal ())) := by
  have h1 : TAB_MIN_WIDTH = 96 := rfl
  have h2 : PAGINATORS_WIDTH = 64 := rfl
  simp only [updatePagination, h1, h2, hneed, decide_False, Bool.false_eq_true, if_false]
  by_cases ha : some false = d.pagination.active <;> simp [ha]

/-- For a positive available width that the tabs overflow, the page count is
at least two. -/
theorem pagesCount_ge_two (n : Nat) (w : Int) (hw : 0 < w) (hneed : 96 * (n : Int) > w) :
    2 ≤ ⌈(((96 : Int) * (n : Int) : Int) : ℚ) / (w : ℚ)⌉ := by
  have hwq : (0 : ℚ) < (w : ℚ) := by exact_mod_cast hw
  have : (1 : ℚ) < (((96 : Int) * (n : Int) : Int) : ℚ) / (w : ℚ) := by
    rw [lt_div_iff₀ hwq, one_mul]
    exact_mod_cast hneed
  have h1 : (1 : Int) < ⌈(((96 : Int) * (n : Int) : Int) : ℚ) / (w : ℚ)⌉ :=
    Int.lt_ceil.2 (by exact_mod_cast this)
  omega

theorem itemsPerPageOf_pos (n : Nat) (c : Int) (hc : c ≠ 0) :
    itemsPerPageOf n c = some (max 1 ⌊(n : ℚ) / (c : ℚ)⌋) := by
  simp [itemsPerPageOf, hc]

/-- The four values `updatePagination` computes when it activates pagination
for a positive available width; the call returns. -/
theorem updatePagination_needed_fields (fuel : Nat) (d : TabsDirective) (n : Nat)
    (offsetWidth : Int) (hw : 0 < offsetWidth - 64) (hneed : 96 * (n : Int) > offsetWidth - 64) :
    ∃ r, updatePagination fuel d n offsetWidth = some r ∧
      r.1.pagination.active = some true ∧
      r.1.pagination.pagesCount =
        some ⌈(((96 : Int) * (n : Int) : Int) : ℚ) / ((offsetWidth - 64 : Int) : ℚ)⌉ ∧
      r.1.pagination.itemsPerPage =
        some (max 1 ⌊(n : ℚ) /
          ((⌈(((96 : Int) * (n : Int) : Int) : ℚ) / ((offsetWidth - 64 : Int) : ℚ)⌉ : Int) : ℚ)⌋) ∧
      r.1.pagination.tabWidth =
        some (((offsetWidth - 64 : Int) : ℚ) /
          ((max 1 ⌊(n : ℚ) /
            ((⌈(((96 : Int) * (n : Int) : Int) : ℚ) / ((offsetWidth - 64 : Int) : ℚ)⌉ : Int) : ℚ)⌋
              : Int) : ℚ)) := by
  have hc := pagesCount_ge_two n (offsetWidth - 64) hw hneed
  have hc0 : ⌈(((96 : Int) * (n : Int) : Int) : ℚ) / ((offsetWidth - 64 : Int) : ℚ)⌉ ≠ 0 := by
    omega
  refine ⟨_, updatePagination_needed fuel d n offsetWidth hneed (by omega), ?_⟩
  rcases selectPageAt_fields fuel
    { d with pagination := paginationFor d.pagination n (offsetWidth - 64) } n
    (if some true ≠ d.pagination.active then
      getPageAtTabIndex (paginationFor d.pagination n (offsetWidth - 64))
            (d.ctrl.selIndex.map SelIndex.toNumber)
    else
      some (min (max (d.pagination.page.getD 0) 0)
        (⌈(((96 : Int) * (n : Int) : Int) : ℚ) / ((offsetWidth - 64 : Int) : ℚ)⌉ - 1)))
    with ⟨h1, h2, h3, h4, -⟩
  rw [h1, h2, h3, h4]
  simp only [paginationFor, itemsPerPageOf_pos n _ hc0, Option.map_some', and_self]

/-- C12: for a positive available width `W = offsetWidth - 64` and a tab count
`n` with `96 * n > W` (so `n >= 1`), `updatePagination` returns with
`active = true`, `pagesCount = ceil(96 * n / W)`,
`itemsPerPage = max(1, floor(n / pagesCount))` and
`tabWidth = W / itemsPerPage`, in exact rational arithmetic. -/
theorem updatePagination_values (fuel : Nat) (d : TabsDirective) (n : Nat)
    (offsetWidth : Int) (hn : 1 ≤ n) (hw : 0 < offsetWidth - 64)
    (hneed : 96 * (n : Int) > offsetWidth - 64) :
    ∃ r, updatePagination fuel d n offsetWidth = some r ∧
      r.1.pagination.active = some true ∧
      r.1.pagination.pagesCount =
        some ⌈(((96 : Int) * (n : Int) : Int) : ℚ) / ((offsetWidth - 64 : Int) : ℚ)⌉ ∧
      r.1.pagination.itemsPerPage =
        some (max 1 ⌊(n : ℚ) /
          ((⌈(((96 : Int) * (n : Int) : Int) : ℚ) / ((offsetWidth - 64 : Int) : ℚ)⌉ : Int) : ℚ)⌋) ∧
      r.1.pagination.tabWidth =
        some (((offsetWidth - 64 : Int) : ℚ) /
          ((max 1 ⌊(n : ℚ) /
            ((⌈(((96 : Int) * (n : Int) : Int) : ℚ) / ((offsetWidth - 64 : Int) : ℚ)⌉ : Int) : ℚ)⌋
              : Int) : ℚ)) :=
  have _ := hn
  updatePagination_needed_fields fuel d n offsetWidth hw hneed

/-- Witness of C12 with the example of the spec: 10 tabs in a container of
564px (available width 500) give 2 pages of 5 tabs, 100px each. -/
theorem updatePagination_values_witness :
    ∃ r, updatePagination 1 exampleDirective 10 564 = some r ∧
      r.1.pagination.active = some true ∧ r.1.pagination.pagesCount = some 2 ∧
      r.1.pagination.itemsPerPage = some 5 ∧ r.1.pagination.tabWidth = some 100 := by
  obtain ⟨r, hr, h1, h2, h3, h4⟩ :=
    updatePagination_values 1 exampleDirective 10 564 (by decide) (by decide) (by decide)
  have hc : ⌈(((96 : Int) * ((10 : Nat) : Int) : Int) : ℚ) / ((564 - 64 : Int) : ℚ)⌉ = 2 := by
    norm_num [Int.ceil_eq_iff]
  rw [hc] at h2 h3 h4
  have hf : ⌊((10 : Nat) : ℚ) / ((2 : Int) : ℚ)⌋ = 5 := by norm_num [Int.floor_eq_iff]
  rw [hf] at h3 h4
  refine ⟨r, hr, h1, h2, by simpa using h3, ?_⟩
  rw [h4]
  norm_num

/-- C17, amended: over zero tabs `updatePagination` returns, with pagination
inactive exactly when the measured width is at least 64px; for a narrower
container the available width is negative, `96 * 0 > availableWidth` holds and
pagination is activated. -/
theorem updatePagination_zero_tabs (fuel : Nat) (d : TabsDirective) (offsetWidth : Int) :
    ∃ r, updatePagination fuel d 0 offsetWidth = some r ∧
      r.1.pagination.active = some (decide (offsetWidth < 64)) := by
  by_cases h : offsetWidth < 64
  · refine ⟨_, updatePagination_needed fuel d 0 offsetWidth (by simp; omega) (by omega), ?_⟩
    rw [(selectPageAt_fields _ _ _ _).1]
    simp [paginationFor, h]
  · refine ⟨_, updatePagination_not_needed fuel d 0 offsetWidth (by simp; omega), ?_⟩
    split
    · rw [(selectPageAt_fields _ _ _ _).1]
      simp [h]
    · simp [h]

/-- C17 as stated fails: over zero tabs, in a container measured 0px wide
(available width -64), `updatePagination` activates pagination. -/
theorem updatePagination_zero_tabs_counterexample :
    (updatePagination 1
      { ctrl := TabsController.init none, pagination := Pagination.init, pagingOffset := none }
      0 0).map (fun r => r.1.pagination.active) = some (some true) := by
  rw [updatePagination_needed 1 _ 0 0 (by decide) (by decide), Option.map_some',
    (selectPageAt_fields _ _ _ _).1]
  rfl

/-! ## Minimum tab width (C20) -/

/-- Arithmetic of the pagination values: for an available width `w >= 96`
overflowed by `n` tabs, `itemsPerPage` tabs of the minimum width fit into `w`,
and `itemsPerPage * pagesCount` does not exceed `n`. -/
theorem itemsPerPage_bounds (n : Nat) (w : Int) (hw : 96 ≤ w) (hneed : 96 * (n : Int) > w) :
    96 * max 1 ⌊(n : ℚ) / ((⌈(((96 : Int) * (n : Int) : Int) : ℚ) / (w : ℚ)⌉ : Int) : ℚ)⌋ ≤ w ∧
      max 1 ⌊(n : ℚ) / ((⌈(((96 : Int) * (n : Int) : Int) : ℚ) / (w : ℚ)⌉ : Int) : ℚ)⌋ *
        ⌈(((96 : Int) * (n : Int) : Int) : ℚ) / (w : ℚ)⌉ ≤ (n : Int) := by
  have hc := pagesCount_ge_two n w (by omega) hneed
  set c : Int := ⌈(((96 : Int) * (n : Int) : Int) : ℚ) / (w : ℚ)⌉ with hcdef
  have hwq : (0 : ℚ) < (w : ℚ) := by exact_mod_cast (by omega : (0 : Int) < w)
  have hcq : (0 : ℚ) < (c : ℚ) := by exact_mod_cast (by omega : (0 : Int) < c)
  -- the ceiling is above the quotient: 96 n <= c w
  have h1 : (96 : Int) * (n : Int) ≤ c * w := by
    have := Int.le_ceil ((((96 : Int) * (n : Int) : Int) : ℚ) / (w : ℚ))
    rw [← hcdef, div_le_iff₀ hwq] at this
    exact_mod_cast this
  -- the ceiling is at most n: c <= n
  have h2 : c ≤ (n : Int) := by
    rw [hcdef, Int.ceil_le, div_le_iff₀ hwq]
    have : (96 : Int) * (n : Int) ≤ (n : Int) * w := by nlinarith
    exact_mod_cast this
  -- the floor is below the quotient: k c <= n
  set k : Int := ⌊(n : ℚ) / (c : ℚ)⌋ with hkdef
  have h3 : k * c ≤ (n : Int) := by
    have := Int.floor_le ((n : ℚ) / (c : ℚ))
    rw [← hkdef, le_div_iff₀ hcq] at this
    exact_mod_cast this
  have h4 : 1 ≤ k := by
    rw [hkdef, Int.le_floor, le_div_iff₀ hcq]
    have : (1 : Int) * c ≤ (n : Int) := by omega
    exact_mod_cast this
  have hmax : max 1 k = k := max_eq_right h4
  rw [hmax]
  refine ⟨?_, h3⟩
  by_contra hlt
  have hlt2 : w < 96 * k := by omega
  have : c * w < c * (96 * k) := by nlinarith
  nlinarith

/-- C20: when `updatePagination` activates pagination for an available width
`W = offsetWidth - 64 >= 96` (and so `n >= 1`), it returns with
`96 * itemsPerPage <= W` and `tabWidth = W / itemsPerPage >= 96`, in exact
rational arithmetic. -/
theorem tabWidth_at_least_min (fuel : Nat) (d : TabsDirective) (n : Nat)
    (offsetWidth : Int) (hw : 96 ≤ offsetWidth - 64)
    (hneed : 96 * (n : Int) > offsetWidth - 64) :
    ∃ r i, updatePagination fuel d n offsetWidth = some r ∧
      r.1.pagination.itemsPerPage = some i ∧ 96 * i ≤ offsetWidth - 64 ∧
      r.1.pagination.tabWidth = some (((offsetWidth - 64 : Int) : ℚ) / (i : ℚ)) ∧
      (96 : ℚ) ≤ ((offsetWidth - 64 : Int) : ℚ) / (i : ℚ) := by
  obtain ⟨r, hr, -, -, h3, h4⟩ :=
    updatePagination_needed_fields fuel d n offsetWidth (by omega) hneed
  have hb := (itemsPerPage_bounds n (offsetWidth - 64) hw hneed).1
  refine ⟨r, _, hr, h3, hb, h4, ?_⟩
  have hpos : (0 : ℚ) < ((max 1 ⌊(n : ℚ) /
      ((⌈(((96 : Int) * (n : Int) : Int) : ℚ) / ((offsetWidth - 64 : Int) : ℚ)⌉ : Int) : ℚ)⌋
        : Int) : ℚ) := by
    have : (0 : Int) < max 1 ⌊(n : ℚ) /
      ((⌈(((96 : Int) * (n : Int) : Int) : ℚ) / ((offsetWidth - 64 : Int) : ℚ)⌉ : Int) : ℚ)⌋ :=
      lt_of_lt_of_le one_pos (le_max_left _ _)
    exact_mod_cast this
  rw [le_div_iff₀ hpos]
  exact_mod_cast hb

/-- Witness of C20: 10 tabs in a container of 564px; the tab width is 100. -/
theorem tabWidth_at_least_min_witness :
    ∃ r i, updatePagination 1 exampleDirective 10 564 = some r ∧
      r.1.pagination.itemsPerPage = some i ∧ 96 * i ≤ 564 - 64 ∧
      r.1.pagination.tabWidth = some (((564 - 64 : Int) : ℚ) / (i : ℚ)) ∧
      (96 : ℚ) ≤ ((564 - 64 : Int) : ℚ) / (i : ℚ) :=
  tabWidth_at_least_min 1 exampleDirective 10 564 (by decide) (by decide)

/-! ## Clamping of the page (C13) -/

/-- With at least one page, the two clamps of `selectPageAt` bring an integer
page into `[0, pagesCount - 1]`. -/
theorem clampPage_some (pg : Pagination) (c p : Int) (hc : pg.pagesCount = some c)
    (h1 : 1 ≤ c) : clampPage pg (some p) = some (min (max p 0) (c - 1)) := by
  simp only [clampPage, hc, Option.map_some', ltNum, gtNum]
  by_cases hp : p < 0
  · have hm : max p 0 = 0 := max_eq_right (le_of_lt hp)
    have hmin : min (0 : Int) (c - 1) = 0 := min_eq_left (by omega)
    simp [hp, hm, hmin]
    omega
  · have hm : max p 0 = p := max_eq_left (by omega)
    rw [hm]
    by_cases hq : c - 1 < p
    · simp [hp, hq, min_eq_right (le_of_lt hq)]
    · simp [hp, hq, min_eq_left (not_lt.1 hq)]

/-- The argument of `selectPageAt` matters only through its clamped value. -/
theorem selectPageAt_congr (fuel : Nat) (d : TabsDirective) (n : Nat) (p q : Option Int)
    (h : clampPage d.pagination p = clampPage d.pagination q) :
    selectPageAt fuel d n p = selectPageAt fuel d n q := by
  simp only [selectPageAt, h]

/-- C13: for every directive state whose `pagesCount` is an integer `c >= 1`
(every controller state, every tab count and recursion budget),
`selectPageAt(-1)` has the same result as `selectPageAt(0)` and
`selectPageAt(c)` the same as `selectPageAt(c - 1)`: resulting pagination
state, slide offset, controller state and completion; in general
`selectPageAt(p)` equals `selectPageAt(clamp(p, 0, c - 1))`. -/
theorem selectPageAt_clamped (fuel : Nat) (d : TabsDirective) (n : Nat) (c : Int)
    (hc : d.pagination.pagesCount = some c) (h1 : 1 ≤ c) :
    selectPageAt fuel d n (some (-1)) = selectPageAt fuel d n (some 0) ∧
      selectPageAt fuel d n (some c) = selectPageAt fuel d n (some (c - 1)) ∧
      ∀ p : Int,
        selectPageAt fuel d n (some p) = selectPageAt fuel d n (some (min (max p 0) (c - 1))) := by
  have key : ∀ p : Int,
      selectPageAt fuel d n (some p) = selectPageAt fuel d n (some (min (max p 0) (c - 1))) := by
    intro p
    apply selectPageAt_congr
    rw [clampPage_some _ c p hc h1, clampPage_some _ c _ hc h1]
    congr 1
    have h0 : (0 : Int) ≤ min (max p 0) (c - 1) := le_min (le_max_right _ _) (by omega)
    rw [max_eq_left h0, min_eq_left (min_le_right _ _)]
  refine ⟨?_, ?_, key⟩
  · rw [key (-1), key 0]
    have hm : max (-1 : Int) 0 = max 0 0 := by decide
    rw [hm]
  · rw [key c, key (c - 1)]
    congr 2
    have ha : max c 0 = c := max_eq_left (by omega)
    have hb : max (c - 1) 0 = c - 1 := max_eq_left (by omega)
    rw [ha, hb, min_eq_right (by omega), min_eq_left (le_refl _)]

/-- Witness of C13 on the example with two pages: page 5 is page 1. -/
theorem selectPageAt_clamped_witness :
    selectPageAt 1 examplePaged 2 (some 5) = selectPageAt 1 examplePaged 2 (some 1) :=
  (selectPageAt_clamped 1 examplePaged 2 2 rfl (by decide)).2.2 5

/-! ## Page range (C14) -/

theorem pageRange_active (pg : Pagination) (lastTab q k : Int)
    (ha : pg.active = some true) (hk : pg.itemsPerPage = some k) :
    (pageRange pg lastTab (some q)).startIndex = some (q * k) ∧
      (pageRange pg lastTab (some q)).endIndex = some (q * k + k - 1) := by
  simp [pageRange, ha, hk]

/-- Pagination state after `updatePagination` activated pagination for a
positive available width, in terms of `pagesCountOf` and `itemsOf`. -/
theorem updatePagination_active_state (fuel : Nat) (d : TabsDirective) (n : Nat)
    (offsetWidth : Int) (hw : 0 < offsetWidth - 64) (hneed : 96 * (n : Int) > offsetWidth - 64) :
    ∃ r, updatePagination fuel d n offsetWidth = some r ∧
      r.1.pagination.active = some true ∧
      r.1.pagination.pagesCount = some (pagesCountOf n (offsetWidth - 64)) ∧
      r.1.pagination.itemsPerPage = some (itemsOf n (offsetWidth - 64)) ∧
      2 ≤ pagesCountOf n (offsetWidth - 64) ∧ 1 ≤ itemsOf n (offsetWidth - 64) := by
  obtain ⟨r, hr, h1, h2, h3, -⟩ := updatePagination_needed_fields fuel d n offsetWidth hw hneed
  exact ⟨r, hr, h1, h2, h3, pagesCount_ge_two n _ hw hneed, le_max_left _ _⟩

/-- The page range `selectPageAt(p)` sets once `updatePagination` has activated
pagination for a positive available width. -/
theorem selectPageAt_after_update (fuel fuel2 : Nat) (d : TabsDirective) (n : Nat)
    (offsetWidth p : Int) (hw : 0 < offsetWidth - 64)
    (hneed : 96 * (n : Int) > offsetWidth - 64) :
    ∃ r, updatePagination fuel d n offsetWidth = some r ∧
      (selectPageAt fuel2 r.1 n (some p)).1.pagination.startIndex =
        some (min (max p 0) (pagesCountOf n (offsetWidth - 64) - 1) *
          itemsOf n (offsetWidth - 64)) ∧
      (selectPageAt fuel2 r.1 n (some p)).1.pagination.endIndex =
        some (min (max p 0) (pagesCountOf n (offsetWidth - 64) - 1) *
          itemsOf n (offsetWidth - 64) + itemsOf n (offsetWidth - 64) - 1) ∧
      (96 ≤ offsetWidth - 64 →
        min (max p 0) (pagesCountOf n (offsetWidth - 64) - 1) * itemsOf n (offsetWidth - 64) +
          itemsOf n (offsetWidth - 64) - 1 ≤ (n : Int) - 1) := by
  obtain ⟨r, hr, h1, h2, h3, hc, hk⟩ :=
    updatePagination_active_state fuel d n offsetWidth hw hneed
  rcases selectPageAt_fields fuel2 r.1 n (some p) with ⟨-, -, -, -, hs, he, -⟩
  rw [clampPage_some _ _ p h2 (by omega)] at hs he
  rcases pageRange_active r.1.pagination ((n : Int) - 1)
    (min (max p 0) (pagesCountOf n (offsetWidth - 64) - 1)) _ h1 h3 with ⟨hs2, he2⟩
  refine ⟨r, hr, hs.trans hs2, he.trans he2, ?_⟩
  intro hw96
  have hb := (itemsPerPage_bounds n (offsetWidth - 64) hw96 hneed).2
  change itemsOf n (offsetWidth - 64) * pagesCountOf n (offsetWidth - 64) ≤ (n : Int) at hb
  have hp : min (max p 0) (pagesCountOf n (offsetWidth - 64) - 1) ≤
      pagesCountOf n (offsetWidth - 64) - 1 := min_le_right _ _
  nlinarith

/-- C14, amended: with pagination activated by `updatePagination` for `n` tabs
and a positive available width `W`, after `selectPageAt(p)` for any integer
`p`, `startIndex = p' * itemsPerPage` and
`endIndex = startIndex + itemsPerPage - 1`, with `p'` the page clamped into
`[0, pagesCount - 1]`; there is no clamp to the last tab, and `endIndex` stays
within the last tab's index `n - 1` when `W >= 96`. -/
theorem selectPageAt_range (fuel fuel2 : Nat) (d : TabsDirective) (n : Nat)
    (offsetWidth p : Int) (hw : 0 < offsetWidth - 64)
    (hneed : 96 * (n : Int) > offsetWidth - 64) :
    ∃ r, updatePagination fuel d n offsetWidth = some r ∧
      (selectPageAt fuel2 r.1 n (some p)).1.pagination.startIndex =
        some (min (max p 0) (pagesCountOf n (offsetWidth - 64) - 1) *
          itemsOf n (offsetWidth - 64)) ∧
      (selectPageAt fuel2 r.1 n (some p)).1.pagination.endIndex =
        some (min (max p 0) (pagesCountOf n (offsetWidth - 64) - 1) *
          itemsOf n (offsetWidth - 64) + itemsOf n (offsetWidth - 64) - 1) ∧
      (96 ≤ offsetWidth - 64 →
        min (max p 0) (pagesCountOf n (offsetWidth - 64) - 1) * itemsOf n (offsetWidth - 64) +
          itemsOf n (offsetWidth - 64) - 1 ≤ (n : Int) - 1) :=
  selectPageAt_after_update fuel fuel2 d n offsetWidth p hw hneed

theorem pagesCountOf_2_50 : pagesCountOf 2 50 = 4 := by
  norm_num [pagesCountOf, Int.ceil_eq_iff]

theorem itemsOf_2_50 : itemsOf 2 50 = 1 := by
  rw [itemsOf, pagesCountOf_2_50]
  have : ⌊((2 : Nat) : ℚ) / ((4 : Int) : ℚ)⌋ = 0 := by norm_num [Int.floor_eq_iff]
  rw [this]; rfl

theorem pagesCountOf_10_500 : pagesCountOf 10 500 = 2 := by
  norm_num [pagesCountOf, Int.ceil_eq_iff]

theorem itemsOf_10_500 : itemsOf 10 500 = 5 := by
  rw [itemsOf, pagesCountOf_10_500]
  have : ⌊((10 : Nat) : ℚ) / ((2 : Int) : ℚ)⌋ = 5 := by norm_num [Int.floor_eq_iff]
  rw [this]; rfl

/-- Witness of the amended C14: 10 tabs, available width 500, page 1 shows the
tabs 5 to 9. -/
theorem selectPageAt_range_witness :
    ∃ r, updatePagination 1 exampleDirective 10 564 = some r ∧
      (selectPageAt 1 r.1 10 (some 1)).1.pagination.startIndex = some 5 ∧
      (selectPageAt 1 r.1 10 (some 1)).1.pagination.endIndex = some 9 := by
  obtain ⟨r, hr, hs, he, -⟩ :=
    selectPageAt_range 1 1 exampleDirective 10 564 1 (by decide) (by decide)
  have h1 : (564 : Int) - 64 = 500 := by decide
  rw [h1, pagesCountOf_10_500, itemsOf_10_500] at hs he
  exact ⟨r, hr, hs, he⟩

/-- C14 as stated fails: with 2 tabs and an available width of 50 (container
114px) there are 4 pages of 1 tab, and `selectPageAt(3)` sets `endIndex = 3`,
beyond the last tab's index 1, where `min(startIndex + itemsPerPage - 1, 1)`
is 1. -/
theorem selectPageAt_range_counterexample :
    ∃ r, updatePagination 1 exampleDirective 2 114 = some r ∧
      (selectPageAt 1 r.1 2 (some 3)).1.pagination.startIndex = some 3 ∧
      (selectPageAt 1 r.1 2 (some 3)).1.pagination.endIndex = some 3 ∧
      min ((3 : Int) + 1 - 1) (2 - 1) = 1 := by
  obtain ⟨r, hr, hs, he, -⟩ :=
    selectPageAt_after_update 1 1 exampleDirective 2 114 3 (by decide) (by decide)
  have h1 : (114 : Int) - 64 = 50 := by decide
  rw [h1, pagesCountOf_2_50, itemsOf_2_50] at hs he
  exact ⟨r, hr, hs, he, by decide⟩

/-! ## Page of the selected tab (C15) -/

theorem floor_div_bounds (i k : Int) (hk : 0 < k) :
    ⌊(i : ℚ) / (k : ℚ)⌋ * k ≤ i ∧ i < (⌊(i : ℚ) / (k : ℚ)⌋ + 1) * k := by
  have hkq : (0 : ℚ) < (k : ℚ) := by exact_mod_cast hk
  refine ⟨?_, ?_⟩
  · have := Int.floor_le ((i : ℚ) / (k : ℚ))
    rw [le_div_iff₀ hkq] at this
    exact_mod_cast this
  · have := Int.lt_floor_add_one ((i : ℚ) / (k : ℚ))
    rw [div_lt_iff₀ hkq] at this
    exact_mod_cast this

/-- The page `getPageAtTabIndex` returns for a nonnegative tab index once
`pagesCount >= 1` and `itemsPerPage >= 1` are set. -/
theorem getPageAtTabIndex_some (pg : Pagination) (c k i : Int)
    (hc : pg.pagesCount = some c) (hk : pg.itemsPerPage = some k) (h1 : 1 ≤ c) (hi : 0 ≤ i) :
    getPageAtTabIndex pg (some i) =
      if k * c - 1 < i then some (c - 1) else some ⌊(i : ℚ) / (k : ℚ)⌋ := by
  have hn1 : ¬ c < 1 := by omega
  have hn2 : ¬ i < 0 := by omega
  simp [getPageAtTabIndex, hc, hk, ltNum, gtNum, hn1, hn2]

/-- When the selected index is outside the range of the new page, the
controller after `selectPageAt` is the one `tabsController.selectAt(index)`
leaves, with `index` the start of the range when moving to a later page and
its end otherwise. -/
theorem selectPageAt_ctrl_out (fuel : Nat) (d : TabsDirective) (n : Nat) (page : Option Int)
    (h : isTabInRange (pageRange d.pagination ((n : Int) - 1) (clampPage d.pagination page))
      (d.ctrl.selIndex.map SelIndex.toNumber) = false) :
    (selectPageAt fuel d n page).1.ctrl =
      (selectAtNum fuel d.ctrl
        (if gtNum (clampPage d.pagination page) d.pagination.page then
          (pageRange d.pagination ((n : Int) - 1) (clampPage d.pagination page)).startIndex
        else
          (pageRange d.pagination ((n : Int) - 1) (clampPage d.pagination page)).endIndex)).1 := by
  simp only [selectPageAt, h, Bool.not_false, if_true]
  split <;> simp_all

/-- State after `updatePagination` switched pagination on: the page chosen and
the range set, in terms of the selected index `i`. -/
theorem updatePagination_switch_on (fuel : Nat) (d : TabsDirective) (n : Nat)
    (offsetWidth i : Int) (hact : d.pagination.active ≠ some true)
    (hsel : d.ctrl.selIndex.map SelIndex.toNumber = some i) (hi : 0 ≤ i) (hw : 0 < offsetWidth - 64)
    (hneed : 96 * (n : Int) > offsetWidth - 64) :
    (i < itemsOf n (offsetWidth - 64) * pagesCountOf n (offsetWidth - 64) →
      ∃ r s e, updatePagination fuel d n offsetWidth = some r ∧
        r.2 = Completion.normal () ∧ r.1.ctrl = d.ctrl ∧
        r.1.pagination.startIndex = some s ∧ r.1.pagination.endIndex = some e ∧
        s ≤ i ∧ i ≤ e) ∧
    (itemsOf n (offsetWidth - 64) * pagesCountOf n (offsetWidth - 64) ≤ i →
      ∃ r, updatePagination fuel d n offsetWidth = some r ∧
        r.1.pagination.endIndex =
          some (itemsOf n (offsetWidth - 64) * pagesCountOf n (offsetWidth - 64) - 1) ∧
        r.1.ctrl = (selectAtNum fuel d.ctrl
          (if gtNum (some (pagesCountOf n (offsetWidth - 64) - 1)) d.pagination.page then
            some ((pagesCountOf n (offsetWidth - 64) - 1) * itemsOf n (offsetWidth - 64))
          else
            some (itemsOf n (offsetWidth - 64) * pagesCountOf n (offsetWidth - 64) - 1))).1) := by
  have hc := pagesCount_ge_two n (offsetWidth - 64) hw hneed
  have hc0 : pagesCountOf n (offsetWidth - 64) ≠ 0 := by
    unfold pagesCountOf; omega
  have hk1 : 1 ≤ itemsOf n (offsetWidth - 64) := le_max_left _ _
  have hupd := updatePagination_needed fuel d n offsetWidth hneed (by omega)
  have hne : some true ≠ d.pagination.active := fun h => hact h.symm
  rw [if_pos hne, hsel] at hupd
  have hpc : (paginationFor d.pagination n (offsetWidth - 64)).pagesCount =
      some (pagesCountOf n (offsetWidth - 64)) := rfl
  have hpk : (paginationFor d.pagination n (offsetWidth - 64)).itemsPerPage =
      some (itemsOf n (offsetWidth - 64)) := by
    simp only [paginationFor]
    exact itemsPerPageOf_pos n _ hc0
  have hpa : (paginationFor d.pagination n (offsetWidth - 64)).active = some true := rfl
  rw [getPageAtTabIndex_some _ _ _ i hpc hpk (by unfold pagesCountOf; omega) hi] at hupd
  refine ⟨?_, ?_⟩
  · intro hcov
    have hnot : ¬ itemsOf n (offsetWidth - 64) * pagesCountOf n (offsetWidth - 64) - 1 < i := by
      omega
    rw [if_neg hnot] at hupd
    rcases floor_div_bounds i (itemsOf n (offsetWidth - 64)) (by omega) with ⟨hf1, hf2⟩
    have hq0 : 0 ≤ ⌊(i : ℚ) / ((itemsOf n (offsetWidth - 64) : Int) : ℚ)⌋ := by
      by_contra hneg
      have : ⌊(i : ℚ) / ((itemsOf n (offsetWidth - 64) : Int) : ℚ)⌋ + 1 ≤ 0 := by omega
      nlinarith
    have hqc : ⌊(i : ℚ) / ((itemsOf n (offsetWidth - 64) : Int) : ℚ)⌋ ≤
        pagesCountOf n (offsetWidth - 64) - 1 := by
      by_contra hgt
      have : pagesCountOf n (offsetWidth - 64) ≤
          ⌊(i : ℚ) / ((itemsOf n (offsetWidth - 64) : Int) : ℚ)⌋ := by omega
      nlinarith
    have hclamp : clampPage (paginationFor d.pagination n (offsetWidth - 64))
        (some ⌊(i : ℚ) / ((itemsOf n (offsetWidth - 64) : Int) : ℚ)⌋) =
        some ⌊(i : ℚ) / ((itemsOf n (offsetWidth - 64) : Int) : ℚ)⌋ := by
      rw [clampPage_some _ _ _ hpc (by unfold pagesCountOf; omega), max_eq_left hq0,
        min_eq_left hqc]
    rcases pageRange_active (paginationFor d.pagination n (offsetWidth - 64)) ((n : Int) - 1)
      ⌊(i : ℚ) / ((itemsOf n (offsetWidth - 64) : Int) : ℚ)⌋ _ hpa hpk with ⟨hs, he⟩
    have hin : isTabInRange (pageRange (paginationFor d.pagination n (offsetWidth - 64))
        ((n : Int) - 1) (clampPage (paginationFor d.pagination n (offsetWidth - 64))
          (some ⌊(i : ℚ) / ((itemsOf n (offsetWidth - 64) : Int) : ℚ)⌋)))
        (some i) = true := by
      rw [hclamp]
      simp only [isTabInRange, hs, he, geNum, leNum, Bool.and_eq_true, decide_eq_true_eq]
      constructor
      · exact hf1
      · nlinarith
    have hsel2 : ({ d with pagination := paginationFor d.pagination n (offsetWidth - 64) } :
        TabsDirective).ctrl.selIndex.map SelIndex.toNumber = some i := hsel
    rw [selectPageAt_in_range fuel _ n _ (by rw [hsel2]; exact hin), hclamp] at hupd
    refine ⟨_, _, _, hupd, rfl, rfl, hs, he, hf1, by nlinarith⟩
  · intro hbeyond
    have hyes : itemsOf n (offsetWidth - 64) * pagesCountOf n (offsetWidth - 64) - 1 < i := by
      omega
    rw [if_pos hyes] at hupd
    have hm : max (pagesCountOf n (offsetWidth - 64) - 1) 0 =
        pagesCountOf n (offsetWidth - 64) - 1 := max_eq_left (by unfold pagesCountOf; omega)
    have hclamp : clampPage (paginationFor d.pagination n (offsetWidth - 64))
        (some (pagesCountOf n (offsetWidth - 64) - 1)) =
        some (pagesCountOf n (offsetWidth - 64) - 1) := by
      rw [clampPage_some _ _ _ hpc (by unfold pagesCountOf; omega), hm, min_eq_left (le_refl _)]
    rcases pageRange_active (paginationFor d.pagination n (offsetWidth - 64)) ((n : Int) - 1)
      (pagesCountOf n (offsetWidth - 64) - 1) _ hpa hpk with ⟨hs, he⟩
    have hend : (pagesCountOf n (offsetWidth - 64) - 1) * itemsOf n (offsetWidth - 64) +
        itemsOf n (offsetWidth - 64) - 1 =
        itemsOf n (offsetWidth - 64) * pagesCountOf n (offsetWidth - 64) - 1 := by ring
    rw [hend] at he
    refine ⟨_, hupd, ?_, ?_⟩
    · rw [(selectPageAt_fields _ _ _ _).2.2.2.2.2.1, hclamp, he]
    · have hout : isTabInRange (pageRange (paginationFor d.pagination n (offsetWidth - 64))
          ((n : Int) - 1) (clampPage (paginationFor d.pagination n (offsetWidth - 64))
            (some (pagesCountOf n (offsetWidth - 64) - 1))))
          (some i) = false := by
        rw [hclamp]
        simp only [isTabInRange, hs, he, geNum, leNum, Bool.and_eq_false_iff,
          decide_eq_false_iff_not]
        right
        omega
      have hsel2 : ({ d with pagination := paginationFor d.pagination n (offsetWidth - 64) } :
          TabsDirective).ctrl.selIndex.map SelIndex.toNumber = some i := hsel
      rw [selectPageAt_ctrl_out fuel _ n _ (by rw [hsel2]; exact hout), hclamp, hs, he]
      rfl

/-- C15, amended: when `updatePagination` switches pagination on (positive
available width) while the tab at index `i >= 0` is selected: if
`i < itemsPerPage * pagesCount` (the tabs the pages cover), the call returns
normally, the controller is untouched (the tab stays active) and
`startIndex <= i <= endIndex`; for a selected index at or beyond
`itemsPerPage * pagesCount` the last page is chosen, whose `endIndex` is
`itemsPerPage * pagesCount - 1`, and `tabsController.selectAt` is called with
the start or end of that page. -/
theorem page_contains_selected (fuel : Nat) (d : TabsDirective) (n : Nat)
    (offsetWidth i : Int) (hact : d.pagination.active ≠ some true)
    (hsel : d.ctrl.selIndex.map SelIndex.toNumber = some i) (hi : 0 ≤ i) (hw : 0 < offsetWidth - 64)
    (hneed : 96 * (n : Int) > offsetWidth - 64) :
    (i < itemsOf n (offsetWidth - 64) * pagesCountOf n (offsetWidth - 64) →
      ∃ r s e, updatePagination fuel d n offsetWidth = some r ∧
        r.2 = Completion.normal () ∧ r.1.ctrl = d.ctrl ∧
        r.1.pagination.startIndex = some s ∧ r.1.pagination.endIndex = some e ∧
        s ≤ i ∧ i ≤ e) ∧
    (itemsOf n (offsetWidth - 64) * pagesCountOf n (offsetWidth - 64) ≤ i →
      ∃ r, updatePagination fuel d n offsetWidth = some r ∧
        r.1.pagination.endIndex =
          some (itemsOf n (offsetWidth - 64) * pagesCountOf n (offsetWidth - 64) - 1) ∧
        r.1.ctrl = (selectAtNum fuel d.ctrl
          (if gtNum (some (pagesCountOf n (offsetWidth - 64) - 1)) d.pagination.page then
            some ((pagesCountOf n (offsetWidth - 64) - 1) * itemsOf n (offsetWidth - 64))
          else
            some (itemsOf n (offsetWidth - 64) * pagesCountOf n (offsetWidth - 64) - 1))).1) :=
  updatePagination_switch_on fuel d n offsetWidth i hact hsel hi hw hneed

theorem pagesCountOf_11_100 : pagesCountOf 11 100 = 11 := by
  norm_num [pagesCountOf, Int.ceil_eq_iff]

theorem itemsOf_11_100 : itemsOf 11 100 = 1 := by
  rw [itemsOf, pagesCountOf_11_100]
  have : ⌊((11 : Nat) : ℚ) / ((11 : Int) : ℚ)⌋ = 1 := by norm_num [Int.floor_eq_iff]
  rw [this]; rfl

theorem pagesCountOf_11_500 : pagesCountOf 11 500 = 3 := by
  norm_num [pagesCountOf, Int.ceil_eq_iff]

theorem itemsOf_11_500 : itemsOf 11 500 = 3 := by
  rw [itemsOf, pagesCountOf_11_500]
  have : ⌊((11 : Nat) : ℚ) / ((3 : Int) : ℚ)⌋ = 3 := by norm_num [Int.floor_eq_iff]
  rw [this]; rfl

/-- Witness of the amended C15: eleven tabs in a container of 164px (available
width 100) make eleven pages of one tab; the selected tab 10 stays selected
and its page contains it. -/
theorem page_contains_selected_witness :
    ∃ r s e, updatePagination 1 exampleElevenDirective 11 164 = some r ∧
      r.2 = Completion.normal () ∧ r.1.ctrl = exampleEleven ∧
      r.1.pagination.startIndex = some s ∧ r.1.pagination.endIndex = some e ∧
      s ≤ 10 ∧ 10 ≤ e :=
  (page_contains_selected 1 exampleElevenDirective 11 164 10 (by decide) rfl (by decide)
    (by decide) (by decide)).1 (by
      have h1 : (164 : Int) - 64 = 100 := by decide
      rw [h1, pagesCountOf_11_100, itemsOf_11_100]
      decide)

/-- C15 as stated fails: eleven enabled tabs, the tab at index 10 selected, in
a container of 564px (available width 500) make 3 pages of 3 tabs; switching
pagination on chooses the last page, whose range ends at 8, and selects the
tab at index 8 (`$id` 108) in place of the tab at index 10 (`$id` 110). -/
theorem page_contains_selected_counterexample :
    exampleEleven.selIndex = some (SelIndex.string 10) ∧ exampleEleven.selected = some 110 ∧
      ∃ r, updatePagination 1 exampleElevenDirective 11 564 = some r ∧
        r.1.pagination.endIndex = some 8 ∧ r.1.ctrl.selected = some 108 ∧
        r.1.ctrl.selIndex = some (SelIndex.string 8) := by
  refine ⟨rfl, rfl, ?_⟩
  obtain ⟨r, hr, he, hctrl⟩ :=
    (updatePagination_switch_on 1 exampleElevenDirective 11 564 10 (by decide) rfl (by decide)
      (by decide) (by decide)).2 (by
        have h1 : (564 : Int) - 64 = 500 := by decide
        rw [h1, pagesCountOf_11_500, itemsOf_11_500]
        decide)
  have h1 : (564 : Int) - 64 = 500 := by decide
  rw [h1, pagesCountOf_11_500, itemsOf_11_500] at he hctrl
  refine ⟨r, hr, he, ?_, ?_⟩
  · rw [hctrl]; decide
  · rw [hctrl]; decide

/-! ## Deactivating pagination (C16) -/

theorem paginationFor_1_hidden :
    paginationFor Pagination.init 1 (-64) =
      { active := some true, pagesCount := some (-1), itemsPerPage := some 1,
        tabWidth := some (-64), page := none, startIndex := none, endIndex := none,
        hasPrev := none, hasNext := none } := by
  have hc : ⌈(((96 : Int) * ((1 : Nat) : Int) : Int) : ℚ) / ((-64 : Int) : ℚ)⌉ = -1 := by
    norm_num [Int.ceil_eq_iff]
  have hf : ⌊((1 : Nat) : ℚ) / ((-1 : Int) : ℚ)⌋ = -1 := by norm_num [Int.floor_eq_iff]
  simp only [paginationFor, hc, itemsPerPageOf, hf, Pagination.init]
  norm_num

/-- C16 fails at this input: one tab in a container first measured 0px wide
(available width -64: pagination becomes active with `pagesCount = -1`) and
then 1000px wide. The second `updatePagination` deactivates pagination, but
`selectPageAt(0)` clamps the page to `lastPage = -2`, so `page` is -2 instead
of 0 and the header strip stays shifted by -128px. -/
theorem widen_after_narrow :
    updatePagination 1 exampleOneTabDirective 1 0 =
        some (exampleOneTabHidden, Completion.normal ()) ∧
      updatePagination 1 exampleOneTabHidden 1 1000 =
        some ({ ctrl := exampleOneTab,
                pagination :=
                  { active := some false, pagesCount := some (-1), itemsPerPage := some 1,
                    tabWidth := some (-64), page := some (-2), startIndex := some 0,
                    endIndex := some 0, hasPrev := some false, hasNext := some false },
                pagingOffset := some (-128) }, Completion.normal ()) := by
  refine ⟨?_, ?_⟩
  · rw [updatePagination_needed 1 _ 1 0 (by decide) (by decide)]
    have h1 : (0 : Int) - 64 = -64 := by decide
    simp only [h1, exampleOneTabDirective, paginationFor_1_hidden]
    simp [selectPageAt, clampPage, pageRange, pageOffset, slideTabButtons, isTabInRange,
      getPageAtTabIndex, selectAtNum, selectTabAt, Registry.inRange, ltNum, gtNum, geNum, leNum,
      Pagination.init, exampleOneTab, exampleOneTabHidden, SelIndex.toNumber]
    norm_num
  · rw [updatePagination_not_needed 1 _ 1 1000 (by decide)]
    simp [selectPageAt, clampPage, pageRange, pageOffset, slideTabButtons, isTabInRange,
      selectAtNum, selectTabAt, Registry.inRange, ltNum, gtNum, geNum, leNum,
      exampleOneTab, exampleOneTabHidden, SelIndex.toNumber]
    norm_num

/-- When `selectPageAt` ends normally, `pagination.page` holds the clamped
page. -/
theorem selectPageAt_page_normal (fuel : Nat) (d : TabsDirective) (n : Nat)
    (page : Option Int) (h : (selectPageAt fuel d n page).2 = Completion.normal ()) :
    (selectPageAt fuel d n page).1.pagination.page = clampPage d.pagination page := by
  simp only [selectPageAt] at h ⊢
  split
  · rename_i hcond
    rw [if_pos hcond] at h
    split <;> rename_i heq <;> rw [heq] at h <;> simp at h ⊢
  · rfl

/-- From a pagination state with `pagesCount >= 1`, `updatePagination` with a
container that is wide enough leaves `active = false`, `page = 0`,
`startIndex = 0`, `endIndex = tabCount - 1` and no previous or next page. -/
theorem updatePagination_deactivates (fuel : Nat) (d : TabsDirective) (n : Nat)
    (offsetWidth c : Int) (hact : d.pagination.active = some true)
    (hc : d.pagination.pagesCount = some c) (h1 : 1 ≤ c)
    (hwide : 96 * (n : Int) ≤ offsetWidth - 64) :
    ∃ r, updatePagination fuel d n offsetWidth = some r ∧
      r.1.pagination.active = some false ∧
      r.1.pagination.startIndex = some 0 ∧ r.1.pagination.endIndex = some ((n : Int) - 1) ∧
      r.1.pagination.hasPrev = some false ∧ r.1.pagination.hasNext = some false ∧
      (r.2 = Completion.normal () → r.1.pagination.page = some 0) := by
  refine ⟨_, updatePagination_not_needed fuel d n offsetWidth (by omega), ?_⟩
  have hne : some false ≠ d.pagination.active := by rw [hact]; simp
  rw [if_pos hne]
  rcases selectPageAt_fields fuel
    { d with pagination := { d.pagination with active := some false } } n (some 0)
    with ⟨ha, -, -, -, hs, he, hp, hn⟩
  refine ⟨ha, hs.trans (by simp [pageRange]), he.trans (by simp [pageRange]),
    hp.trans (by simp [pageRange]), hn.trans (by simp [pageRange]), ?_⟩
  have hclamp : clampPage ({ d.pagination with active := some false } : Pagination) (some 0) =
      some 0 := by
    rw [clampPage_some ({ d.pagination with active := some false } : Pagination) c 0 hc h1]
    simp
    omega
  intro hnormal
  rw [selectPageAt_page_normal _ _ _ _ hnormal, hclamp]

/-! ## Ink bar and content area (C18, C19) -/

/-- C18, amended: after `updateInkBar` the indicator is hidden (display none,
width 0) whenever no tab is selected, the selected tab has no element or an
empty one, or that element carries the class `pagination-hide`; otherwise it
takes the width of the selected tab's element and is displayed exactly when
that width is positive. The range `[startIndex, endIndex]` is not read. -/
theorem updateInkBar_hidden (immediate : Bool) (d : TabsDirective)
    (elements : Nat → Option TabButton) (headerLeft : ℚ) (inkBar : InkBar) :
    (d.ctrl.selected = none →
      (updateInkBar immediate d elements headerLeft inkBar).display = Display.none ∧
        (updateInkBar immediate d elements headerLeft inkBar).width = 0) ∧
    (selectedElement d.ctrl elements = none →
      (updateInkBar immediate d elements headerLeft inkBar).display = Display.none ∧
        (updateInkBar immediate d elements headerLeft inkBar).width = 0) ∧
    (∀ b, selectedElement d.ctrl elements = some b → (b.length = 0 ∨ b.paginationHide = true) →
      (updateInkBar immediate d elements headerLeft inkBar).display = Display.none ∧
        (updateInkBar immediate d elements headerLeft inkBar).width = 0) ∧
    (∀ b, selectedElement d.ctrl elements = some b → b.length ≠ 0 →
      b.paginationHide = false →
      (updateInkBar immediate d elements headerLeft inkBar).display =
          (if 0 < b.width then Display.block else Display.none) ∧
        (updateInkBar immediate d elements headerLeft inkBar).width = b.width) := by
  refine ⟨?_, ?_, ?_, ?_⟩
  · intro h
    simp [updateInkBar, selectedElement, h]
  · intro h
    simp [updateInkBar, h]
  · intro b hb hor
    rcases hor with h | h <;> simp [updateInkBar, hb, h]
  · intro b hb hl hp
    simp [updateInkBar, hb, hl, hp]

/-- C18 as stated fails. Two tabs, B (index 1) selected, in a container of
114px: `updatePagination` makes four pages of one tab and shows page 1;
`pagination.next()` twice moves to page 3, whose range is `[3, 3]` (each
`selectAt` it calls names an index outside the registry and does nothing), and
the next `updatePagination` (a window resize) keeps that state. B is still
selected, its index 1 is outside `[3, 3]`, and `updateInkBar` displays the ink
bar with the 50px width of B's element. -/
theorem updateInkBar_hidden_counterexample :
    updatePagination 1 exampleDirective 2 114 =
        some (examplePagedAt 1, Completion.normal ()) ∧
      paginationNext 1 (examplePagedAt 1) 2 = (examplePagedAt 2, Completion.normal ()) ∧
      paginationNext 1 (examplePagedAt 2) 2 = (examplePagedAt 3, Completion.normal ()) ∧
      updatePagination 1 (examplePagedAt 3) 2 114 =
        some (examplePagedAt 3, Completion.normal ()) ∧
      (examplePagedAt 3).ctrl.selected = some 11 ∧
      (examplePagedAt 3).ctrl.selIndex = some (SelIndex.string 1) ∧
      (examplePagedAt 3).pagination.startIndex = some 3 ∧
      (examplePagedAt 3).pagination.endIndex = some 3 ∧
      isTabInRange (examplePagedAt 3).pagination
        ((examplePagedAt 3).ctrl.selIndex.map SelIndex.toNumber) = false ∧
      updateInkBar false (examplePagedAt 3) (fun _ => some ⟨1, false, 50, 50⟩) 0
          ⟨false, Display.none, 0, none⟩ =
        ⟨true, Display.block, 50, some (-100)⟩ := by
  have hp : paginationFor Pagination.init 2 50 =
      { active := some true, pagesCount := some 4, itemsPerPage := some 1,
        tabWidth := some 50, page := none, startIndex := none, endIndex := none,
        hasPrev := none, hasNext := none } := by
    have hc : ⌈(((96 : Int) * ((2 : Nat) : Int) : Int) : ℚ) / ((50 : Int) : ℚ)⌉ = 4 := by
      norm_num [Int.ceil_eq_iff]
    have hf : ⌊((2 : Nat) : ℚ) / ((4 : Int) : ℚ)⌋ = 0 := by norm_num [Int.floor_eq_iff]
    simp only [paginationFor, hc, itemsPerPageOf, hf, Pagination.init]
    norm_num
  have hp3 : paginationFor (examplePagedAt 3).pagination 2 50 = (examplePagedAt 3).pagination := by
    have hc : ⌈(((96 : Int) * ((2 : Nat) : Int) : Int) : ℚ) / ((50 : Int) : ℚ)⌉ = 4 := by
      norm_num [Int.ceil_eq_iff]
    have hf : ⌊((2 : Nat) : ℚ) / ((4 : Int) : ℚ)⌋ = 0 := by norm_num [Int.floor_eq_iff]
    simp only [paginationFor, hc, itemsPerPageOf, hf, examplePagedAt]
    norm_num
  have h1 : (114 : Int) - 64 = 50 := by decide
  refine ⟨?_, ?_, ?_, ?_, rfl, rfl, rfl, rfl, by decide, ?_⟩
  · rw [updatePagination_needed 1 _ 2 114 (by decide) (by decide)]
    simp only [h1, exampleDirective, hp]
    simp [selectPageAt, clampPage, pageRange, pageOffset, slideTabButtons, isTabInRange,
      getPageAtTabIndex, selectAtNum, selectTabAt, Registry.inRange, ltNum, gtNum, geNum, leNum,
      Pagination.init, exampleBactive, examplePagedAt, SelIndex.toNumber]
  · simp [paginationNext, selectPageAt, clampPage, pageRange, pageOffset, slideTabButtons,
      isTabInRange, selectAtNum, selectTabAt, Registry.inRange, ltNum, gtNum, geNum, leNum,
      exampleBactive, examplePagedAt, SelIndex.toNumber]
  · simp [paginationNext, selectPageAt, clampPage, pageRange, pageOffset, slideTabButtons,
      isTabInRange, selectAtNum, selectTabAt, Registry.inRange, ltNum, gtNum, geNum, leNum,
      exampleBactive, examplePagedAt, SelIndex.toNumber]
  · rw [updatePagination_needed 1 _ 2 114 (by decide) (by decide)]
    simp only [h1]
    have hd : ({ examplePagedAt 3 with
        pagination := paginationFor (examplePagedAt 3).pagination 2 50 } : TabsDirective) =
        examplePagedAt 3 := by rw [hp3]
    rw [hd]
    have hc : ⌈(((96 : Int) * ((2 : Nat) : Int) : Int) : ℚ) / ((50 : Int) : ℚ)⌉ = 4 := by
      norm_num [Int.ceil_eq_iff]
    rw [hc]
    simp [selectPageAt, clampPage, pageRange, pageOffset, slideTabButtons,
      isTabInRange, selectAtNum, selectTabAt, Registry.inRange, ltNum, gtNum, geNum, leNum,
      exampleBactive, examplePagedAt, SelIndex.toNumber]
  · simp [updateInkBar, selectedElement, examplePagedAt, exampleBactive]
    norm_num

/-- C19 fails on the code: whatever the contents of the tabs and whether or
not the container carried `ng-hide`, `buildContentItems` leaves the content
container without `ng-hide`, also when every tab has empty content
(`showTabContent(false)` calls `toggleClass('ng-hide', false)`). -/
theorem buildContentItems_never_hides (ngHide : Bool) (contents : List (Option (List Node))) :
    buildContentItems ngHide contents = false ∧
      buildContentItems true [none, some [], some [⟨3, true⟩, ⟨8, false⟩]] = false := by
  refine ⟨?_, by decide⟩
  simp only [buildContentItems, showTabContent, toggleClass]
  split <;> rfl

/-! ## Write-back of the bound index (C11) -/

theorem findIdx_map_id (l : List Tab) (i : Nat) :
    l.findIdx (fun it => it.id == i) = (l.map (fun it => it.id)).findIdx (fun j => j == i) := by
  induction l with
  | nil => rfl
  | cons a rest ih => simp only [List.map_cons, List.findIdx_cons, ih]

theorem Registry.indexOf_congr (l l2 : List Tab) (t t2 : Tab)
    (hl : l.map (fun it => it.id) = l2.map (fun it => it.id)) (ht : t.id = t2.id) :
    Registry.indexOf l t = Registry.indexOf l2 t2 := by
  have hc : Registry.contains l t = Registry.contains l2 t2 := by
    rw [Bool.eq_iff_iff, Registry.contains_iff, Registry.contains_iff, hl, ht]
  simp only [Registry.indexOf, hc, findIdx_map_id, hl, ht]

theorem ids_of_idIndex {l l2 : List Tab}
    (h : l.map (fun it => (it.id, it.index)) = l2.map (fun it => (it.id, it.index))) :
    l.map (fun it => it.id) = l2.map (fun it => it.id) := by
  have := congrArg (List.map Prod.fst) h
  simpa [List.map_map, Function.comp_def] using this

theorem IndexSound.congr {l l2 : List Tab}
    (h : l.map (fun it => (it.id, it.index)) = l2.map (fun it => (it.id, it.index)))
    (hs : IndexSound l) : IndexSound l2 := by
  intro t2 ht2
  have hmem : (t2.id, t2.index) ∈ l.map (fun it => (it.id, it.index)) := by
    rw [h]; exact List.mem_map.2 ⟨t2, ht2, rfl⟩
  rcases List.mem_map.1 hmem with ⟨t, ht, heq⟩
  have hid : t.id = t2.id := congrArg Prod.fst heq
  have hix : t.index = t2.index := congrArg Prod.snd heq
  rcases hs t ht with ⟨i, hi, h0⟩
  refine ⟨i, by rw [← hix]; exact hi, ?_⟩
  intro hz
  rw [← Registry.indexOf_congr l l2 t t2 (ids_of_idIndex h) hid]
  exact h0 hz

theorem selIndexValue_sound (l : List Tab) (t : Tab) (hs : IndexSound l) (ht : t ∈ l) :
    some (selIndexValue l (some t)) = t.index.map (fun i => SelIndex.string (i : Int)) := by
  rcases hs t ht with ⟨i, hi, h0⟩
  cases i with
  | zero => simp [selIndexValue, hi, h0 rfl]
  | succ k => simp [selIndexValue, hi]

/-- The tab object an activation returns is the object with the target's id; it
is in the registry when the target is. -/
theorem activate_result (l : List Tab) (sel : Option Nat) (x r : Tab)
    (h : (activate l sel (some x)).2.2.2 = some r) :
    r.id = x.id ∧ (x.id ∈ l.map (fun it => it.id) → r ∈ (activate l sel (some x)).1) := by
  induction l with
  | nil =>
    simp only [activate, updateState] at h
    split at h
    · simp only [if_true, Option.some.injEq] at h
      subst h
      exact ⟨rfl, by simp⟩
    · cases h
  | cons t rest ih =>
    by_cases hid : t.id = x.id
    · simp only [activate, hid, if_true, updateState] at h ⊢
      split at h
      · rename_i hact
        simp only [if_true, Option.some.injEq] at h
        subst h
        refine ⟨rfl, fun _ => ?_⟩
        simp [hact]
      · cases h
    · simp only [activate, hid, if_false] at h ⊢
      rcases ih h with ⟨h1, h2⟩
      refine ⟨h1, fun hx => ?_⟩
      rcases List.mem_cons.1 hx with heq | hm
      · exact absurd heq.symm hid
      · exact List.mem_cons_of_mem _ (h2 hm)

theorem selectTab_some_selIndex (s : TabsController) (t : Tab) (b : Bool)
    (h : some t.id ≠ s.selected) :
    (selectTab s (some t) b).1.selIndex =
      some (selIndexValue (selectTab s (some t) b).1.list (selectTab s (some t) b).2) := by
  simp only [selectTab, Option.map_some', h, if_false]
  cases b <;> simp

theorem nodup_id_eq {l : List Tab} (hnd : (l.map (fun it => it.id)).Nodup) {a b : Tab}
    (ha : a ∈ l) (hb : b ∈ l) (h : a.id = b.id) : a = b := by
  induction l with
  | nil => cases ha
  | cons t rest ih =>
    rw [List.map_cons, List.nodup_cons] at hnd
    rcases List.mem_cons.1 ha with ha1 | ha1
    · rcases List.mem_cons.1 hb with hb1 | hb1
      · rw [ha1, hb1]
      · exact absurd (List.mem_map.2 ⟨b, hb1, by rw [← h, ha1]⟩) hnd.1
    · rcases List.mem_cons.1 hb with hb1 | hb1
      · exact absurd (List.mem_map.2 ⟨a, ha1, by rw [h, hb1]⟩) hnd.1
      · exact ih hnd.2 ha1 hb1

/-- A `selectTab` of a non-null tab either returns early, leaving the state as
it is, or leaves the bound index in agreement with the selection. -/
theorem selectTab_synced (s : TabsController) (t : Tab) (b : Bool)
    (hnd : (s.list.map (fun it => it.id)).Nodup) (hs : IndexSound s.list) :
    (selectTab s (some t) b).1 = s ∨ Synced (selectTab s (some t) b).1 := by
  by_cases h : some t.id = s.selected
  · left
    rw [selectTab_early s (some t) b h]
  · right
    have hidx := selectTab_idIndex s (some t) b
    have hs2 : IndexSound (selectTab s (some t) b).1.list := IndexSound.congr hidx.symm hs
    have hnd2 : ((selectTab s (some t) b).1.list.map (fun it => it.id)).Nodup := by
      rw [ids_of_idIndex hidx]; exact hnd
    have hsel := selectTab_some_selected s t b h
    have hres := selectTab_some_result s t b h
    have hlist := selectTab_some_list s t b h
    have hix := selectTab_some_selIndex s t b h
    rw [← hres] at hsel
    refine ⟨?_, ?_⟩
    · intro x hx hsx
      rw [hsel] at hsx
      cases hr : (selectTab s (some t) b).2 with
      | none => rw [hr] at hsx; cases hsx
      | some r =>
        rw [hr] at hsx hix
        have hrid : r.id = x.id := by simpa using hsx
        -- the returned object is the registry's object
        have hrmem : r ∈ (selectTab s (some t) b).1.list := by
          rw [hres] at hr
          cases htar : (if t.disabled then Registry.next (s.list.map Tab.off) t isEnabled
              else some t) with
          | none => rw [htar, activate_none] at hr; cases hr
          | some y =>
            rw [htar] at hr hlist
            rcases activate_result _ _ y r hr with ⟨hry, hmem⟩
            rw [hlist]
            apply hmem
            have : x.id ∈ (selectTab s (some t) b).1.list.map (fun it => it.id) :=
              List.mem_map.2 ⟨x, hx, rfl⟩
            rw [selectTab_some_list s t b h, htar, activate_ids] at this
            rw [← hry, hrid]
            exact this
        have hrx : r = x := nodup_id_eq hnd2 hrmem hx hrid
        rw [hix, hrx]
        exact selIndexValue_sound _ x hs2 hx
    · intro hnone
      rw [hsel] at hnone
      cases hr : (selectTab s (some t) b).2 with
      | none => rw [hix, hr]; rfl
      | some r => rw [hr] at hnone; cases hnone

theorem selectTab_nodup (s : TabsController) (tab : Option Tab) (b : Bool)
    (hnd : (s.list.map (fun it => it.id)).Nodup) :
    ((selectTab s tab b).1.list.map (fun it => it.id)).Nodup := by
  rw [ids_of_idIndex (selectTab_idIndex s tab b)]; exact hnd

theorem selectTab_indexSound (s : TabsController) (tab : Option Tab) (b : Bool)
    (hs : IndexSound s.list) : IndexSound (selectTab s tab b).1.list :=
  IndexSound.congr (selectTab_idIndex s tab b).symm hs

/-- The calls `next(target)` and `previous(target)` either leave the state as it
is or leave the bound index in agreement with the selection; they keep the
`$id`s and `$index`es of the registry. -/
theorem selectNext_selectPrevious_synced (fuel : Nat) (s : TabsController)
    (target : Option Tab) (hnd : (s.list.map (fun it => it.id)).Nodup)
    (hs : IndexSound s.list) :
    (((selectNext fuel s target).1 = s ∨ Synced (selectNext fuel s target).1) ∧
        (selectNext fuel s target).1.list.map (fun it => (it.id, it.index)) =
          s.list.map (fun it => (it.id, it.index))) ∧
      (((selectPrevious fuel s target).1 = s ∨ Synced (selectPrevious fuel s target).1) ∧
        (selectPrevious fuel s target).1.list.map (fun it => (it.id, it.index)) =
          s.list.map (fun it => (it.id, it.index))) := by
  induction fuel with
  | zero => exact ⟨⟨Or.inl (by simp [selectNext]), by simp [selectNext]⟩,
      ⟨Or.inl (by simp [selectPrevious]), by simp [selectPrevious]⟩⟩
  | succ k ih =>
    cases target with
    | none => exact ⟨⟨Or.inl (by simp [selectNext]), by simp [selectNext]⟩,
        ⟨Or.inl (by simp [selectPrevious]), by simp [selectPrevious]⟩⟩
    | some t =>
      refine ⟨?_, ?_⟩
      · simp only [selectNext]
        split
        · exact ⟨selectTab_synced s _ false hnd hs, selectTab_idIndex s _ false⟩
        · split
          · exact ih.2
          · exact ⟨Or.inl rfl, rfl⟩
      · simp only [selectPrevious]
        split
        · exact ⟨selectTab_synced s _ false hnd hs, selectTab_idIndex s _ false⟩
        · split
          · exact ih.1
          · exact ⟨Or.inl rfl, rfl⟩

theorem selectTabAt_synced (fuel : Nat) (s : TabsController) (index : Int) (b : Bool)
    (hnd : (s.list.map (fun it => it.id)).Nodup) (hs : IndexSound s.list) :
    (selectTabAt fuel s index b).1 = s ∨ Synced (selectTabAt fuel s index b).1 := by
  have hrange : Registry.inRange s.list index = true → ∃ f, Registry.first s.list = some f := by
    intro h
    cases hl : s.list with
    | nil => simp [Registry.inRange, hl] at h; omega
    | cons a rest => exact ⟨a, rfl⟩
  have hd := (selectNext_selectPrevious_synced fuel s (Registry.findBy s.list index).head?
    hnd hs).1
  simp only [selectTabAt]
  split
  · rename_i hin
    rcases hrange hin with ⟨f, hf⟩
    split
    · split
      · split
        · rename_i s1 it1 heq
          rw [heq] at hd
          simp only at hd ⊢
          have hnd1 : (s1.list.map (fun it => it.id)).Nodup := by
            rw [ids_of_idIndex hd.2]; exact hnd
          have hs1 : IndexSound s1.list := IndexSound.congr hd.2.symm hs
          have hf1 : ∃ g, Registry.first s1.list = some g := by
            have hlen := congrArg List.length hd.2
            simp only [List.length_map] at hlen
            cases hl1 : s1.list with
            | nil =>
              rw [hl1] at hlen
              have : s.list = [] := List.length_eq_zero.1 hlen.symm
              rw [Registry.first, this] at hf
              cases hf
            | cons a rest => exact ⟨a, rfl⟩
          rcases hf1 with ⟨g, hg⟩
          have harg : ∃ y, it1.orElse (fun _ => Registry.first s1.list) = some y := by
            cases it1 with
            | none => exact ⟨g, by simp [Option.orElse, hg]⟩
            | some y => exact ⟨y, rfl⟩
          rcases harg with ⟨y, hy⟩
          rw [hy]
          rcases selectTab_synced s1 y b hnd1 hs1 with h2 | h2
          · rw [h2]; exact hd.1
          · exact Or.inr h2
        · rename_i s1 heq
          rw [heq] at hd; exact hd.1
        · rename_i s1 heq
          rw [heq] at hd; exact hd.1
      · have harg : ∃ y, (Registry.findBy s.list index).head?.orElse
            (fun _ => Registry.first s.list) = some y := by
          cases (Registry.findBy s.list index).head? with
          | none => exact ⟨f, by simp [Option.orElse, hf]⟩
          | some y => exact ⟨y, rfl⟩
        rcases harg with ⟨y, hy⟩
        rw [hy]
        exact selectTab_synced s y b hnd hs
    · exact Or.inl rfl
  · exact Or.inl rfl

theorem IndexSound.append (l : List Tab) (tab : Tab) (hs : IndexSound l)
    (hnot : tab.id ∉ l.map (fun it => it.id)) (hidx : tab.index = some l.length) :
    IndexSound (l ++ [tab]) := by
  intro t ht
  rcases List.mem_append.1 ht with hm | hm
  · rcases hs t hm with ⟨i, hi, h0⟩
    refine ⟨i, hi, fun hz => ?_⟩
    have hc1 : Registry.contains (l ++ [tab]) t = true :=
      (Registry.contains_iff _ _).2 (List.mem_map.2 ⟨t, ht, rfl⟩)
    have hc0 : Registry.contains l t = true :=
      (Registry.contains_iff _ _).2 (List.mem_map.2 ⟨t, hm, rfl⟩)
    have h00 := h0 hz
    simp only [Registry.indexOf, hc0, if_true] at h00
    simp only [Registry.indexOf, hc1, if_true]
    have hlt : l.findIdx (fun it => it.id == t.id) < l.length :=
      List.findIdx_lt_length_of_exists ⟨t, hm, by simp⟩
    rw [List.findIdx_append, if_pos hlt]
    exact h00
  · have : t = tab := by simpa using hm
    subst this
    refine ⟨l.length, hidx, fun hz => ?_⟩
    have hnil : l = [] := List.length_eq_zero.1 hz
    subst hnil
    simp [Registry.indexOf, Registry.contains, List.findIdx_cons]

/-- Every operation other than an `add` with explicit index either keeps the
selection or leaves in the bound index what `selectTab` assigns for the new
selection (the string of the selected tab's `$index`, the number -1 for no
selection), apart from what a `remove` that deselects everything leaves. -/
theorem step_synced (fuel : Nat) (s : TabsController) (op : Op)
    (hnd : (s.list.map (fun it => it.id)).Nodup) (hs : IndexSound s.list)
    (hop : op.noExplicitIndex) (hchg : (step fuel s op).selected ≠ s.selected) :
    (∀ x ∈ (step fuel s op).list, (step fuel s op).selected = some x.id →
        (step fuel s op).selIndex = x.index.map (fun i => SelIndex.string (i : Int))) ∧
      (op.notRemove → (step fuel s op).selected = none →
        (step fuel s op).selIndex = some (SelIndex.number (-1))) := by
  cases op with
  | select tab =>
    rcases selectTab_synced s tab false hnd hs with h | h
    · exact absurd (by simp only [step]; rw [h]) hchg
    · exact ⟨h.1, fun _ => h.2⟩
  | selectAt index =>
    rcases selectTabAt_synced fuel s index false hnd hs with h | h
    · exact absurd (by simp only [step]; rw [h]) hchg
    · exact ⟨h.1, fun _ => h.2⟩
  | add tab =>
    have hnone : tab.index = none := hop
    simp only [step, addTab, updateHash, hnone, Option.getD_none] at hchg ⊢
    split at hchg
    · rename_i hc
      rw [if_pos hc] 
      have hnot : tab.id ∉ s.list.map (fun it => it.id) := by
        intro hmem
        have := (Registry.contains_iff s.list
          ⟨tab.id, some (Registry.count s.list), tab.disabled, tab.active⟩).2 hmem
        simp [this] at hc
      have hadd : (Registry.add s.list
          ⟨tab.id, some (Registry.count s.list), tab.disabled, tab.active⟩
          (Registry.count s.list)).1 =
          s.list ++ [⟨tab.id, some (Registry.count s.list), tab.disabled, tab.active⟩] := by
        simp [Registry.add, Registry.count]
      have hnd2 : ((s.list ++ [(⟨tab.id, some (Registry.count s.list), tab.disabled,
          tab.active⟩ : Tab)]).map (fun it => it.id)).Nodup := by
        rw [List.map_append, List.nodup_append]
        refine ⟨hnd, by simp, ?_⟩
        intro a ha hb
        have : a = tab.id := by simpa using hb
        exact hnot (this ▸ ha)
      have hs2 : IndexSound (s.list ++ [(⟨tab.id, some (Registry.count s.list), tab.disabled,
          tab.active⟩ : Tab)]) := IndexSound.append s.list _ hs hnot rfl
      rw [hadd] at hchg ⊢
      split at hchg
      · rename_i hcond
        rw [if_pos hcond]
        rcases selectTab_synced
          { s with list := s.list ++ [(⟨tab.id, some (Registry.count s.list), tab.disabled,
              tab.active⟩ : Tab)] }
          ⟨tab.id, some (Registry.count s.list), tab.disabled, tab.active⟩ false hnd2 hs2
          with h | h
        · rw [h] at hchg
          exact absurd rfl hchg
        · exact ⟨h.1, fun _ => h.2⟩
      · simp at hchg
    · exact absurd rfl hchg
  | remove tab =>
    simp only [step, removeTab, updateHash] at hchg ⊢
    split at hchg
    · rename_i hc
      rw [if_pos hc]
      simp only [onTabsChanged_list, onTabsChanged_selected, onTabsChanged_selIndex] at hchg ⊢
      refine ⟨?_, fun h => absurd h (by simp [Op.notRemove])⟩
      cases htar : (Registry.next s.list tab isEnabled).orElse
          (fun _ => Registry.previous s.list tab isEnabled) with
      | some y =>
        rw [htar] at hchg
        rcases selectTab_synced s y false hnd hs with h | h
        · rw [h] at hchg
          exact absurd rfl hchg
        · intro x hx hsx
          exact h.1 x (List.mem_of_mem_filter hx) hsx
      | none =>
        rw [htar] at hchg
        intro x hx hsx
        exfalso
        by_cases h0 : none = s.selected
        · rw [selectTab_early s none false (by simpa using h0)] at hchg
          exact hchg rfl
        · rw [(selectTab_none_spec s false h0).2.1] at hchg hsx
          split at hchg
          · rename_i hany
            rw [if_pos hany] at hsx
            cases hsx
          · exact hchg rfl
    · exact absurd rfl hchg

theorem IndexSound.remove (l : List Tab) (t : Tab) (hs : IndexSound l) :
    IndexSound (Registry.remove l t) := by
  intro u hu
  have hul : u ∈ l := List.mem_of_mem_filter hu
  have hne : u.id ≠ t.id := by
    have := (List.mem_filter.1 hu).2
    simpa using this
  rcases hs u hul with ⟨i, hi, h0⟩
  refine ⟨i, hi, fun hz => ?_⟩
  have h00 := h0 hz
  have hc : Registry.contains l u = true := mem_contains hul
  simp only [Registry.indexOf, hc, if_true] at h00
  have hc2 : Registry.contains (Registry.remove l t) u = true := mem_contains hu
  simp only [Registry.indexOf, hc2, if_true]
  cases l with
  | nil => cases hul
  | cons h rest =>
    have h01 : (h :: rest).findIdx (fun it => it.id == u.id) = 0 := by exact_mod_cast h00
    have hhead : h.id = u.id := by
      by_contra hneq
      have hb : (h.id == u.id) = false := by simpa using hneq
      rw [List.findIdx_cons, hb] at h01
      simp at h01
    have hkeep : (h.id != t.id) = true := by
      rw [hhead]; simpa using hne
    simp [Registry.remove, List.filter_cons, hkeep, List.findIdx_cons, hhead, hne]

theorem selectTabAt_idIndex (fuel : Nat) (s : TabsController) (index : Int) (b : Bool)
    (hnd : (s.list.map (fun it => it.id)).Nodup) (hs : IndexSound s.list) :
    (selectTabAt fuel s index b).1.list.map (fun it => (it.id, it.index)) =
      s.list.map (fun it => (it.id, it.index)) := by
  have hd := (selectNext_selectPrevious_synced fuel s (Registry.findBy s.list index).head?
    hnd hs).1.2
  simp only [selectTabAt]
  split
  · split
    · split
      · split
        · rename_i s1 it1 heq
          rw [heq] at hd
          rw [selectTab_idIndex]
          exact hd
        · rename_i s1 heq
          rw [heq] at hd; exact hd
        · rename_i s1 heq
          rw [heq] at hd; exact hd
      · rw [selectTab_idIndex]
    · rfl
  · rfl

theorem addTab_indexSound (s : TabsController) (tab : Tab) (hnone : tab.index = none)
    (hs : IndexSound s.list) : IndexSound (addTab s tab).1.list := by
  simp only [addTab, updateHash, hnone, Option.getD_none]
  split
  · rename_i hc
    have hnot : tab.id ∉ s.list.map (fun it => it.id) := by
      intro hmem
      have := (Registry.contains_iff s.list
        ⟨tab.id, some (Registry.count s.list), tab.disabled, tab.active⟩).2 hmem
      simp [this] at hc
    have hadd : (Registry.add s.list
        ⟨tab.id, some (Registry.count s.list), tab.disabled, tab.active⟩
        (Registry.count s.list)).1 =
        s.list ++ [⟨tab.id, some (Registry.count s.list), tab.disabled, tab.active⟩] := by
      simp [Registry.add, Registry.count]
    have hs2 : IndexSound (s.list ++ [(⟨tab.id, some (Registry.count s.list), tab.disabled,
        tab.active⟩ : Tab)]) := IndexSound.append s.list _ hs hnot rfl
    rw [hadd]
    split
    · exact selectTab_indexSound _ _ _ hs2
    · simpa using hs2
  · exact hs

theorem removeTab_indexSound (s : TabsController) (tab : Tab) (hs : IndexSound s.list) :
    IndexSound (removeTab s tab).list := by
  simp only [removeTab, updateHash]
  split
  · simp only [onTabsChanged_list]
    exact IndexSound.remove _ tab (selectTab_indexSound _ _ _ hs)
  · exact hs

theorem step_indexSound (fuel : Nat) (s : TabsController) (op : Op) (hinv : Inv s)
    (hs : IndexSound s.list) (hop : op.noExplicitIndex) : IndexSound (step fuel s op).list := by
  cases op with
  | add tab => exact addTab_indexSound s tab hop hs
  | remove tab => exact removeTab_indexSound s tab hs
  | select tab => exact selectTab_indexSound s _ _ hs
  | selectAt index =>
    exact IndexSound.congr (selectTabAt_idIndex fuel s index false hinv.1 hs).symm hs

theorem foldl_step_indexSound (fuel : Nat) (ops : List Op) (s : TabsController) (hinv : Inv s)
    (hs : IndexSound s.list) (hops : ∀ o ∈ ops, o.noExplicitIndex) :
    Inv (ops.foldl (step fuel) s) ∧ IndexSound (ops.foldl (step fuel) s).list := by
  induction ops generalizing s with
  | nil => exact ⟨hinv, hs⟩
  | cons op rest ih =>
    exact ih _ (step_inv fuel s op hinv)
      (step_indexSound fuel s op hinv hs (hops op (List.mem_cons_self _ _)))
      (fun o ho => hops o (List.mem_cons_of_mem _ ho))

/-- C11, amended: on a controller driven from an empty registry by `add`
(without explicit index), `remove`, `select` and `selectAt`, after every
operation that changes which tab is selected, the bound index `$selIndex`,
read as a number, is the `$index` of the registry tab that is now selected,
and it is -1 when a `select`, `selectAt` or `add` leaves nothing selected.
(Whether the value is held as an integer or as a string is not part of the
statement; `step_synced` gives the value that is stored.) -/
theorem selIndex_written_back (fuel : Nat) (selIndex : Option Int) (ops : List Op) (op : Op)
    (hops : ∀ o ∈ ops, o.noExplicitIndex) (hop : op.noExplicitIndex)
    (hchg : (step fuel (run fuel selIndex ops) op).selected ≠ (run fuel selIndex ops).selected) :
    (∀ x ∈ (step fuel (run fuel selIndex ops) op).list,
        (step fuel (run fuel selIndex ops) op).selected = some x.id →
        (step fuel (run fuel selIndex ops) op).selIndex.map SelIndex.toNumber =
          x.index.map (fun i => (i : Int))) ∧
      (op.notRemove → (step fuel (run fuel selIndex ops) op).selected = none →
        (step fuel (run fuel selIndex ops) op).selIndex.map SelIndex.toNumber = some (-1)) := by
  have h := foldl_step_indexSound fuel ops (TabsController.init selIndex) (init_inv selIndex)
    (fun t ht => by simp [TabsController.init] at ht) hops
  have h2 := step_synced fuel (run fuel selIndex ops) op h.1.1 h.2 hop hchg
  refine ⟨fun x hx hsx => ?_, fun hnr hnone => ?_⟩
  · rw [h2.1 x hx hsx]
    cases x.index <;> rfl
  · rw [h2.2 hnr hnone]
    rfl

/-- Witness of the amended C11: after adding A and B, selecting B leaves B
selected and a bound index that reads as B's index 1; the value stored is the
string `String(1)`. -/
theorem selIndex_written_back_witness :
    (step 1 (run 1 none [Op.add ⟨10, none, false, false⟩, Op.add ⟨11, none, false, false⟩])
        (Op.select ⟨11, some 1, false, false⟩)).selected = some 11 ∧
      (step 1 (run 1 none [Op.add ⟨10, none, false, false⟩, Op.add ⟨11, none, false, false⟩])
        (Op.select ⟨11, some 1, false, false⟩)).selIndex.map SelIndex.toNumber = some 1 ∧
      (step 1 (run 1 none [Op.add ⟨10, none, false, false⟩, Op.add ⟨11, none, false, false⟩])
        (Op.select ⟨11, some 1, false, false⟩)).selIndex = some (SelIndex.string 1) :=
  ⟨by decide,
    (selIndex_written_back 1 none
      [Op.add ⟨10, none, false, false⟩, Op.add ⟨11, none, false, false⟩]
      (Op.select ⟨11, some 1, false, false⟩)
      (by intro o ho; simp at ho; rcases ho with rfl | rfl <;> rfl) trivial (by decide)).1
      ⟨11, some 1, false, true⟩ (by decide) (by decide),
    by decide⟩

/-- C11 as stated fails: after `add` of an active tab A (which selects it and
writes its index 0, as the string `String(0)`), `remove(A)` leaves no tab
selected or active, and the bound index still holds that value, not -1. Also,
after `add` of A and then of B with the explicit index 0 (which places B
before A), `select(A)` writes A's position 1 although A's `$index` is 0. -/
theorem selIndex_written_back_counterexample :
    ((run 1 none [Op.add ⟨10, none, false, true⟩]).selected = some 10 ∧
      (step 1 (run 1 none [Op.add ⟨10, none, false, true⟩])
        (Op.remove ⟨10, some 0, false, true⟩)).selected = none ∧
      activeTabs (step 1 (run 1 none [Op.add ⟨10, none, false, true⟩])
        (Op.remove ⟨10, some 0, false, true⟩)) = [] ∧
      (step 1 (run 1 none [Op.add ⟨10, none, false, true⟩])
        (Op.remove ⟨10, some 0, false, true⟩)).selIndex = some (SelIndex.string 0) ∧
      (step 1 (run 1 none [Op.add ⟨10, none, false, true⟩])
        (Op.remove ⟨10, some 0, false, true⟩)).selIndex.map SelIndex.toNumber ≠ some (-1)) ∧
    ((step 1 (run 1 none [Op.add ⟨10, none, false, false⟩, Op.add ⟨11, some 0, false, false⟩])
        (Op.select ⟨10, some 0, false, false⟩)).list =
        [⟨11, some 0, false, false⟩, ⟨10, some 0, false, true⟩] ∧
      (step 1 (run 1 none [Op.add ⟨10, none, false, false⟩, Op.add ⟨11, some 0, false, false⟩])
        (Op.select ⟨10, some 0, false, false⟩)).selIndex = some (SelIndex.string 1)) := by
  decide

end Tabs
